import Mathlib

/-!
Verification of the justsql compiler core (the `src/codegen`, `src/query.rs` and
`src/engine/importer` tree of the repository) against its natural-language
specification.

Conventions of the shallow embedding:
* Rust `&str` slices are modelled as `List Char` (`Str` below); a remaining-input
  suffix is simply the corresponding list suffix, so `SpanRef` stores the two
  suffixes exactly as the source does.
* Rust `BTreeMap`/`BTreeSet` values are modelled as association lists / lists;
  wherever the source relies on the sorted iteration order of a `BTreeMap`, the
  embedding reproduces that order explicitly (see the comments at each site).
* Filesystem operations (`Path::canonicalize`, reading files) are impure and are
  passed in as function parameters.
* Rust panics (`todo!()`) are modelled by `Option`/`Except` with `none`/error
  standing for the panic, as noted at each site.
-/

set_option autoImplicit false

namespace JustSQL

/-- Strings of the source language; Rust `&str` modelled as a list of chars. -/
abbrev Str := List Char

/-- Conversion from Lean string literals, used only to write concrete inputs. -/
def s2l (s : String) : Str := s.data

/-- Decimal rendering of a number, as produced by `write!("{}", n)`. -/
def natStr (n : Nat) : Str := (Nat.repr n).data

/-- Whitespace trimming, as `str::trim` (restricted to the ASCII whitespace that
occurs in the repository's inputs). -/
def Str.trim (s : Str) : Str :=
  (s.dropWhile Char.isWhitespace).reverse.dropWhile Char.isWhitespace |>.reverse

/-- Embeds `codegen::span_ref::SpanRef<'a, A>`: a value together with the input
suffix where its text starts and the suffix right after it.  The Rust field
`end` is called `stop` here because `end` is a Lean keyword. -/
structure SpanRef (A : Type) where
  start : Str
  stop : Str
  value : A
  deriving Repr, DecidableEq

namespace SpanRef

/-- Embeds `SpanRef::map`. -/
def map {A B : Type} (r : SpanRef A) (f : A → B) : SpanRef B :=
  ⟨r.start, r.stop, f r.value⟩

/-- Embeds `SpanRef::with` (`with` is a Lean keyword, hence the name). -/
def withValue {A B : Type} (r : SpanRef A) (value : B) : SpanRef B :=
  ⟨r.start, r.stop, value⟩

/-- Embeds `SpanRef::value_str`: the consumed text, recovered from the two
suffixes (`&self.start[0 .. start.len - end.len]`). -/
def valueStr {A : Type} (r : SpanRef A) : Str :=
  r.start.take (r.start.length - r.stop.length)

end SpanRef

/-- Embeds `codegen::module::AuthSettings`. -/
inductive AuthSettings where
  | VerifyToken (expiry : Option Nat)
  | SetToken (expiry : Nat)
  | RemoveToken
  deriving Repr, DecidableEq

/-- Embeds `codegen::ast::decorator::Decorator`.  Paths are `Str`. -/
inductive Decorator where
  | Auth (settings : AuthSettings)
  | Import (name : SpanRef Str) (path : SpanRef Str)
  | Endpoint (name : Str)
  | Param (name : Str)
  deriving Repr, DecidableEq

/-- Embeds `codegen::ast::sql::InterpSpan`. -/
inductive InterpSpan where
  | Literal (lit : Str)
  | Param (name : Str)
  | AuthParam (name : Str)
  | CallSite (func : Str) (args : List (SpanRef Str))
  deriving Repr, DecidableEq

/-- Embeds `codegen::ast::sql::StatementSpan` (a tuple struct; its single field
`0` is called `interps` here). -/
structure StatementSpan where
  interps : List (SpanRef InterpSpan)
  deriving Repr, DecidableEq

/-- Embeds `codegen::result::ErrorKind`. -/
inductive ErrorKind where
  | ConstError (msg : String)
  | UndefinedParameterError (name : Str)
  | UndefinedArgumentError (arg : Str) (func : Str)
  deriving Repr, DecidableEq

/-- Embeds `codegen::result::IrErrorKind`. -/
inductive IrErrorKind where
  | ConstError (msg : String)
  | ReservedWordError (word : Str)
  | UndefinedFunctionError (func : Str)
  | WrongNumberArgumentsError (expected got : Nat)
  deriving Repr, DecidableEq

/-- Kinds of low-level nom errors that the embedded combinators can produce
(`nom::error::ErrorKind`; only the variants reachable in the embedded parsers
are listed). -/
inductive NomErrorKind where
  | Tag
  | Char
  | TakeWhile1
  | Satisfy
  | IsNot
  | Take
  | Many0
  | Many1
  | SeparatedList
  | Eof
  | Alt
  deriving Repr, DecidableEq

/-- Alias so that the types of error kinds stay visible inside the declaration
of `ParseError`, whose constructors shadow their names. -/
abbrev ErrorKindT := ErrorKind

/-- Alias, see `ErrorKindT`. -/
abbrev IrErrorKindT := IrErrorKind

/-- Embeds `codegen::result::ParseError`. -/
inductive ParseError where
  | Multiple (errors : List ParseError)
  | NomError (input : Str) (kind : NomErrorKind)
  | ErrorKind (input : Str) (kind : ErrorKindT)
  | IrErrorKind (input : Str) (kind : IrErrorKindT)
  deriving Repr

/-- Embeds `ParseError::const_error`. -/
def ParseError.constError (input : Str) (reason : String) : ParseError :=
  ParseError.ErrorKind input (ErrorKind.ConstError reason)

/-- Embeds `ParseError::error_kind`. -/
def ParseError.errorKind (input : Str) (kind : ErrorKindT) : ParseError :=
  ParseError.ErrorKind input kind

/-- True exactly on the `ParseError::Multiple` variant. -/
def ParseError.isMultiple : ParseError → Bool
  | ParseError.Multiple _ => true
  | _ => false

/-- Embeds `codegen::result::CResult`. -/
abbrev CResult (O : Type) := Except ParseError O

/-- Embeds `codegen::ir::statement::Interp`. -/
inductive Interp where
  | Literal (lit : Str)
  | Param (name : Str)
  | AuthParam (name : Str)
  | CallSite (func : Str) (args : List Str)
  deriving Repr, DecidableEq

/-- Embeds `Interp::from` (lowering a span-tracked node to an owned one). -/
def Interp.fromSpan : InterpSpan → Interp
  | InterpSpan.Literal lit => Interp.Literal lit
  | InterpSpan.Param p => Interp.Param p
  | InterpSpan.AuthParam p => Interp.AuthParam p
  | InterpSpan.CallSite f args => Interp.CallSite f (args.map (·.value))

/-- Embeds `codegen::module::ParamType`.  The Rust type derives `Ord` with
`Auth _ < Param _`; the embedding only needs decidable equality because every
consumer of the ordering is modelled explicitly (see `buildQueryStatement`). -/
inductive ParamType where
  | Auth (name : Str)
  | Param (name : Str)
  deriving Repr, DecidableEq

/-- Embeds `codegen::ir::front_matter::FrontMatter`.  `imports` models the
`BTreeMap<String, (PathBuf, Vec<String>)>` as an association list; no consumer
of `imports` depends on its iteration order (it is only queried with `get`). -/
structure FrontMatter where
  location : Str
  endpoint : Option Str
  params : List Str
  imports : List (Str × (Str × List Str))
  auth_settings : Option AuthSettings
  deriving Repr, DecidableEq

/-- Lookup in an association list, modelling `BTreeMap::get`. -/
def alGet {V : Type} (m : List (Str × V)) (k : Str) : Option V :=
  (m.find? (fun p => p.1 = k)).map (·.2)

/-- Insertion into an association list, modelling `BTreeMap::insert` (an
existing binding for the key is replaced). -/
def alInsert {V : Type} (m : List (Str × V)) (k : Str) (v : V) : List (Str × V) :=
  match m with
  | [] => [(k, v)]
  | (k₀, v₀) :: rest =>
    if k₀ = k then (k, v) :: rest else (k₀, v₀) :: alInsert rest k v

/-- Embeds `codegen::module::Module`. -/
structure Module where
  front_matter : FrontMatter
  sql : List (List Interp)
  deriving Repr, DecidableEq

/-- Embeds `Module::is_single_statement`. -/
def Module.isSingleStatement (m : Module) : Bool :=
  m.sql.length == 1

/-! ### `Module::bind` (codegen/module.rs:467-504)

The binder used by `Module::evaluate`.  Its mapping is a
`BTreeMap<ParamType, usize>`, but keys are only ever inserted with the value
`mapping.len() + 1` and never overwritten, so the map is modelled by the
association list kept in insertion order (lookups agree, and no consumer of
this map iterates it).  The `todo!()` on `Interp::CallSite` panics in Rust;
the panic is modelled as `none`. -/

/-- Lookup in the binder's mapping (insertion-ordered association list of a
`BTreeMap<ParamType, usize>`). -/
def ptGet (m : List (ParamType × Nat)) (k : ParamType) : Option Nat :=
  (m.find? (fun p => p.1 = k)).map (·.2)

/-- Embeds the loop body of `Module::bind`; state is the accumulated `params`,
`mapping` and output string `res`.  Returns `none` where the Rust code would
reach the `todo!()` panic on a `CallSite`. -/
def Module.bindGo : List Interp → List ParamType → List (ParamType × Nat) → Str →
    Option (Str × List ParamType)
  | [], params, _, res => some (res, params)
  | Interp.Literal lit :: rest, params, mapping, res =>
    Module.bindGo rest params mapping (res ++ lit)
  | Interp.AuthParam p :: rest, params, mapping, res =>
    match ptGet mapping (ParamType.Auth p) with
    | some n => Module.bindGo rest params mapping (res ++ [Char.ofNat 36] ++ natStr n)
    | none =>
      let cur := mapping.length + 1
      Module.bindGo rest (params ++ [ParamType.Auth p])
        (mapping ++ [(ParamType.Auth p, cur)]) (res ++ [Char.ofNat 36] ++ natStr cur)
  | Interp.Param p :: rest, params, mapping, res =>
    match ptGet mapping (ParamType.Param p) with
    | some n => Module.bindGo rest params mapping (res ++ [Char.ofNat 36] ++ natStr n)
    | none =>
      let cur := mapping.length + 1
      Module.bindGo rest (params ++ [ParamType.Param p])
        (mapping ++ [(ParamType.Param p, cur)]) (res ++ [Char.ofNat 36] ++ natStr cur)
  | Interp.CallSite _ _ :: _, _, _, _ => none

/-- Embeds `Module::bind` (codegen/module.rs:467-504).  `none` models the
`todo!()` panic reached on any `CallSite` node. -/
def Module.bind (stmt : List Interp) : Option (Str × List ParamType) :=
  Module.bindGo stmt [] [] []

/-- True exactly when the interpolation node is a `CallSite`. -/
def Interp.isCallSite : Interp → Bool
  | Interp.CallSite _ _ => true
  | _ => false

theorem Module.bindGo_some_of_no_callsite (stmt : List Interp) :
    ∀ params mapping res, (∀ i ∈ stmt, i.isCallSite = false) →
      ∃ out, Module.bindGo stmt params mapping res = some out := by
  induction stmt with
  | nil => intro params mapping res _; exact ⟨_, rfl⟩
  | cons i rest ih =>
    intro params mapping res h
    have hrest : ∀ j ∈ rest, j.isCallSite = false := fun j hj => h j (List.mem_cons_of_mem _ hj)
    have hi := h i (List.mem_cons_self _ _)
    cases i with
    | Literal lit => exact ih _ _ _ hrest
    | Param p =>
      simp only [Module.bindGo]
      cases ptGet mapping (ParamType.Param p) <;> exact ih _ _ _ hrest
    | AuthParam p =>
      simp only [Module.bindGo]
      cases ptGet mapping (ParamType.Auth p) <;> exact ih _ _ _ hrest
    | CallSite f args => simp [Interp.isCallSite] at hi

theorem Module.bindGo_none_of_callsite (stmt : List Interp) :
    ∀ params mapping res, (∃ i ∈ stmt, i.isCallSite = true) →
      Module.bindGo stmt params mapping res = none := by
  induction stmt with
  | nil => intro _ _ _ h; obtain ⟨i, hi, _⟩ := h; exact absurd hi (List.not_mem_nil i)
  | cons i rest ih =>
    intro params mapping res h
    cases i with
    | CallSite f args => rfl
    | Literal lit =>
      obtain ⟨j, hj, hcs⟩ := h
      rcases List.mem_cons.1 hj with hj | hj
      · subst hj; simp [Interp.isCallSite] at hcs
      · exact ih _ _ _ ⟨j, hj, hcs⟩
    | Param p =>
      obtain ⟨j, hj, hcs⟩ := h
      rcases List.mem_cons.1 hj with hj | hj
      · subst hj; simp [Interp.isCallSite] at hcs
      · simp only [Module.bindGo]
        cases ptGet mapping (ParamType.Param p) <;> exact ih _ _ _ ⟨j, hj, hcs⟩
    | AuthParam p =>
      obtain ⟨j, hj, hcs⟩ := h
      rcases List.mem_cons.1 hj with hj | hj
      · subst hj; simp [Interp.isCallSite] at hcs
      · simp only [Module.bindGo]
        cases ptGet mapping (ParamType.Auth p) <;> exact ih _ _ _ ⟨j, hj, hcs⟩

/-! ### Front matter and statement IR building
(codegen/ir/reserved_words.rs, codegen/ir/front_matter.rs, codegen/ir/statement.rs,
`Module::new` in codegen/module.rs) -/

/-- Embeds the constant `RESERVED_WORDS` (codegen/ir/reserved_words.rs). -/
def RESERVED_WORDS : List Str :=
  [s2l "auth", s2l "import", s2l "param", s2l "throw", s2l "endpoint"]

/-- Embeds `check_reserved_words` (codegen/ir/reserved_words.rs). -/
def checkReservedWords (iter : List (SpanRef Str)) : List ParseError :=
  iter.filterMap (fun res =>
    if RESERVED_WORDS.contains res.value.trim then
      some (ParseError.IrErrorKind res.start
        (IrErrorKind.ReservedWordError res.value.trim))
    else none)

/-- Embeds `FrontMatter::check_reserved_words` (front_matter.rs:30-44). -/
def FrontMatter.checkReservedWords (decorators : List (SpanRef Decorator)) :
    List ParseError :=
  JustSQL.checkReservedWords (decorators.filterMap (fun decorator =>
    match decorator.value with
    | Decorator.Import input _path => some input
    | Decorator.Endpoint keyword => some (decorator.withValue keyword)
    | Decorator.Param keyword => some (decorator.withValue keyword)
    | Decorator.Auth _ => none))

/-- Embeds `decorators.sort_by_key` in `FrontMatter::new` (front_matter.rs:64-69):
the sort key is `Import ↦ 0, Auth ↦ 1, Endpoint ↦ 2, Param ↦ 3`; Rust's
`sort_by_key` is stable, which for a four-valued key is exactly this bucket
concatenation. -/
def sortDecorators (decorators : List (SpanRef Decorator)) : List (SpanRef Decorator) :=
  (decorators.filter (fun d => match d.value with | Decorator.Import _ _ => true | _ => false)) ++
  (decorators.filter (fun d => match d.value with | Decorator.Auth _ => true | _ => false)) ++
  (decorators.filter (fun d => match d.value with | Decorator.Endpoint _ => true | _ => false)) ++
  (decorators.filter (fun d => match d.value with | Decorator.Param _ => true | _ => false))

/-- Embeds `PathBuf::push` for Unix-style string paths: pushing an absolute
path replaces the base, otherwise a separator and the segment are appended. -/
def pathPush (base seg : Str) : Str :=
  if seg.head? = some (Char.ofNat 47) then seg else base ++ [Char.ofNat 47] ++ seg

/-- Mutable state of the decorator loop in `FrontMatter::new`
(front_matter.rs:71-78).  `params_set` models the `BTreeSet` (only its
`contains` is consumed, so a plain list suffices); `deps` are the imported
modules recorded via `deps.push(name.with(module))`. -/
structure FMState where
  endpoint : Option Str
  params : List Str
  params_set : List Str
  import_map : List (Str × (Str × List Str))
  auth_settings : Option AuthSettings
  deps : List (SpanRef Module)
  errors : List ParseError

/-- Embeds the body of the `for decorator in decorators` loop of
`FrontMatter::new` (front_matter.rs:81-155).  The `Err(...)?` early returns of
the source are the `Except.error` results; `canonicalize` stands for the
filesystem call `PathBuf::canonicalize` (`none` = `Err(_)`). -/
def FrontMatter.newLoop (canonicalize : Str → Option Str)
    (location : Str) (modules : List (Str × Module)) :
    List (SpanRef Decorator) → FMState → Except ParseError FMState
  | [], st => Except.ok st
  | decorator :: rest, st =>
    match decorator.value with
    | Decorator.Import name file =>
      let st :=
        if (alGet st.import_map name.value).isSome then
          { st with errors := st.errors ++
              [ParseError.constError decorator.start "name already used for import"] }
        else st
      match canonicalize (pathPush location file.value) with
      | none =>
        FrontMatter.newLoop canonicalize location modules rest
          { st with errors := st.errors ++
              [ParseError.IrErrorKind file.start (IrErrorKind.ConstError "could not import module")] }
      | some loc =>
        match alGet modules loc with
        | none => FrontMatter.newLoop canonicalize location modules rest st
        | some module =>
          let st :=
            if !module.isSingleStatement then
              { st with errors := st.errors ++
                  [ParseError.IrErrorKind file.start (IrErrorKind.ConstError
                    "Can not import sql file that is more than a single statement. Reduce this file to a single select, insert, delete or update statement.")] }
            else st
          let st := { st with deps := st.deps ++ [name.withValue module] }
          let params := module.front_matter.params
          FrontMatter.newLoop canonicalize location modules rest
            { st with import_map := alInsert st.import_map name.value (loc, params) }
    | Decorator.Auth val =>
      if st.auth_settings.isSome then
        Except.error (ParseError.constError decorator.start "multiple auth declarations detected")
      else
        FrontMatter.newLoop canonicalize location modules rest
          { st with auth_settings := some val }
    | Decorator.Endpoint dec =>
      match st.endpoint with
      | some _ =>
        Except.error (ParseError.constError decorator.start "multiple endpoint declarations detected")
      | none =>
        FrontMatter.newLoop canonicalize location modules rest
          { st with endpoint := some dec }
    | Decorator.Param param =>
      if st.params_set.contains param then
        Except.error (ParseError.constError decorator.start "parameter already declared")
      else if (alGet st.import_map param).isSome then
        Except.error (ParseError.constError decorator.start "parameter is used for an import")
      else
        FrontMatter.newLoop canonicalize location modules rest
          { st with params := st.params ++ [param], params_set := st.params_set ++ [param] }

/-- Embeds `FrontMatter::new` (front_matter.rs:46-183).  The message of the
missing-auth-redeclaration error has its apostrophes elided
("... Add an @auth validate decorator."). -/
def FrontMatter.new (canonicalize : Str → Option Str) (location : Str)
    (decorators : List (SpanRef Decorator)) (modules : List (Str × Module)) :
    CResult FrontMatter := do
  let decorators := sortDecorators decorators
  let st₀ : FMState :=
    ⟨none, [], [], [], none, [], FrontMatter.checkReservedWords decorators⟩
  let st ← FrontMatter.newLoop canonicalize location modules decorators st₀
  let errors :=
    if st.auth_settings.isNone then
      st.errors ++ st.deps.filterMap (fun dep =>
        if dep.value.front_matter.auth_settings.isSome then
          some (ParseError.constError dep.start
            "import requires auth but this module is does not check for auth. Add an @auth validate decorator.")
        else none)
    else st.errors
  match errors with
  | [] => Except.ok ⟨location, st.endpoint, st.params, st.import_map, st.auth_settings⟩
  | [e] => Except.error e
  | es => Except.error (ParseError.Multiple es)

/-- Embeds `Statements::check_reserved_words` (statement.rs:40-63): flattens
every statement node into the span-tagged names it mentions and checks them. -/
def Statements.checkReservedWords (sql : List (SpanRef StatementSpan)) :
    List ParseError :=
  JustSQL.checkReservedWords (sql.flatMap (fun statement =>
    statement.value.interps.flatMap (fun interp =>
      match interp.value with
      | InterpSpan.Literal lit => [interp.withValue lit]
      | InterpSpan.Param param => [interp.withValue param]
      | InterpSpan.AuthParam param => [interp.withValue param]
      | InterpSpan.CallSite func args => interp.withValue func :: args)))

/-- Embeds the per-node loop of `Statements::check_for_errors`
(statement.rs:72-111). -/
def Statements.nodeErrors (front_matter : FrontMatter) (params_set : List Str)
    (sql : List (SpanRef StatementSpan)) : List ParseError :=
  (sql.flatMap (fun stmt => stmt.value.interps)).flatMap (fun interp_ref =>
    match interp_ref.value with
    | InterpSpan.CallSite func args =>
      (match alGet front_matter.imports func with
       | none => [ParseError.IrErrorKind interp_ref.start
           (IrErrorKind.UndefinedFunctionError func)]
       | some (_, func_args) =>
         if func_args.length ≠ args.length then
           [ParseError.IrErrorKind interp_ref.start
             (IrErrorKind.WrongNumberArgumentsError func_args.length args.length)]
         else []) ++
      args.filterMap (fun arg =>
        if !params_set.contains arg.value then
          some (ParseError.errorKind interp_ref.start
            (ErrorKind.UndefinedArgumentError arg.value func))
        else none)
    | InterpSpan.Param param =>
      if !params_set.contains param then
        [ParseError.errorKind interp_ref.start (ErrorKind.UndefinedParameterError param)]
      else []
    | _ => [])

/-- Embeds `Statements::check_for_errors` (statement.rs:65-132).  The error
message for an undeclared auth variable is the source text verbatim. -/
def Statements.checkForErrors (front_matter : FrontMatter)
    (sql : List (SpanRef StatementSpan)) : List ParseError :=
  let params_set := front_matter.params
  let errors := Statements.nodeErrors front_matter params_set sql
  let has_auth := (sql.flatMap (fun stmt => stmt.value.interps)).find?
    (fun interp => match interp.value with | InterpSpan.AuthParam _ => true | _ => false)
  let errors :=
    match has_auth with
    | some auth =>
      if front_matter.auth_settings.isNone then
        errors ++ [ParseError.constError auth.start
          "used auth variable without declaring that the module requires auth. add @auth decorator at the start of the file."]
      else errors
    | none => errors
  errors ++ Statements.checkReservedWords sql

/-- Embeds `Statements::new` (statement.rs:134-159). -/
def Statements.new (front_matter : FrontMatter)
    (sql : List (SpanRef StatementSpan)) : CResult (List (List Interp)) :=
  match Statements.checkForErrors front_matter sql with
  | [] => Except.ok (sql.map (fun span_ref =>
      span_ref.value.interps.map (fun interp_ref => Interp.fromSpan interp_ref.value)))
  | [e] => Except.error e
  | es => Except.error (ParseError.Multiple es)

/-- Embeds `codegen::ast::Ast` (the parsed representation handed to
`Module::new`). -/
structure Ast where
  file_loc : Str
  decorators : List (SpanRef Decorator)
  statements : List (SpanRef StatementSpan)
  deriving Repr

/-- Embeds `Module::new` (codegen/module.rs:228-244). -/
def Module.new (canonicalize : Str → Option Str) (ast : Ast)
    (modules : List (Str × Module)) : CResult Module := do
  let front_matter ← FrontMatter.new canonicalize ast.file_loc ast.decorators modules
  let statements ← Statements.new front_matter ast.statements
  Except.ok ⟨front_matter, statements⟩

/-- True exactly on `Decorator::Auth`. -/
def Decorator.isAuth : Decorator → Bool
  | Decorator.Auth _ => true
  | _ => false

/-- True exactly on `InterpSpan::AuthParam` (the predicate of the
`has_auth` search in `Statements::check_for_errors`). -/
def InterpSpan.isAuthParam : InterpSpan → Bool
  | InterpSpan.AuthParam _ => true
  | _ => false

theorem sortDecorators_mem {d : SpanRef Decorator} {l : List (SpanRef Decorator)}
    (h : d ∈ sortDecorators l) : d ∈ l := by
  simp only [sortDecorators, List.mem_append, List.mem_filter] at h
  rcases h with ((h | h) | h) | h <;> exact h.1

theorem FrontMatter.newLoop_auth_none (canonicalize : Str → Option Str)
    (location : Str) (modules : List (Str × Module)) :
    ∀ (decs : List (SpanRef Decorator)) (st st' : FMState),
      (∀ d ∈ decs, d.value.isAuth = false) → st.auth_settings = none →
      FrontMatter.newLoop canonicalize location modules decs st = Except.ok st' →
      st'.auth_settings = none := by
  intro decs
  induction decs with
  | nil =>
    intro st st' _ hst hok
    simp only [FrontMatter.newLoop] at hok
    cases hok
    exact hst
  | cons d rest ih =>
    intro st st' hall hst hok
    have hrest : ∀ x ∈ rest, x.value.isAuth = false :=
      fun x hx => hall x (List.mem_cons_of_mem _ hx)
    have hd := hall d (List.mem_cons_self _ _)
    simp only [FrontMatter.newLoop] at hok
    cases hval : d.value with
    | Auth a => rw [hval] at hd; simp [Decorator.isAuth] at hd
    | Import name file =>
      rw [hval] at hok
      simp only at hok
      rcases hcan : canonicalize (pathPush location file.value) with _ | loc <;>
        rw [hcan] at hok <;> simp only at hok
      · refine ih _ _ hrest ?_ hok
        simp [apply_ite FMState.auth_settings, hst]
      · rcases hmod : alGet modules loc with _ | m <;>
          rw [hmod] at hok <;> simp only at hok
        · refine ih _ _ hrest ?_ hok
          simp [apply_ite FMState.auth_settings, hst]
        · refine ih _ _ hrest ?_ hok
          simp [apply_ite FMState.auth_settings, hst]
    | Endpoint name =>
      rw [hval] at hok
      simp only at hok
      rcases hep : st.endpoint with _ | e <;> rw [hep] at hok <;> simp only at hok
      · refine ih _ _ hrest ?_ hok
        exact hst
      · exact absurd hok (by simp)
    | Param name =>
      rw [hval] at hok
      simp only at hok
      split at hok
      · exact absurd hok (by simp)
      · split at hok
        · exact absurd hok (by simp)
        · refine ih _ _ hrest ?_ hok
          exact hst

theorem FrontMatter.new_auth_none (canonicalize : Str → Option Str)
    (location : Str) (decorators : List (SpanRef Decorator))
    (modules : List (Str × Module)) (fm : FrontMatter)
    (hnoauth : ∀ d ∈ decorators, d.value.isAuth = false)
    (hok : FrontMatter.new canonicalize location decorators modules = Except.ok fm) :
    fm.auth_settings = none := by
  simp only [FrontMatter.new, bind, Except.bind] at hok
  rcases hloop : FrontMatter.newLoop canonicalize location modules
      (sortDecorators decorators) ⟨none, [], [], [], none, [],
        FrontMatter.checkReservedWords (sortDecorators decorators)⟩ with e | st <;>
    rw [hloop] at hok <;> simp only at hok
  · exact absurd hok (by simp)
  · have hst : st.auth_settings = none :=
      FrontMatter.newLoop_auth_none canonicalize location modules _ _ _
        (fun d hd => hnoauth d (sortDecorators_mem hd)) rfl hloop
    split at hok
    · injection hok with h
      rw [← h]
      exact hst
    · exact absurd hok (by simp)
    · exact absurd hok (by simp)

theorem Statements.new_error_of_auth_param (fm : FrontMatter)
    (sql : List (SpanRef StatementSpan))
    (hauth : fm.auth_settings = none)
    (hparam : ∃ stmt ∈ sql, ∃ i ∈ stmt.value.interps, i.value.isAuthParam = true) :
    ∃ e, Statements.new fm sql = Except.error e := by
  have hfind : ((sql.flatMap (fun stmt => stmt.value.interps)).find?
      (fun interp => match interp.value with
        | InterpSpan.AuthParam _ => true | _ => false)).isSome := by
    rw [List.find?_isSome]
    obtain ⟨stmt, hstmt, i, hi, hip⟩ := hparam
    refine ⟨i, List.mem_flatMap.2 ⟨stmt, hstmt, hi⟩, ?_⟩
    revert hip
    cases i.value <;> simp [InterpSpan.isAuthParam]
  rcases hf : (sql.flatMap (fun stmt => stmt.value.interps)).find?
      (fun interp => match interp.value with
        | InterpSpan.AuthParam _ => true | _ => false) with _ | a
  · rw [hf] at hfind; simp at hfind
  · have hne : Statements.checkForErrors fm sql ≠ [] := by
      simp only [Statements.checkForErrors, hf, hauth, Option.isNone_none, if_true]
      simp
    rcases hcase : Statements.checkForErrors fm sql with _ | ⟨e, rest⟩
    · exact absurd hcase hne
    · rcases rest with _ | ⟨e₂, rest₂⟩
      · exact ⟨e, by simp only [Statements.new, hcase]⟩
      · exact ⟨ParseError.Multiple (e :: e₂ :: rest₂), by simp only [Statements.new, hcase]⟩

/-- Counterexample to claim C1: the module with no decorators whose single
statement is the single auth-param node `@auth.user_id` does not compile via
`Module::new`; it yields the "used auth variable without declaring ..." error
instead of succeeding with auth `VerifyToken(None)`. -/
theorem claim_C1_counterexample :
    Module.new (fun _ => none)
      ⟨s2l "/m", [],
        [⟨s2l "@auth.user_id", [], ⟨[⟨s2l "@auth.user_id", [], InterpSpan.AuthParam (s2l "user_id")⟩]⟩⟩]⟩
      [] =
    Except.error (ParseError.ErrorKind (s2l "@auth.user_id") (ErrorKind.ConstError
      "used auth variable without declaring that the module requires auth. add @auth decorator at the start of the file.")) := by
  rfl

/-- Claim C1 (amended): for every module whose decorator list contains no
`Auth` decorator but whose statements contain at least one auth-param node,
compilation via `Module::new` (over `FrontMatter::new` and `Statements::new`)
fails with an error; the front matter is never implicitly set to
`VerifyToken(None)` on this path (that inference exists only in the legacy
`ast::Module::parse`). -/
theorem claim_C1_no_auth_inference (canonicalize : Str → Option Str) (ast : Ast)
    (modules : List (Str × Module))
    (hnoauth : ∀ d ∈ ast.decorators, d.value.isAuth = false)
    (hparam : ∃ stmt ∈ ast.statements, ∃ i ∈ stmt.value.interps, i.value.isAuthParam = true) :
    ∃ e, Module.new canonicalize ast modules = Except.error e := by
  simp only [Module.new, bind, Except.bind]
  rcases hfm : FrontMatter.new canonicalize ast.file_loc ast.decorators modules with e | fm
  · exact ⟨e, rfl⟩
  · have hauth := FrontMatter.new_auth_none canonicalize ast.file_loc ast.decorators
      modules fm hnoauth hfm
    obtain ⟨e, he⟩ := Statements.new_error_of_auth_param fm ast.statements hauth hparam
    exact ⟨e, by simp only [he]⟩

/-- Witness for C1's amended theorem at the concrete counterexample module. -/
theorem claim_C1_no_auth_inference_witness :
    ∃ e, Module.new (fun _ => none)
      ⟨s2l "/m", [],
        [⟨s2l "@auth.user_id", [], ⟨[⟨s2l "@auth.user_id", [], InterpSpan.AuthParam (s2l "user_id")⟩]⟩⟩]⟩
      [] = Except.error e :=
  claim_C1_no_auth_inference (fun _ => none) _ []
    (by intro d hd; simp at hd)
    ⟨_, List.mem_cons_self _ _, _, List.mem_cons_self _ _, rfl⟩

/-- True exactly on `Decorator::Param`. -/
def Decorator.isParam : Decorator → Bool
  | Decorator.Param _ => true
  | _ => false

/-- Names declared by the `Param` decorators of a list, in order. -/
def paramNames (decs : List (SpanRef Decorator)) : List Str :=
  decs.filterMap (fun d => match d.value with
    | Decorator.Param n => some n
    | _ => none)

theorem sortDecorators_of_params {decs : List (SpanRef Decorator)}
    (h : ∀ d ∈ decs, d.value.isParam = true) : sortDecorators decs = decs := by
  have hIm : decs.filter (fun d => match d.value with
      | Decorator.Import _ _ => true | _ => false) = [] := by
    rw [List.filter_eq_nil_iff]
    intro d hd
    have := h d hd
    revert this
    cases d.value <;> simp [Decorator.isParam]
  have hAu : decs.filter (fun d => match d.value with
      | Decorator.Auth _ => true | _ => false) = [] := by
    rw [List.filter_eq_nil_iff]
    intro d hd
    have := h d hd
    revert this
    cases d.value <;> simp [Decorator.isParam]
  have hEp : decs.filter (fun d => match d.value with
      | Decorator.Endpoint _ => true | _ => false) = [] := by
    rw [List.filter_eq_nil_iff]
    intro d hd
    have := h d hd
    revert this
    cases d.value <;> simp [Decorator.isParam]
  have hPa : decs.filter (fun d => match d.value with
      | Decorator.Param _ => true | _ => false) = decs := by
    rw [List.filter_eq_self]
    intro d hd
    have := h d hd
    revert this
    cases d.value <;> simp [Decorator.isParam]
  simp [sortDecorators, hIm, hAu, hEp, hPa]

theorem FrontMatter.newLoop_params_ok (canonicalize : Str → Option Str)
    (location : Str) (modules : List (Str × Module)) :
    ∀ (decs : List (SpanRef Decorator)) (st : FMState),
      (∀ d ∈ decs, d.value.isParam = true) →
      st.import_map = [] → (st.params_set ++ paramNames decs).Nodup →
      ∃ st', FrontMatter.newLoop canonicalize location modules decs st = Except.ok st' ∧
        st'.errors = st.errors ∧ st'.auth_settings = st.auth_settings ∧
        st'.deps = st.deps ∧ st'.endpoint = st.endpoint := by
  intro decs
  induction decs with
  | nil => exact fun st _ _ _ => ⟨st, rfl, rfl, rfl, rfl, rfl⟩
  | cons d rest ih =>
    intro st hall him hnd
    have hd := hall d (List.mem_cons_self _ _)
    rcases hval : d.value with a | ⟨n, f⟩ | n | n <;> rw [hval] at hd <;>
      simp [Decorator.isParam] at hd
    have hnames : paramNames (d :: rest) = n :: paramNames rest := by
      simp [paramNames, hval]
    rw [hnames] at hnd
    have hperm : (st.params_set ++ n :: paramNames rest).Perm
        ((st.params_set ++ [n]) ++ paramNames rest) := by
      rw [List.append_assoc, List.singleton_append]
    have hnd₂ : ((st.params_set ++ [n]) ++ paramNames rest).Nodup := hperm.nodup_iff.1 hnd
    have hnotmem : ¬ st.params_set.contains n = true := by
      intro hc
      have hmem : n ∈ st.params_set := by simpa using hc
      have : ¬ (st.params_set ++ n :: paramNames rest).Nodup := by
        intro hcon
        rcases List.nodup_append.1 hcon with ⟨_, _, hdisj⟩
        exact hdisj hmem (List.mem_cons_self _ _)
      exact this hnd
    simp only [FrontMatter.newLoop, hval]
    rw [if_neg hnotmem]
    have hget : (alGet st.import_map n).isSome = false := by
      rw [him]; rfl
    rw [if_neg (by simp [hget])]
    obtain ⟨st', hok, he, ha, hdep, hep⟩ := ih
      { st with params := st.params ++ [n], params_set := st.params_set ++ [n] }
      (fun x hx => hall x (List.mem_cons_of_mem _ hx)) him hnd₂
    exact ⟨st', hok, he, ha, hdep, hep⟩

/-- Counterexample to claim C2: the decorator list
`[@param auth, @param x, @param x]` contains two distinct semantic errors (a
reserved-word use and a duplicate parameter declaration), yet `FrontMatter::new`
returns only the duplicate-parameter error: the `Err(..)?` at
front_matter.rs:144-146 discards the already-accumulated reserved-word error. -/
theorem claim_C2_counterexample :
    FrontMatter.new (fun _ => none) (s2l "/m")
      [⟨s2l "s1", [], Decorator.Param (s2l "auth")⟩,
       ⟨s2l "s2", [], Decorator.Param (s2l "x")⟩,
       ⟨s2l "s3", [], Decorator.Param (s2l "x")⟩] [] =
    Except.error (ParseError.ErrorKind (s2l "s3")
      (ErrorKind.ConstError "parameter already declared")) := by
  rfl

/-- Claim C2 (amended): `FrontMatter::new` mixes its error policies.
Accumulated and reported together in one result are the reserved-word errors
(conjunct 1, over every parameter-only list with at least two of them) and
the import errors (conjunct 3: two unresolvable imports and a reserved parameter
name yield one `Multiple` with all three).  But a second `Auth` decorator
(conjunct 4), a second `Endpoint` decorator (conjunct 5), a duplicate
parameter declaration (conjunct 2, over every parameter-only list with a
duplicate) and a parameter/import name collision (conjunct 6) each abort the
loop via `Err(..)?`, returning only that single error and discarding the
errors accumulated so far (in each concrete instance a reserved-word error
was already pending).  Finally (conjunct 7), `Module::new` runs its phases
sequentially, so a front-matter error is returned verbatim and statement-level
errors are never combined with front-matter errors in one result. -/
theorem claim_C2_error_accumulation_policy :
    (∀ (canonicalize : Str → Option Str) (location : Str)
       (decs : List (SpanRef Decorator)) (modules : List (Str × Module)),
       (∀ d ∈ decs, d.value.isParam = true) → (paramNames decs).Nodup →
       2 ≤ (FrontMatter.checkReservedWords decs).length →
       FrontMatter.new canonicalize location decs modules =
         Except.error (ParseError.Multiple (FrontMatter.checkReservedWords decs))) ∧
    (∀ (canonicalize : Str → Option Str) (location : Str)
       (decs : List (SpanRef Decorator)) (modules : List (Str × Module)),
       (∀ d ∈ decs, d.value.isParam = true) → ¬ (paramNames decs).Nodup →
       ∃ span, FrontMatter.new canonicalize location decs modules =
         Except.error (ParseError.ErrorKind span
           (ErrorKind.ConstError "parameter already declared"))) ∧
    (FrontMatter.new (fun _ => none) (s2l "/m")
      [⟨s2l "s1", [], Decorator.Import ⟨s2l "n1", [], s2l "a"⟩ ⟨s2l "f1", [], s2l "p1"⟩⟩,
       ⟨s2l "s2", [], Decorator.Import ⟨s2l "n2", [], s2l "b"⟩ ⟨s2l "f2", [], s2l "p2"⟩⟩,
       ⟨s2l "s3", [], Decorator.Param (s2l "auth")⟩] [] =
      Except.error (ParseError.Multiple
        [ParseError.IrErrorKind (s2l "s3") (IrErrorKind.ReservedWordError (s2l "auth")),
         ParseError.IrErrorKind (s2l "f1") (IrErrorKind.ConstError "could not import module"),
         ParseError.IrErrorKind (s2l "f2")
           (IrErrorKind.ConstError "could not import module")])) ∧
    (FrontMatter.new (fun _ => none) (s2l "/m")
      [⟨s2l "s1", [], Decorator.Auth (AuthSettings.VerifyToken none)⟩,
       ⟨s2l "s2", [], Decorator.Auth AuthSettings.RemoveToken⟩,
       ⟨s2l "s3", [], Decorator.Param (s2l "auth")⟩] [] =
      Except.error (ParseError.ErrorKind (s2l "s2")
        (ErrorKind.ConstError "multiple auth declarations detected"))) ∧
    (FrontMatter.new (fun _ => none) (s2l "/m")
      [⟨s2l "s1", [], Decorator.Endpoint (s2l "e1")⟩,
       ⟨s2l "s2", [], Decorator.Endpoint (s2l "e2")⟩,
       ⟨s2l "s3", [], Decorator.Param (s2l "auth")⟩] [] =
      Except.error (ParseError.ErrorKind (s2l "s2")
        (ErrorKind.ConstError "multiple endpoint declarations detected"))) ∧
    (FrontMatter.new
      (fun p => if p = pathPush (s2l "/m") (s2l "f") then some (s2l "/dep") else none)
      (s2l "/m")
      [⟨s2l "s1", [], Decorator.Import ⟨s2l "n1", [], s2l "m"⟩ ⟨s2l "f1", [], s2l "f"⟩⟩,
       ⟨s2l "s2", [], Decorator.Param (s2l "m")⟩,
       ⟨s2l "s3", [], Decorator.Param (s2l "auth")⟩]
      [(s2l "/dep", ⟨⟨s2l "/dep", none, [], [], none⟩, [[]]⟩)] =
      Except.error (ParseError.ErrorKind (s2l "s2")
        (ErrorKind.ConstError "parameter is used for an import"))) ∧
    (∀ (canonicalize : Str → Option Str) (ast : Ast) (modules : List (Str × Module))
       (e : ParseError),
       FrontMatter.new canonicalize ast.file_loc ast.decorators modules = Except.error e →
       Module.new canonicalize ast modules = Except.error e) := by
  refine ⟨?_, ?_, rfl, rfl, rfl, rfl, ?_⟩
  case refine_3 =>
    intro canonicalize ast modules e h
    simp only [Module.new, bind, Except.bind, h]
  · intro canonicalize location decs modules hparams hnd hlen
    have hsort := sortDecorators_of_params hparams
    simp only [FrontMatter.new, hsort, bind, Except.bind]
    obtain ⟨st', hok, he, ha, hdep, _⟩ := FrontMatter.newLoop_params_ok canonicalize
      location modules decs
      ⟨none, [], [], [], none, [], FrontMatter.checkReservedWords decs⟩
      hparams rfl (by simpa using hnd)
    rw [hok]
    simp only [ha, he, hdep]
    simp only [Option.isNone_none, if_true, List.filterMap_nil, List.append_nil]
    rcases hres : FrontMatter.checkReservedWords decs with _ | ⟨e₁, rest₁⟩
    · rw [hres] at hlen; simp at hlen
    · rcases rest₁ with _ | ⟨e₂, rest₂⟩
      · rw [hres] at hlen; simp at hlen
      · rfl
  · intro canonicalize location decs modules hparams hnd
    have hsort := sortDecorators_of_params hparams
    simp only [FrontMatter.new, hsort, bind, Except.bind]
    suffices h : ∀ (decs : List (SpanRef Decorator)) (st : FMState),
        (∀ d ∈ decs, d.value.isParam = true) → st.import_map = [] →
        st.params_set.Nodup → ¬ (st.params_set ++ paramNames decs).Nodup →
        ∃ span, FrontMatter.newLoop canonicalize location modules decs st =
          Except.error (ParseError.ErrorKind span
            (ErrorKind.ConstError "parameter already declared")) by
      obtain ⟨span, hspan⟩ := h decs
        ⟨none, [], [], [], none, [], FrontMatter.checkReservedWords decs⟩
        hparams rfl List.nodup_nil (by simpa using hnd)
      rw [hspan]
      exact ⟨span, rfl⟩
    intro decs
    induction decs with
    | nil =>
      intro st _ _ hnd₀ hnd₁
      exact absurd (by simpa [paramNames] using hnd₀) hnd₁
    | cons d rest ih =>
      intro st hall him hndset hnd₁
      have hd := hall d (List.mem_cons_self _ _)
      rcases hval : d.value with a | ⟨n, f⟩ | n | n <;> rw [hval] at hd <;>
        simp [Decorator.isParam] at hd
      have hnames : paramNames (d :: rest) = n :: paramNames rest := by
        simp [paramNames, hval]
      rw [hnames] at hnd₁
      by_cases hmem : n ∈ st.params_set
      · refine ⟨d.start, ?_⟩
        simp only [FrontMatter.newLoop, hval]
        rw [if_pos (by simpa using hmem)]
        rfl
      · have hnotc : ¬ st.params_set.contains n = true := by simpa using hmem
        have hget : (alGet st.import_map n).isSome = false := by rw [him]; rfl
        have hndset₂ : (st.params_set ++ [n]).Nodup := by
          rw [List.nodup_append]
          exact ⟨hndset, List.nodup_singleton n, by simpa using hmem⟩
        have hperm : (st.params_set ++ n :: paramNames rest).Perm
            ((st.params_set ++ [n]) ++ paramNames rest) := by
          rw [List.append_assoc, List.singleton_append]
        have hnd₂ : ¬ ((st.params_set ++ [n]) ++ paramNames rest).Nodup := by
          intro hcon
          exact hnd₁ (hperm.nodup_iff.2 hcon)
        obtain ⟨span, hspan⟩ := ih
          { st with params := st.params ++ [n], params_set := st.params_set ++ [n] }
          (fun x hx => hall x (List.mem_cons_of_mem _ hx)) him hndset₂ hnd₂
        refine ⟨span, ?_⟩
        simp only [FrontMatter.newLoop, hval]
        rw [if_neg hnotc, if_neg (by simp [hget])]
        exact hspan

/-- Witness for C2's amended theorem: conjunct 1 at two reserved parameter
names (`auth`, `import`), conjunct 2 at the counterexample list with a
duplicate, and conjunct 7 at a duplicate-parameter front matter, whose error
`Module::new` returns verbatim. -/
theorem claim_C2_error_accumulation_policy_witness :
    FrontMatter.new (fun _ => none) (s2l "/m")
      [⟨s2l "s1", [], Decorator.Param (s2l "auth")⟩,
       ⟨s2l "s2", [], Decorator.Param (s2l "import")⟩] [] =
      Except.error (ParseError.Multiple (FrontMatter.checkReservedWords
        [⟨s2l "s1", [], Decorator.Param (s2l "auth")⟩,
         ⟨s2l "s2", [], Decorator.Param (s2l "import")⟩])) ∧
    (∃ span, FrontMatter.new (fun _ => none) (s2l "/m")
      [⟨s2l "s1", [], Decorator.Param (s2l "auth")⟩,
       ⟨s2l "s2", [], Decorator.Param (s2l "x")⟩,
       ⟨s2l "s3", [], Decorator.Param (s2l "x")⟩] [] =
      Except.error (ParseError.ErrorKind span
        (ErrorKind.ConstError "parameter already declared"))) ∧
    Module.new (fun _ => none)
      ⟨s2l "/m",
       [⟨s2l "s1", [], Decorator.Param (s2l "x")⟩,
        ⟨s2l "s2", [], Decorator.Param (s2l "x")⟩], []⟩ [] =
      Except.error (ParseError.ErrorKind (s2l "s2")
        (ErrorKind.ConstError "parameter already declared")) :=
  ⟨claim_C2_error_accumulation_policy.1 _ _ _ _
      (by intro d hd
          simp only [List.mem_cons, List.not_mem_nil, or_false] at hd
          rcases hd with rfl | rfl <;> rfl)
      (by decide)
      (by decide)
    ,
   claim_C2_error_accumulation_policy.2.1 _ _ _ _
      (by intro d hd
          simp only [List.mem_cons, List.not_mem_nil, or_false] at hd
          rcases hd with rfl | rfl | rfl <;> rfl)
      (by decide)
    ,
   claim_C2_error_accumulation_policy.2.2.2.2.2.2 (fun _ => none)
      ⟨s2l "/m",
       [⟨s2l "s1", [], Decorator.Param (s2l "x")⟩,
        ⟨s2l "s2", [], Decorator.Param (s2l "x")⟩], []⟩ []
      (ParseError.ErrorKind (s2l "s2")
        (ErrorKind.ConstError "parameter already declared")) rfl⟩

/-! ### The query binder (src/query.rs:54-194)

`build_query_statement` / `build_query_statement_helper` walk a statement,
assign positional placeholder numbers and inline imported single-statement
modules.  The Rust `mapping : BTreeMap<ParamType, usize>` only ever gains keys,
each with value `mapping.len() + 1`; it is modelled by the association list in
insertion order (`Mapping`), which agrees with the `BTreeMap` on every lookup
and whose value-sorted inversion below reproduces the `BTreeMap<usize, _>`
collect.  The importer trait call `get_module_from_location` is a parameter
`importer : Str → Option Module` (`none` = the `anyhow` error).  The Rust
recursion over imported modules has no explicit bound (cycles are excluded
upstream), so the embedding takes a fuel argument consumed at each import
inlining; exhausted fuel is an error, which never fires on any input
whose import nesting is shallower than the fuel. -/

/-- Placeholder mapping of the binder, in insertion order. -/
abbrev Mapping := List (ParamType × Nat)

/-- Embeds the shared mapping update of the helper's `AuthParam`/`Param` arms:
insert the param type with the next number if it is not yet mapped
(query.rs:113-117 and 124-127). -/
def mapInsertStep (m : Mapping) (pt : ParamType) : Mapping :=
  if (ptGet m pt).isSome then m else m ++ [(pt, m.length + 1)]

/-- Repeated `mapInsertStep`, specification for the mapping built by a
traversal that meets the given param types in order. -/
def extendMapping (m : Mapping) (ps : List ParamType) : Mapping :=
  ps.foldl mapInsertStep m

/-- Embeds the `new_param_mapping` block of the call-site arm
(query.rs:144-171): remap the imported module's formal parameter names to the
caller's actual `ParamType`s, failing on an actual that is not itself mapped.
The `collect::<BTreeMap<_,_>>` is modelled by repeated insertion. -/
def newParamMapping (param_mapping : List (Str × ParamType)) :
    List (Str × Str) → Except String (List (Str × ParamType))
  | [] => Except.ok []
  | (new_param, old_param) :: rest => do
    match alGet param_mapping old_param with
    | none => Except.error ("could not map paramter " ++ String.mk old_param ++
        " to the right param type")
    | some pt =>
      let acc ← newParamMapping param_mapping rest
      Except.ok (alInsert acc new_param pt)

/-- One nesting level of `build_query_statement_helper` (query.rs:97-194): the
traversal of one statement, with `recurse` standing for the recursive call into
an imported module's statement (one level deeper). -/
def bqsHelperGo (importer : Str → Option Module)
    (recurse : Module → Str → Mapping → List (Str × ParamType) → List Interp →
      Except String (Str × Mapping)) :
    Module → Str → Mapping → List (Str × ParamType) → List Interp →
    Except String (Str × Mapping)
  | _module, writer, mapping, _pm, [] => Except.ok (writer, mapping)
  | module, writer, mapping, pm, interp :: rest =>
    match interp with
    | Interp.Literal lit =>
      bqsHelperGo importer recurse module (writer ++ lit) mapping pm rest
    | Interp.AuthParam param =>
      let pt := ParamType.Auth param
      let mapping := mapInsertStep mapping pt
      match ptGet mapping pt with
      | some n =>
        bqsHelperGo importer recurse module (writer ++ '$' :: natStr n) mapping pm rest
      | none => Except.error "unreachable: mapping[&param] panics"
    | Interp.Param param =>
      match alGet pm param with
      | none => Except.error ("could not map paramter " ++ String.mk param ++
          " to the right param type")
      | some pt =>
        let mapping := mapInsertStep mapping pt
        match ptGet mapping pt with
        | some n =>
          bqsHelperGo importer recurse module (writer ++ '$' :: natStr n) mapping pm rest
        | none => Except.error "unreachable: mapping[param_type] panics"
    | Interp.CallSite func params =>
      match alGet module.front_matter.imports func with
      | none => Except.error ("could not find import for " ++ String.mk func)
      | some (path, _) =>
        match importer path with
        | none => Except.error ("could not import module for " ++ String.mk func)
        | some imported_module =>
          if params.length ≠ imported_module.front_matter.params.length then
            Except.error ("number of parameters to do not match for imported module " ++
              String.mk func)
          else
            match newParamMapping pm (imported_module.front_matter.params.zip params) with
            | Except.error e => Except.error e
            | Except.ok new_param_mapping =>
              match imported_module.sql.head? with
              | none => Except.error ("imported module " ++ String.mk func ++
                  " should have one statement")
              | some first_statement =>
                match recurse imported_module
                    (writer ++ s2l " ( /* start of import " ++ func ++ s2l " */\n")
                    mapping new_param_mapping first_statement with
                | Except.error e => Except.error e
                | Except.ok (writer, mapping) =>
                  bqsHelperGo importer recurse module
                    (writer ++ s2l "\n) /* end of import " ++ func ++ s2l " */")
                    mapping pm rest

/-- Embeds `build_query_statement_helper` (query.rs:97-194).  The writer string
and the mapping are threaded as explicit state.  The Rust recursion over imported
modules is unbounded (cycles are excluded upstream); the embedding
bounds the import-nesting depth by `fuel` and fails when it is exhausted, which
never happens on inputs nested less deeply than the fuel. -/
def bqsHelper (importer : Str → Option Module) :
    Nat → Module → Str → Mapping → List (Str × ParamType) → List Interp →
    Except String (Str × Mapping)
  | 0 => fun _ _ _ _ _ => Except.error "import nesting deeper than the modelling fuel"
  | fuel + 1 => bqsHelperGo importer (bqsHelper importer fuel)

/-- Sorted insertion with overwrite into a number-keyed list, modelling
`BTreeMap<usize, ParamType>::insert` during the `collect` of
`build_query_statement` (query.rs:78). -/
def natInsertSorted : List (Nat × ParamType) → Nat → ParamType → List (Nat × ParamType)
  | [], n, p => [(n, p)]
  | (n₀, p₀) :: rest, n, p =>
    if n < n₀ then (n, p) :: (n₀, p₀) :: rest
    else if n = n₀ then (n, p) :: rest
    else (n₀, p₀) :: natInsertSorted rest n p

/-- Embeds the inversion `mapping.into_iter().map(|tup| (tup.1, tup.0)).collect()`
of query.rs:78. -/
def invertMapping (mapping : Mapping) : List (Nat × ParamType) :=
  mapping.foldl (fun acc pn => natInsertSorted acc pn.2 pn.1) []

/-- Embeds the `params` block of `build_query_statement` (query.rs:76-91):
invert the mapping by placeholder number and demand the sorted numbers be
exactly `1..=n`. -/
def finalizeParams (mapping : Mapping) : Except String (List ParamType) :=
  if (((invertMapping mapping).map Prod.fst).zip
      (List.range' 1 ((invertMapping mapping).length + 1))).any
      (fun p => p.1 ≠ p.2) then
    Except.error "not all variable bindings were set"
  else
    Except.ok ((invertMapping mapping).map Prod.snd)

/-- Embeds the `param_mapping` construction of `build_query_statement`
(query.rs:61-66). -/
def moduleParamMapping (module : Module) : List (Str × ParamType) :=
  module.front_matter.params.foldl
    (fun acc param => alInsert acc param (ParamType.Param param)) []

/-- Embeds `build_query_statement` (query.rs:54-94). -/
def buildQueryStatement (importer : Str → Option Module) (fuel : Nat)
    (module : Module) (statement : List Interp) :
    Except String (Str × List ParamType) := do
  let param_mapping := moduleParamMapping module
  let (buf, mapping) ← bqsHelper importer fuel module [] [] param_mapping statement
  let params ← finalizeParams mapping
  Except.ok (buf, params)

/-- Specification-side token: the SQL text produced by the binder is a
concatenation of literal pieces and placeholder references. -/
inductive Tok where
  | lit (s : Str)
  | ph (pt : ParamType)
  deriving Repr, DecidableEq

/-- The placeholder occurrences of a token stream, in encounter order. -/
def phs (toks : List Tok) : List ParamType :=
  toks.filterMap (fun t => match t with | Tok.ph pt => some pt | Tok.lit _ => none)

/-- Rendering of one token under a final placeholder mapping. -/
def renderTok (m : Mapping) : Tok → Str
  | Tok.lit s => s
  | Tok.ph pt => '$' :: natStr ((ptGet m pt).getD 0)

/-- Rendering of a token stream under a final placeholder mapping. -/
def renderToks (m : Mapping) (toks : List Tok) : Str :=
  (toks.map (renderTok m)).flatten

/-- One nesting level of the token-stream traversal, mirroring `bqsHelperGo`. -/
def bqsTokensGo (importer : Str → Option Module)
    (recurse : Module → List (Str × ParamType) → List Interp →
      Except String (List Tok)) :
    Module → List (Str × ParamType) → List Interp → Except String (List Tok)
  | _module, _pm, [] => Except.ok []
  | module, pm, interp :: rest =>
    match interp with
    | Interp.Literal lit => do
      let toks ← bqsTokensGo importer recurse module pm rest
      Except.ok (Tok.lit lit :: toks)
    | Interp.AuthParam param => do
      let toks ← bqsTokensGo importer recurse module pm rest
      Except.ok (Tok.ph (ParamType.Auth param) :: toks)
    | Interp.Param param =>
      match alGet pm param with
      | none => Except.error ("could not map paramter " ++ String.mk param ++
          " to the right param type")
      | some pt => do
        let toks ← bqsTokensGo importer recurse module pm rest
        Except.ok (Tok.ph pt :: toks)
    | Interp.CallSite func params =>
      match alGet module.front_matter.imports func with
      | none => Except.error ("could not find import for " ++ String.mk func)
      | some (path, _) =>
        match importer path with
        | none => Except.error ("could not import module for " ++ String.mk func)
        | some imported_module =>
          if params.length ≠ imported_module.front_matter.params.length then
            Except.error ("number of parameters to do not match for imported module " ++
              String.mk func)
          else
            match newParamMapping pm (imported_module.front_matter.params.zip params) with
            | Except.error e => Except.error e
            | Except.ok new_param_mapping =>
              match imported_module.sql.head? with
              | none => Except.error ("imported module " ++ String.mk func ++
                  " should have one statement")
              | some first_statement =>
                match recurse imported_module new_param_mapping first_statement with
                | Except.error e => Except.error e
                | Except.ok inner => do
                  let toks ← bqsTokensGo importer recurse module pm rest
                  Except.ok (Tok.lit (s2l " ( /* start of import " ++ func ++ s2l " */\n")
                    :: (inner ++ Tok.lit (s2l "\n) /* end of import " ++ func ++ s2l " */")
                    :: toks))

/-- The token stream of a statement: the same traversal as `bqsHelper`, with
the same checks and fuel discipline, but recording tokens instead of assigning
numbers. -/
def bqsTokens (importer : Str → Option Module) :
    Nat → Module → List (Str × ParamType) → List Interp → Except String (List Tok)
  | 0 => fun _ _ _ => Except.error "import nesting deeper than the modelling fuel"
  | fuel + 1 => bqsTokensGo importer (bqsTokens importer fuel)

/-- First-occurrence subsequence: the distinct param types of `ps` in order of
first occurrence, given the ones already `seen` (in order). -/
def firstOccurAux (seen : List ParamType) : List ParamType → List ParamType
  | [] => seen
  | p :: ps => if p ∈ seen then firstOccurAux seen ps else firstOccurAux (seen ++ [p]) ps

/-! ### Properties of the binder's mapping -/

theorem ptGet_append_of_some {m ext : Mapping} {pt : ParamType} {n : Nat}
    (h : ptGet m pt = some n) : ptGet (m ++ ext) pt = some n := by
  induction m with
  | nil => simp [ptGet] at h
  | cons hd tl ih =>
    by_cases hk : hd.1 = pt
    · simpa [ptGet, List.find?_cons, hk] using h
    · have h' : ptGet tl pt = some n := by simpa [ptGet, List.find?_cons, hk] using h
      simpa [ptGet, List.find?_cons, hk] using ih h'

theorem ptGet_append_of_none {m ext : Mapping} {pt : ParamType}
    (h : ptGet m pt = none) : ptGet (m ++ ext) pt = ptGet ext pt := by
  induction m with
  | nil => rfl
  | cons hd tl ih =>
    by_cases hk : hd.1 = pt
    · simp [ptGet, List.find?_cons, hk] at h
    · have h' : ptGet tl pt = none := by simpa [ptGet, List.find?_cons, hk] using h
      simpa [ptGet, List.find?_cons, hk] using ih h'

theorem ptGet_singleton_self (pt : ParamType) (n : Nat) :
    ptGet [(pt, n)] pt = some n := by
  simp [ptGet, List.find?]

theorem extendMapping_nil (m : Mapping) : extendMapping m [] = m := rfl

theorem extendMapping_cons (m : Mapping) (p : ParamType) (ps : List ParamType) :
    extendMapping m (p :: ps) = extendMapping (mapInsertStep m p) ps := rfl

theorem extendMapping_append (m : Mapping) (a b : List ParamType) :
    extendMapping m (a ++ b) = extendMapping (extendMapping m a) b :=
  List.foldl_append ..

theorem mapInsertStep_eq_append (m : Mapping) (p : ParamType) :
    ∃ ext, mapInsertStep m p = m ++ ext := by
  unfold mapInsertStep
  split
  · exact ⟨[], (List.append_nil m).symm⟩
  · exact ⟨[(p, m.length + 1)], rfl⟩

theorem extendMapping_eq_append (ps : List ParamType) :
    ∀ m, ∃ ext, extendMapping m ps = m ++ ext := by
  induction ps with
  | nil => exact fun m => ⟨[], (List.append_nil m).symm⟩
  | cons p ps ih =>
    intro m
    obtain ⟨e₁, he₁⟩ := mapInsertStep_eq_append m p
    obtain ⟨e₂, he₂⟩ := ih (mapInsertStep m p)
    exact ⟨e₁ ++ e₂, by rw [extendMapping_cons, he₂, he₁, List.append_assoc]⟩

theorem ptGet_extendMapping_of_some {m : Mapping} {pt : ParamType} {n : Nat}
    (ps : List ParamType) (h : ptGet m pt = some n) :
    ptGet (extendMapping m ps) pt = some n := by
  obtain ⟨ext, hext⟩ := extendMapping_eq_append ps m
  rw [hext]
  exact ptGet_append_of_some h

theorem ptGet_mapInsertStep_self (m : Mapping) (p : ParamType) :
    (ptGet (mapInsertStep m p) p).isSome := by
  unfold mapInsertStep
  rcases hm : ptGet m p with _ | n
  · simp only [hm, Option.isSome_none, Bool.false_eq_true, if_false]
    rw [ptGet_append_of_none hm, ptGet_singleton_self]
    rfl
  · simp [hm]

theorem ptGet_extendMapping_isSome {ps : List ParamType} :
    ∀ {m : Mapping} {p : ParamType}, p ∈ ps →
      (ptGet (extendMapping m ps) p).isSome := by
  induction ps with
  | nil => intro m p h; exact absurd h (List.not_mem_nil p)
  | cons q ps ih =>
    intro m p h
    rcases List.mem_cons.1 h with rfl | h
    · rw [extendMapping_cons]
      rcases hs : ptGet (mapInsertStep m p) p with _ | n
      · have := ptGet_mapInsertStep_self m p
        rw [hs] at this
        simp at this
      · rw [ptGet_extendMapping_of_some ps hs]; rfl
    · rw [extendMapping_cons]
      exact ih h

theorem phs_nil : phs [] = [] := rfl

theorem phs_cons_lit (s : Str) (ts : List Tok) : phs (Tok.lit s :: ts) = phs ts := rfl

theorem phs_cons_ph (p : ParamType) (ts : List Tok) :
    phs (Tok.ph p :: ts) = p :: phs ts := rfl

theorem phs_append (a b : List Tok) : phs (a ++ b) = phs a ++ phs b :=
  List.filterMap_append ..

theorem renderToks_nil (m : Mapping) : renderToks m [] = [] := rfl

theorem renderToks_cons (m : Mapping) (t : Tok) (ts : List Tok) :
    renderToks m (t :: ts) = renderTok m t ++ renderToks m ts := by
  simp [renderToks]

theorem renderToks_append (m : Mapping) (a b : List Tok) :
    renderToks m (a ++ b) = renderToks m a ++ renderToks m b := by
  simp [renderToks]

theorem renderToks_stable {m ext : Mapping} {toks : List Tok}
    (h : ∀ p ∈ phs toks, (ptGet m p).isSome) :
    renderToks (m ++ ext) toks = renderToks m toks := by
  induction toks with
  | nil => rfl
  | cons t ts ih =>
    rcases t with s | p
    · rw [renderToks_cons, renderToks_cons, ih (fun p hp => h p hp)]
      rfl
    · have hp := h p (by rw [phs_cons_ph]; exact List.mem_cons_self _ _)
      rcases hs : ptGet m p with _ | n
      · rw [hs] at hp; simp at hp
      · rw [renderToks_cons, renderToks_cons,
          ih (fun q hq => h q (by rw [phs_cons_ph]; exact List.mem_cons_of_mem _ hq))]
        simp [renderTok, ptGet_append_of_some hs, hs]

/-- Main specification of `build_query_statement_helper`: a successful run
produces the token stream of the statement, extends the mapping with exactly
the first occurrences of the placeholder occurrences, and appends to the
writer the stream rendered through the final mapping (so every occurrence of
the same `ParamType` is rendered with the same placeholder number). -/
theorem bqsGo_ok_spec (importer : Str → Option Module)
    (recH : Module → Str → Mapping → List (Str × ParamType) → List Interp →
      Except String (Str × Mapping))
    (recT : Module → List (Str × ParamType) → List Interp → Except String (List Tok))
    (hrec : ∀ module writer mapping pm stmt w' m',
      recH module writer mapping pm stmt = Except.ok (w', m') →
      ∃ toks, recT module pm stmt = Except.ok toks ∧
        m' = extendMapping mapping (phs toks) ∧
        w' = writer ++ renderToks m' toks) :
    ∀ (stmt : List Interp) (module : Module) (writer : Str) (mapping : Mapping)
      (pm : List (Str × ParamType)) (w' : Str) (m' : Mapping),
      bqsHelperGo importer recH module writer mapping pm stmt = Except.ok (w', m') →
      ∃ toks, bqsTokensGo importer recT module pm stmt = Except.ok toks ∧
        m' = extendMapping mapping (phs toks) ∧
        w' = writer ++ renderToks m' toks := by
  intro stmt
  induction stmt with
  | nil =>
    intro module writer mapping pm w' m' hok
    simp only [bqsHelperGo] at hok
    cases hok
    exact ⟨[], rfl, rfl, (List.append_nil writer).symm⟩
  | cons interp rest ih =>
    intro module writer mapping pm w' m' hok
    rcases interp with lit | param | param | ⟨func, params⟩
    · -- Literal
      simp only [bqsHelperGo] at hok
      obtain ⟨toks, htoks, hm, hw⟩ := ih _ _ _ _ _ _ hok
      refine ⟨Tok.lit lit :: toks, ?_, ?_, ?_⟩
      · simp only [bqsTokensGo, htoks]; rfl
      · rw [hm]; rfl
      · rw [hw, renderToks_cons]
        simp [renderTok, List.append_assoc]
    · -- Param
      simp only [bqsHelperGo] at hok
      rcases hpm : alGet pm param with _ | pt <;> rw [hpm] at hok
      · exact absurd hok (by simp)
      · simp only at hok
        rcases hn : ptGet (mapInsertStep mapping pt) pt with _ | n <;> rw [hn] at hok
        · exact absurd hok (by simp)
        · simp only at hok
          obtain ⟨toks, htoks, hm, hw⟩ := ih _ _ _ _ _ _ hok
          refine ⟨Tok.ph pt :: toks, ?_, ?_, ?_⟩
          · simp only [bqsTokensGo, hpm, htoks]; rfl
          · rw [hm, phs_cons_ph, extendMapping_cons]
          · have hfinal : ptGet m' pt = some n := by
              rw [hm]
              exact ptGet_extendMapping_of_some _ hn
            rw [hw, renderToks_cons]
            simp [renderTok, hfinal, List.append_assoc]
    · -- AuthParam
      simp only [bqsHelperGo] at hok
      rcases hn : ptGet (mapInsertStep mapping (ParamType.Auth param)) (ParamType.Auth param)
          with _ | n <;> rw [hn] at hok
      · exact absurd hok (by simp)
      · simp only at hok
        obtain ⟨toks, htoks, hm, hw⟩ := ih _ _ _ _ _ _ hok
        refine ⟨Tok.ph (ParamType.Auth param) :: toks, ?_, ?_, ?_⟩
        · simp only [bqsTokensGo, htoks]; rfl
        · rw [hm, phs_cons_ph, extendMapping_cons]
        · have hfinal : ptGet m' (ParamType.Auth param) = some n := by
            rw [hm]
            exact ptGet_extendMapping_of_some _ hn
          rw [hw, renderToks_cons]
          simp [renderTok, hfinal, List.append_assoc]
    · -- CallSite
      simp only [bqsHelperGo] at hok
      rcases himp : alGet module.front_matter.imports func with _ | pathargs <;>
        rw [himp] at hok <;> simp only at hok
      · exact absurd hok (by simp)
      · obtain ⟨path, fargs⟩ := pathargs
        rcases hmod : importer path with _ | imported <;> rw [hmod] at hok <;>
          simp only at hok
        · exact absurd hok (by simp)
        · by_cases hlen : params.length = imported.front_matter.params.length
          · have hne : ¬ (params.length ≠ imported.front_matter.params.length) :=
              fun hcon => hcon hlen
            rw [if_neg hne] at hok
            rcases hnpm : newParamMapping pm (imported.front_matter.params.zip params)
                with e | npm <;> rw [hnpm] at hok <;> simp only at hok
            · exact absurd hok (by simp)
            · rcases hhead : imported.sql.head? with _ | first <;> rw [hhead] at hok <;>
                simp only at hok
              · exact absurd hok (by simp)
              · rcases hinner : recH imported
                    (writer ++ s2l " ( /* start of import " ++ func ++ s2l " */\n")
                    mapping npm first with e | wm <;> rw [hinner] at hok <;>
                  simp only at hok
                · exact absurd hok (by simp)
                · obtain ⟨w₁, m₁⟩ := wm
                  obtain ⟨toks₁, htoks₁, hm₁, hw₁⟩ := hrec _ _ _ _ _ _ _ hinner
                  obtain ⟨toks₂, htoks₂, hm₂, hw₂⟩ := ih _ _ _ _ _ _ hok
                  refine ⟨Tok.lit (s2l " ( /* start of import " ++ func ++ s2l " */\n")
                    :: (toks₁ ++ Tok.lit (s2l "\n) /* end of import " ++ func ++ s2l " */")
                    :: toks₂), ?_, ?_, ?_⟩
                  · simp only [bqsTokensGo, himp, hmod, if_neg hne,
                      hnpm, hhead, htoks₁, htoks₂, bind, Except.bind]
                  · rw [hm₂, hm₁]
                    simp only [phs_cons_lit, phs_append, phs_cons_ph]
                    rw [← extendMapping_append]
                  · have hsub : ∀ p ∈ phs toks₁, (ptGet m₁ p).isSome := by
                      intro p hp
                      rw [hm₁]
                      exact ptGet_extendMapping_isSome hp
                    have hstable : renderToks m' toks₁ = renderToks m₁ toks₁ := by
                      obtain ⟨ext, hext⟩ := extendMapping_eq_append (phs toks₂) m₁
                      rw [hm₂, hext]
                      exact renderToks_stable hsub
                    rw [hw₂, hw₁]
                    simp only [renderToks_cons, renderToks_append, renderTok, hstable]
                    simp [List.append_assoc]
          · rw [if_pos hlen] at hok
            exact absurd hok (by simp)

/-- The specification lifted through the fuel recursion. -/
theorem bqsHelper_ok_spec (importer : Str → Option Module) :
    ∀ (fuel : Nat) (module : Module) (writer : Str) (mapping : Mapping)
      (pm : List (Str × ParamType)) (stmt : List Interp) (w' : Str) (m' : Mapping),
      bqsHelper importer fuel module writer mapping pm stmt = Except.ok (w', m') →
      ∃ toks, bqsTokens importer fuel module pm stmt = Except.ok toks ∧
        m' = extendMapping mapping (phs toks) ∧
        w' = writer ++ renderToks m' toks := by
  intro fuel
  induction fuel with
  | zero =>
    intro module writer mapping pm stmt w' m' hok
    exact absurd hok (by simp [bqsHelper])
  | succ fuel ih =>
    intro module writer mapping pm stmt w' m' hok
    exact bqsGo_ok_spec importer (bqsHelper importer fuel) (bqsTokens importer fuel)
      (fun module writer mapping pm stmt w' m' h => ih module writer mapping pm stmt w' m' h)
      stmt module writer mapping pm w' m' hok

theorem extendMapping_values (ps : List ParamType) :
    ∀ m : Mapping, m.map Prod.snd = List.range' 1 m.length →
      (extendMapping m ps).map Prod.snd = List.range' 1 (extendMapping m ps).length := by
  induction ps with
  | nil => exact fun m h => h
  | cons p ps ih =>
    intro m h
    rw [extendMapping_cons]
    refine ih _ ?_
    unfold mapInsertStep
    split
    · exact h
    · have hconc : List.range' 1 (m.length + 1) =
          List.range' 1 m.length ++ [1 + 1 * m.length] :=
        @List.range'_concat 1 1 m.length
      simp only [List.map_append, List.length_append, List.map_cons, List.map_nil,
        List.length_cons, List.length_nil, h, Nat.zero_add]
      rw [hconc]
      simp [Nat.add_comm]

theorem ptGet_isSome_iff_mem_keys (m : Mapping) (pt : ParamType) :
    (ptGet m pt).isSome ↔ pt ∈ m.map Prod.fst := by
  induction m with
  | nil => simp [ptGet]
  | cons hd tl ih =>
    by_cases hk : hd.1 = pt
    · simp [ptGet, List.find?_cons, hk]
    · have hne : ¬ (pt = hd.1) := fun hcon => hk hcon.symm
      simp only [List.map_cons, List.mem_cons, hne, false_or]
      rw [← ih]
      simp [ptGet, List.find?_cons, hk]

theorem extendMapping_keys (ps : List ParamType) :
    ∀ m : Mapping, (extendMapping m ps).map Prod.fst =
      firstOccurAux (m.map Prod.fst) ps := by
  induction ps with
  | nil => exact fun m => rfl
  | cons p ps ih =>
    intro m
    rw [extendMapping_cons]
    unfold firstOccurAux
    by_cases hmem : p ∈ m.map Prod.fst
    · rw [if_pos hmem]
      have hstep : mapInsertStep m p = m := by
        unfold mapInsertStep
        rw [if_pos ((ptGet_isSome_iff_mem_keys m p).2 hmem)]
      rw [hstep]
      exact ih m
    · rw [if_neg hmem]
      have hnone : (ptGet m p).isSome = false := by
        rcases hs : (ptGet m p).isSome with _ | _
        · rfl
        · exact absurd ((ptGet_isSome_iff_mem_keys m p).1 (by rw [hs])) hmem
      have hstep : mapInsertStep m p = m ++ [(p, m.length + 1)] := by
        unfold mapInsertStep
        rw [hnone]
        simp
      rw [hstep, ih]
      simp

theorem firstOccurAux_nodup (ps : List ParamType) :
    ∀ seen : List ParamType, seen.Nodup → (firstOccurAux seen ps).Nodup := by
  induction ps with
  | nil => exact fun seen h => h
  | cons p ps ih =>
    intro seen h
    unfold firstOccurAux
    by_cases hmem : p ∈ seen
    · rw [if_pos hmem]; exact ih seen h
    · rw [if_neg hmem]
      refine ih _ ?_
      rw [List.nodup_append]
      exact ⟨h, List.nodup_singleton p, by simpa using hmem⟩

theorem natInsertSorted_of_gt (acc : List (Nat × ParamType)) (n : Nat) (p : ParamType)
    (h : ∀ q ∈ acc.map Prod.fst, q < n) :
    natInsertSorted acc n p = acc ++ [(n, p)] := by
  induction acc with
  | nil => rfl
  | cons hd tl ih =>
    have hlt : hd.1 < n := h hd.1 (by simp)
    unfold natInsertSorted
    rw [if_neg (by omega), if_neg (by omega)]
    rw [ih (fun q hq => h q (by simp [hq]))]
    rfl

theorem invertMapping_of_range (m : Mapping)
    (h : m.map Prod.snd = List.range' 1 m.length) :
    invertMapping m = m.map (fun pn => (pn.2, pn.1)) := by
  induction m using List.reverseRecOn with
  | nil => rfl
  | append_singleton init l ih =>
    have hlen : (List.map Prod.snd init).length = (List.range' 1 init.length).length := by
      simp
    have h' : List.map Prod.snd init ++ [l.2] =
        List.range' 1 init.length ++ [1 + 1 * init.length] := by
      have hh := h
      simp only [List.map_append, List.map_cons, List.map_nil, List.length_append,
        List.length_cons, List.length_nil, Nat.zero_add] at hh
      rw [@List.range'_concat 1 1 init.length] at hh
      exact hh
    have hsplit := List.append_inj h' hlen
    have hval : l.2 = init.length + 1 := by
      have h2 := hsplit.2
      simp only [List.cons.injEq, and_true] at h2
      omega
    have hinv : invertMapping (init ++ [l]) =
        natInsertSorted (invertMapping init) l.2 l.1 := by
      unfold invertMapping
      rw [List.foldl_append]
      rfl
    rw [hinv, ih hsplit.1, natInsertSorted_of_gt]
    · simp
    · intro q hq
      simp only [List.map_map] at hq
      have hq' : q ∈ List.map Prod.snd init := by
        simpa using hq
      rw [hsplit.1] at hq'
      obtain ⟨i, hi, rfl⟩ := List.mem_range'.1 hq'
      omega

theorem zip_range_check (l : List Nat) :
    ∀ s : Nat, (((l.zip (List.range' s (l.length + 1))).any
      (fun p => p.1 ≠ p.2)) = false) ↔ l = List.range' s l.length := by
  induction l with
  | nil => intro s; simp
  | cons a l ih =>
    intro s
    have h1 : List.range' s ((a :: l).length + 1) =
        s :: List.range' (s + 1) (l.length + 1) :=
      List.range'_succ s (l.length + 1) 1
    have h2 : List.range' s (a :: l).length = s :: List.range' (s + 1) l.length :=
      List.range'_succ s l.length 1
    rw [h1, h2, List.zip_cons_cons]
    simp only [List.any_cons, Bool.or_eq_false_iff, decide_eq_false_iff_not, not_not,
      List.cons_eq_cons]
    rw [ih (s + 1)]

theorem finalizeParams_of_range (m : Mapping)
    (h : m.map Prod.snd = List.range' 1 m.length) :
    finalizeParams m = Except.ok (m.map Prod.fst) := by
  have hinv := invertMapping_of_range m h
  have hfst : (invertMapping m).map Prod.fst = List.range' 1 m.length := by
    rw [hinv, List.map_map]
    exact h
  have hlen : (invertMapping m).length = m.length := by rw [hinv]; simp
  have hsnd : (invertMapping m).map Prod.snd = m.map Prod.fst := by
    rw [hinv, List.map_map]
    rfl
  have hcheck : (((invertMapping m).map Prod.fst).zip
      (List.range' 1 (((invertMapping m).map Prod.fst).length + 1))).any
        (fun p => p.1 ≠ p.2) = false := by
    refine (zip_range_check _ 1).2 ?_
    rw [hfst]
    congr 1
    simp [hlen]
  unfold finalizeParams
  rw [show List.range' 1 ((invertMapping m).length + 1) =
      List.range' 1 (((invertMapping m).map Prod.fst).length + 1) by simp]
  rw [hcheck]
  simp [hsnd]

theorem finalizeParams_error_of_not_range (m : Mapping)
    (h : (invertMapping m).map Prod.fst ≠
      List.range' 1 (invertMapping m).length) :
    finalizeParams m = Except.error "not all variable bindings were set" := by
  have hlen : ((invertMapping m).map Prod.fst).length = (invertMapping m).length := by
    simp
  have hne : ¬ ((((invertMapping m).map Prod.fst).zip
      (List.range' 1 (((invertMapping m).map Prod.fst).length + 1))).any
        (fun p => p.1 ≠ p.2) = false) := by
    intro hfalse
    have heq := (zip_range_check _ 1).1 hfalse
    rw [hlen] at heq
    exact h heq
  have htrue := eq_true_of_ne_false hne
  unfold finalizeParams
  rw [show List.range' 1 ((invertMapping m).length + 1) =
      List.range' 1 (((invertMapping m).map Prod.fst).length + 1) by simp]
  rw [htrue]
  rfl

theorem ptGet_zip_range (ps : List ParamType) :
    ∀ (s i : Nat) (h : i < ps.length), ps.Nodup →
      ptGet (ps.zip (List.range' s ps.length)) (ps.get ⟨i, h⟩) = some (s + i) := by
  induction ps with
  | nil => intro s i h; exact absurd h (by simp)
  | cons p ps ih =>
    intro s i h hnd
    have hzip : (p :: ps).zip (List.range' s (p :: ps).length) =
        (p, s) :: ps.zip (List.range' (s + 1) ps.length) := by
      rw [show List.range' s (p :: ps).length = s :: List.range' (s + 1) ps.length from
        List.range'_succ s ps.length 1]
      rfl
    rw [hzip]
    rcases i with _ | i
    · simp [ptGet, List.find?_cons]
    · have hi : i < ps.length := by simpa using h
      have hget : (p :: ps).get ⟨i + 1, h⟩ = ps.get ⟨i, hi⟩ := rfl
      rw [hget]
      have hmem : ps.get ⟨i, hi⟩ ∈ ps := List.get_mem ps i hi
      have hne : ¬ (p = ps.get ⟨i, hi⟩) := fun hcon =>
        (List.nodup_cons.1 hnd).1 (hcon ▸ hmem)
      have hrec := ih (s + 1) i hi (List.nodup_cons.1 hnd).2
      have hskip : ptGet ((p, s) :: ps.zip (List.range' (s + 1) ps.length))
          (ps.get ⟨i, hi⟩) = ptGet (ps.zip (List.range' (s + 1) ps.length))
          (ps.get ⟨i, hi⟩) := by
        unfold ptGet
        rw [List.find?_cons_of_neg]
        simpa using hne
      rw [hskip, hrec]
      congr 1
      omega

/-- Combined contract of `build_query_statement`: on success the SQL text is
the statement's token stream rendered through the single final placeholder
assignment `params.zip [1..n]`, and `params` is the list of distinct
`ParamType`s in first-occurrence order. -/
theorem buildQueryStatement_ok_spec (importer : Str → Option Module) (fuel : Nat)
    (module : Module) (stmt : List Interp) (sql : Str) (params : List ParamType)
    (hok : buildQueryStatement importer fuel module stmt = Except.ok (sql, params)) :
    ∃ toks, bqsTokens importer fuel module (moduleParamMapping module) stmt =
        Except.ok toks ∧
      params = firstOccurAux [] (phs toks) ∧
      params.Nodup ∧
      sql = renderToks (params.zip (List.range' 1 params.length)) toks := by
  simp only [buildQueryStatement, bind, Except.bind] at hok
  rcases hh : bqsHelper importer fuel module [] [] (moduleParamMapping module) stmt
      with e | bufmap <;> rw [hh] at hok <;> simp only at hok
  · exact absurd hok (by simp)
  · obtain ⟨buf, mapping⟩ := bufmap
    obtain ⟨toks, htoks, hm, hw⟩ := bqsHelper_ok_spec importer fuel module [] []
      (moduleParamMapping module) stmt buf mapping hh
    have hvals : mapping.map Prod.snd = List.range' 1 mapping.length := by
      rw [hm]
      exact extendMapping_values (phs toks) [] rfl
    rw [finalizeParams_of_range mapping hvals] at hok
    simp only at hok
    cases hok
    have hkeys : mapping.map Prod.fst = firstOccurAux [] (phs toks) := by
      rw [hm]
      exact extendMapping_keys (phs toks) []
    refine ⟨toks, htoks, hkeys, ?_, ?_⟩
    · rw [hkeys]
      exact firstOccurAux_nodup (phs toks) [] List.nodup_nil
    · have hzip : (mapping.map Prod.fst).zip
          (List.range' 1 (mapping.map Prod.fst).length) = mapping := by
        have : (mapping.map Prod.fst).length = mapping.length := by simp
        rw [this, ← hvals]
        exact (List.zip_of_prod rfl rfl).symm
      rw [hw, hzip]
      rfl

/-- Claim C3: the binder contract of `build_query_statement`.  On success:
every occurrence of the same `ParamType` maps to the same placeholder number
(the SQL text is the token stream rendered through the single assignment
`params.zip [1..n]`); numbering follows first-seen order starting at 1
(`params` is the first-occurrence sequence, so the i-th distinct param type
gets number i+1); the assigned placeholder set is exactly the contiguous range
`1..=n` (`params.zip (range' 1 n)` with the `ptGet` fact below), and a
non-contiguous inverted mapping makes `finalizeParams` return the fatal
"not all variable bindings were set" error instead of output; the i-th entry
of `params` is the `ParamType` bound to placeholder i. -/
theorem claim_C3_binder_contract (importer : Str → Option Module) (fuel : Nat)
    (module : Module) (stmt : List Interp) (sql : Str) (params : List ParamType)
    (hok : buildQueryStatement importer fuel module stmt = Except.ok (sql, params)) :
    (∃ toks, bqsTokens importer fuel module (moduleParamMapping module) stmt =
        Except.ok toks ∧
      params = firstOccurAux [] (phs toks) ∧
      params.Nodup ∧
      sql = renderToks (params.zip (List.range' 1 params.length)) toks) ∧
    (∀ (i : Nat) (h : i < params.length),
      ptGet (params.zip (List.range' 1 params.length)) (params.get ⟨i, h⟩) =
        some (1 + i)) ∧
    (∀ m : Mapping, (invertMapping m).map Prod.fst ≠
        List.range' 1 (invertMapping m).length →
      finalizeParams m = Except.error "not all variable bindings were set") := by
  obtain ⟨toks, htoks, hfo, hnd, hsql⟩ :=
    buildQueryStatement_ok_spec importer fuel module stmt sql params hok
  refine ⟨⟨toks, htoks, hfo, hnd, hsql⟩, ?_, finalizeParams_error_of_not_range⟩
  intro i h
  exact ptGet_zip_range params 1 i h hnd

/-- Witness for C3 at the statement `p1, p2, p1` over declared parameters
`[p1, p2]`: both `p1` occurrences render as `$1`, `p2` as `$2`, the
placeholder set is exactly `{1, 2}` and the bound list is `[p1, p2]`. -/
theorem claim_C3_binder_contract_witness :
    (∃ toks, bqsTokens (fun _ => none) 1
        ⟨⟨s2l "/m", none, [s2l "p1", s2l "p2"], [], none⟩, [[]]⟩
        (moduleParamMapping ⟨⟨s2l "/m", none, [s2l "p1", s2l "p2"], [], none⟩, [[]]⟩)
        [Interp.Param (s2l "p1"), Interp.Param (s2l "p2"), Interp.Param (s2l "p1")] =
        Except.ok toks ∧
      [ParamType.Param (s2l "p1"), ParamType.Param (s2l "p2")] =
        firstOccurAux [] (phs toks) ∧
      ([ParamType.Param (s2l "p1"), ParamType.Param (s2l "p2")] : List ParamType).Nodup ∧
      s2l "$1$2$1" = renderToks
        (([ParamType.Param (s2l "p1"), ParamType.Param (s2l "p2")] : List ParamType).zip
          (List.range' 1 ([ParamType.Param (s2l "p1"),
            ParamType.Param (s2l "p2")] : List ParamType).length)) toks) ∧
    (∀ (i : Nat) (h : i < ([ParamType.Param (s2l "p1"),
        ParamType.Param (s2l "p2")] : List ParamType).length),
      ptGet (([ParamType.Param (s2l "p1"), ParamType.Param (s2l "p2")] :
          List ParamType).zip
        (List.range' 1 ([ParamType.Param (s2l "p1"),
          ParamType.Param (s2l "p2")] : List ParamType).length))
        (([ParamType.Param (s2l "p1"), ParamType.Param (s2l "p2")] :
          List ParamType).get ⟨i, h⟩) = some (1 + i)) ∧
    (∀ m : Mapping, (invertMapping m).map Prod.fst ≠
        List.range' 1 (invertMapping m).length →
      finalizeParams m = Except.error "not all variable bindings were set") :=
  claim_C3_binder_contract (fun _ => none) 1
    ⟨⟨s2l "/m", none, [s2l "p1", s2l "p2"], [], none⟩, [[]]⟩
    [Interp.Param (s2l "p1"), Interp.Param (s2l "p2"), Interp.Param (s2l "p1")]
    (s2l "$1$2$1") [ParamType.Param (s2l "p1"), ParamType.Param (s2l "p2")] rfl

/-- Counterexample to claim C5: two statements over the same declared
parameters containing the same set of `ParamType`s but in swapped occurrence
order receive different number assignments (`a ↦ 1, b ↦ 2` versus
`b ↦ 1, a ↦ 2`), so the numbering is not canonically determined by the
`ParamType` order independently of encounter order. -/
theorem claim_C5_counterexample :
    buildQueryStatement (fun _ => none) 1
      ⟨⟨s2l "/m", none, [s2l "a", s2l "b"], [], none⟩, [[]]⟩
      [Interp.Param (s2l "a"), Interp.Param (s2l "b")] =
      Except.ok (s2l "$1$2",
        [ParamType.Param (s2l "a"), ParamType.Param (s2l "b")]) ∧
    buildQueryStatement (fun _ => none) 1
      ⟨⟨s2l "/m", none, [s2l "a", s2l "b"], [], none⟩, [[]]⟩
      [Interp.Param (s2l "b"), Interp.Param (s2l "a")] =
      Except.ok (s2l "$1$2",
        [ParamType.Param (s2l "b"), ParamType.Param (s2l "a")]) ∧
    ([ParamType.Param (s2l "a"), ParamType.Param (s2l "b")] : List ParamType).Perm
      [ParamType.Param (s2l "b"), ParamType.Param (s2l "a")] ∧
    ([ParamType.Param (s2l "a"), ParamType.Param (s2l "b")] : List ParamType) ≠
      [ParamType.Param (s2l "b"), ParamType.Param (s2l "a")] :=
  ⟨rfl, rfl, by decide, by decide⟩

/-- Claim C5 (amended): the positional-parameter numbering produced by the
binder is determined by the order of first occurrence of the `ParamType`s in
the traversal (including nested inlined imports), not canonically by the
`ParamType` order: two statements whose placeholder occurrences have the same
first-occurrence sequence receive the same number assignment, while statements
with equal `ParamType` sets but different encounter orders may differ. -/
theorem claim_C5_first_seen_numbering (importer : Str → Option Module)
    (fuel₁ fuel₂ : Nat) (mod₁ mod₂ : Module) (stmt₁ stmt₂ : List Interp)
    (sql₁ sql₂ : Str) (params₁ params₂ : List ParamType) (toks₁ toks₂ : List Tok)
    (hok₁ : buildQueryStatement importer fuel₁ mod₁ stmt₁ = Except.ok (sql₁, params₁))
    (hok₂ : buildQueryStatement importer fuel₂ mod₂ stmt₂ = Except.ok (sql₂, params₂))
    (ht₁ : bqsTokens importer fuel₁ mod₁ (moduleParamMapping mod₁) stmt₁ =
      Except.ok toks₁)
    (ht₂ : bqsTokens importer fuel₂ mod₂ (moduleParamMapping mod₂) stmt₂ =
      Except.ok toks₂)
    (hsame : firstOccurAux [] (phs toks₁) = firstOccurAux [] (phs toks₂)) :
    params₁ = params₂ := by
  obtain ⟨t₁, ht₁x, hfo₁, _, _⟩ :=
    buildQueryStatement_ok_spec importer fuel₁ mod₁ stmt₁ sql₁ params₁ hok₁
  obtain ⟨t₂, ht₂x, hfo₂, _, _⟩ :=
    buildQueryStatement_ok_spec importer fuel₂ mod₂ stmt₂ sql₂ params₂ hok₂
  rw [ht₁x] at ht₁
  rw [ht₂x] at ht₂
  cases ht₁
  cases ht₂
  rw [hfo₁, hfo₂]
  exact hsame

/-- Witness for C5's amended theorem: the determination applied to two equal
inputs. -/
theorem claim_C5_first_seen_numbering_witness :
    ([ParamType.Param (s2l "a"), ParamType.Param (s2l "b")] : List ParamType) =
      [ParamType.Param (s2l "a"), ParamType.Param (s2l "b")] :=
  claim_C5_first_seen_numbering (fun _ => none) 1 1
    ⟨⟨s2l "/m", none, [s2l "a", s2l "b"], [], none⟩, [[]]⟩
    ⟨⟨s2l "/m", none, [s2l "a", s2l "b"], [], none⟩, [[]]⟩
    [Interp.Param (s2l "a"), Interp.Param (s2l "b")]
    [Interp.Param (s2l "a"), Interp.Literal (s2l " "), Interp.Param (s2l "b")]
    (s2l "$1$2") (s2l "$1 $2") _ _ _ _ rfl rfl rfl rfl rfl

/-! ### Module collection (engine/importer/module_collection.rs)

`im::OrdMap<String, Arc<Module>>` is modelled as an association list (only
`get`/`insert`/`remove`/`contains_key` are used by the embedded operations, and
no consumer iterates the maps); `Arc` sharing is irrelevant to the properties
and dropped.  Each mutating operation takes the collection and returns the
result together with the new collection, mirroring `&mut self`.
`fs::canonicalize` is the impure parameter `canonicalize`. -/

/-- Embeds `engine/importer/module_collection.rs`'s `ModuleCollectionError`
(payloads beyond the claims' needs are reduced to the implicated path). -/
inductive ModuleCollectionError where
  | IOError (path : Str)
  | NotAbsolutePath (path : Str)
  | ModuleNotFound (path : Str)
  | AlreadyUsedEndpointError (path : Str) (endpoint : Str)
  deriving Repr, DecidableEq

/-- Embeds `ModuleCollection`. -/
structure ModuleCollection where
  endpoints : List (Str × Module)
  locations : List (Str × Module)
  deriving Repr, DecidableEq

/-- Removal from an association list, modelling `OrdMap::remove` (deletes the
binding of the key if present). -/
def alRemove {V : Type} (m : List (Str × V)) (k : Str) : List (Str × V) :=
  match m with
  | [] => []
  | (k₀, v₀) :: rest => if k₀ = k then rest else (k₀, v₀) :: alRemove rest k

/-- Embeds `Path::is_absolute` for Unix-style string paths. -/
def pathIsAbsolute (p : Str) : Bool := p.head? = some (Char.ofNat 47)

/-- Embeds `ModuleCollection::transaction` (module_collection.rs:129-142): run
`func` on a clone and commit both maps only when the result is `Ok`. -/
def ModuleCollection.transaction {O E : Type} (c : ModuleCollection)
    (func : ModuleCollection → Except E O × ModuleCollection) :
    Except E O × ModuleCollection :=
  let (res, editable) := func c
  match res with
  | Except.ok o => (Except.ok o, editable)
  | Except.error e => (Except.error e, c)

/-- Embeds `ModuleCollection::insert` (module_collection.rs:144-172). -/
def ModuleCollection.insert (c : ModuleCollection) (location : Str)
    (module : Module) : Except ModuleCollectionError Unit × ModuleCollection :=
  c.transaction (fun collection =>
    if !pathIsAbsolute location then
      (Except.error (ModuleCollectionError.NotAbsolutePath location), collection)
    else
      match module.front_matter.endpoint with
      | some endpoint =>
        if (alGet collection.endpoints endpoint).isSome then
          (Except.error (ModuleCollectionError.AlreadyUsedEndpointError location endpoint),
            collection)
        else
          let collection :=
            { collection with endpoints := alInsert collection.endpoints endpoint module }
          (Except.ok (),
            { collection with locations := alInsert collection.locations location module })
      | none =>
        (Except.ok (),
          { collection with locations := alInsert collection.locations location module }))

/-- Embeds `ModuleCollection::remove` (module_collection.rs:185-207); the
comment in the source notes it needs no transaction because no mutation
happens before the only error return. -/
def ModuleCollection.remove (canonicalize : Str → Option Str) (c : ModuleCollection)
    (location : Str) : Except ModuleCollectionError Bool × ModuleCollection :=
  let newLocRes :=
    if !pathIsAbsolute location then
      match canonicalize location with
      | none => Except.error (ModuleCollectionError.ModuleNotFound location)
      | some canonical => Except.ok canonical
    else Except.ok location
  match newLocRes with
  | Except.error e => (Except.error e, c)
  | Except.ok newLoc =>
    let removed := alGet c.locations newLoc
    let locations := alRemove c.locations newLoc
    match removed.bind (fun m => m.front_matter.endpoint) with
    | some endpoint =>
      (Except.ok true, ⟨alRemove c.endpoints endpoint, locations⟩)
    | none => (Except.ok removed.isSome, ⟨c.endpoints, locations⟩)

/-- Embeds `ModuleCollection::upsert` (module_collection.rs:174-183). -/
def ModuleCollection.upsert (canonicalize : Str → Option Str) (c : ModuleCollection)
    (location : Str) (module : Module) :
    Except ModuleCollectionError Unit × ModuleCollection :=
  c.transaction (fun collection =>
    match ModuleCollection.remove canonicalize collection location with
    | (Except.error e, collection) => (Except.error e, collection)
    | (Except.ok _, collection) => ModuleCollection.insert collection location module)

theorem ModuleCollection.transaction_error {O E : Type} (c : ModuleCollection)
    (func : ModuleCollection → Except E O × ModuleCollection) (e : E) (c' : ModuleCollection)
    (h : c.transaction func = (Except.error e, c')) : c' = c := by
  unfold ModuleCollection.transaction at h
  rcases hf : func c with ⟨res, editable⟩
  rw [hf] at h
  rcases res with e₀ | o
  · simp only at h
    cases h
    rfl
  · simp only at h
    exact absurd h (by simp)

/-- Claim C8: for every `ModuleCollection` and every `insert`, `upsert` or
`remove` operation on it, if the operation returns an error then both the
endpoint map and the location map are unchanged; a change to either map is
committed only when the whole operation succeeds. -/
theorem claim_C8_collection_atomicity (canonicalize : Str → Option Str)
    (c : ModuleCollection) (location : Str) (module : Module) :
    (∀ e c', c.insert location module = (Except.error e, c') →
      c'.endpoints = c.endpoints ∧ c'.locations = c.locations) ∧
    (∀ e c', ModuleCollection.upsert canonicalize c location module =
        (Except.error e, c') →
      c'.endpoints = c.endpoints ∧ c'.locations = c.locations) ∧
    (∀ e c', ModuleCollection.remove canonicalize c location = (Except.error e, c') →
      c'.endpoints = c.endpoints ∧ c'.locations = c.locations) := by
  refine ⟨?_, ?_, ?_⟩
  · intro e c' h
    rw [ModuleCollection.transaction_error c _ e c' h]
    exact ⟨rfl, rfl⟩
  · intro e c' h
    rw [ModuleCollection.transaction_error c _ e c' h]
    exact ⟨rfl, rfl⟩
  · intro e c' h
    unfold ModuleCollection.remove at h
    rcases hres : (if !pathIsAbsolute location then
        match canonicalize location with
        | none => Except.error (ModuleCollectionError.ModuleNotFound location)
        | some canonical => Except.ok canonical
      else Except.ok location) with e₀ | newLoc <;> rw [hres] at h <;> simp only at h
    · cases h
      exact ⟨rfl, rfl⟩
    · split at h <;> simp at h

/-- Witness for C8: a relative path that does not canonicalize makes all three
operations fail, leaving the concrete one-module collection untouched. -/
theorem claim_C8_collection_atomicity_witness :
    (⟨[(s2l "e", ⟨⟨s2l "/m", some (s2l "e"), [], [], none⟩, [[]]⟩)],
      [(s2l "/m", ⟨⟨s2l "/m", some (s2l "e"), [], [], none⟩, [[]]⟩)]⟩ :
        ModuleCollection).insert (s2l "rel")
      ⟨⟨s2l "/m", none, [], [], none⟩, [[]]⟩ =
      (Except.error (ModuleCollectionError.NotAbsolutePath (s2l "rel")),
        ⟨[(s2l "e", ⟨⟨s2l "/m", some (s2l "e"), [], [], none⟩, [[]]⟩)],
         [(s2l "/m", ⟨⟨s2l "/m", some (s2l "e"), [], [], none⟩, [[]]⟩)]⟩) ∧
    (∀ e c', (⟨[(s2l "e", ⟨⟨s2l "/m", some (s2l "e"), [], [], none⟩, [[]]⟩)],
        [(s2l "/m", ⟨⟨s2l "/m", some (s2l "e"), [], [], none⟩, [[]]⟩)]⟩ :
          ModuleCollection).insert (s2l "rel")
        ⟨⟨s2l "/m", none, [], [], none⟩, [[]]⟩ = (Except.error e, c') →
      c'.endpoints = [(s2l "e", ⟨⟨s2l "/m", some (s2l "e"), [], [], none⟩, [[]]⟩)] ∧
      c'.locations = [(s2l "/m", ⟨⟨s2l "/m", some (s2l "e"), [], [], none⟩, [[]]⟩)]) :=
  ⟨rfl,
   (claim_C8_collection_atomicity (fun _ => none)
      ⟨[(s2l "e", ⟨⟨s2l "/m", some (s2l "e"), [], [], none⟩, [[]]⟩)],
       [(s2l "/m", ⟨⟨s2l "/m", some (s2l "e"), [], [], none⟩, [[]]⟩)]⟩
      (s2l "rel") ⟨⟨s2l "/m", none, [], [], none⟩, [[]]⟩).1⟩

/-- Claim C10: `Module::bind` is not total on the public `Interp` type: it
reaches the `todo!()` panic (modelled as `none`) exactly when the statement
contains at least one `CallSite` node, and it returns normally exactly when the
statement consists solely of `Literal`, `Param` and `AuthParam` nodes. -/
theorem claim_C10_bind_panics_iff_callsite (stmt : List Interp) :
    Module.bind stmt = none ↔ ∃ i ∈ stmt, i.isCallSite = true := by
  constructor
  · intro hnone
    by_contra hno
    push_neg at hno
    have hall : ∀ i ∈ stmt, i.isCallSite = false := by
      intro i hi
      have := hno i hi
      revert this
      cases i.isCallSite <;> simp
    obtain ⟨out, hout⟩ := Module.bindGo_some_of_no_callsite stmt [] [] [] hall
    rw [Module.bind, hout] at hnone
    exact Option.noConfusion hnone
  · intro h
    exact Module.bindGo_none_of_callsite stmt [] [] [] h

/-! ### Topological sort (`src/codegen/toposort.rs`)

`BTreeSet<T>` is modelled as a sorted duplicate-free `List T`; iteration order
is the list order.  `insert` is a sorted insertion guarded by a membership
test (a `BTreeSet` insert of a present element is a no-op), `remove` removes
the unique occurrence.  `BTreeSet<(T, T)>` uses the lexicographic order on
pairs, exactly Rust `Ord` for 2-tuples. -/

/-- Sorted insertion, the list layer under `setInsertBy`. -/
def insertSortedBy {A : Type} (lt : A → A → Bool) : List A → A → List A
  | [], a => [a]
  | b :: rest, a => if lt a b then a :: b :: rest else b :: insertSortedBy lt rest a

/-- `BTreeSet::insert`: no-op when the element is present, sorted insertion
otherwise. -/
def setInsertBy {A : Type} [DecidableEq A] (lt : A → A → Bool) (s : List A) (a : A) : List A :=
  if a ∈ s then s else insertSortedBy lt s a

/-- `BTreeSet::remove`: removes the (unique) occurrence of `a`, if present. -/
def setRemove {A : Type} [DecidableEq A] : List A → A → List A
  | [], _ => []
  | b :: rest, a => if b = a then rest else b :: setRemove rest a

/-- `collect::<BTreeSet<_>>()` from an iterator. -/
def setOfListBy {A : Type} [DecidableEq A] (lt : A → A → Bool) (l : List A) : List A :=
  l.foldl (setInsertBy lt) []

/-- The strict order of `T: Ord` as a boolean test. -/
def ltB {T : Type} [LinearOrder T] (a b : T) : Bool := decide (a < b)

/-- The lexicographic strict order on pairs: Rust `Ord` for `(T, T)`. -/
def pairLtB {T : Type} [LinearOrder T] (a b : T × T) : Bool :=
  decide (a.1 < b.1) || (decide (a.1 = b.1) && decide (a.2 < b.2))

/-- The state built by the first `for (from_node, to_node) in edges` loop of
`topological_sort` (toposort.rs:15-37): `parent_of_relations`,
`child_of_relations`, `all_nodes` and the running `min`/`max`. -/
structure ToposortBuild (T : Type) where
  parent_of : List (T × T)
  child_of : List (T × T)
  all_nodes : List T
  minv : Option T
  maxv : Option T

/-- One iteration of the edge loop (toposort.rs:22-37): insert `(to, from)`
into `parent_of`, `(from, to)` into `child_of`, both endpoints into
`all_nodes`, and update `min`/`max`. -/
def toposortBuildStep {T : Type} [LinearOrder T] (st : ToposortBuild T) (e : T × T) :
    ToposortBuild T :=
  { parent_of := setInsertBy pairLtB st.parent_of (e.2, e.1)
    child_of := setInsertBy pairLtB st.child_of (e.1, e.2)
    all_nodes := setInsertBy ltB (setInsertBy ltB st.all_nodes e.2) e.1
    minv := some (match st.minv with
      | some m => min m (min e.1 e.2)
      | none => min e.1 e.2)
    maxv := some (match st.maxv with
      | some m => max m (max e.1 e.2)
      | none => max e.1 e.2) }

def toposortBuild {T : Type} [LinearOrder T] (nodes : List T) (edges : List (T × T)) :
    ToposortBuild T :=
  edges.foldl toposortBuildStep ⟨[], [], setOfListBy ltB nodes, none, none⟩

/-- The body of the `for from_node in from_nodes.drain(..)` loop
(toposort.rs:76-87): remove `(node, from_node)` from `parent_of` and
`(from_node, node)` from `child_of`, then push `from_node` onto `leaves` when
it has no remaining children.  The `child_of.range((from_node, min)..=(from_node, max))`
query of the sorted pair set is exactly the sublist of pairs whose first
component is `from_node` and whose second lies in `[min, max]`. -/
def toposortDrainStep {T : Type} [LinearOrder T] (node minv maxv : T)
    (pcl : List (T × T) × List (T × T) × List T) (from_node : T) :
    List (T × T) × List (T × T) × List T :=
  let parent := setRemove pcl.1 (node, from_node)
  let child := setRemove pcl.2.1 (from_node, node)
  if (child.filter (fun e => e.1 = from_node ∧ minv ≤ e.2 ∧ e.2 ≤ maxv)).length = 0 then
    (parent, child, from_node :: pcl.2.2)
  else (parent, child, pcl.2.2)

/-- The `while let Some(node) = leaves.pop()` loop (toposort.rs:66-88),
fuelled.  `leaves` models the Rust `Vec` with the popped end at the head, so
`pop` is head removal and `push` is `cons`.  `from_nodes` is the
`parent_of.range((node, min)..=(node, max))` query, i.e. the pairs with first
component `node` (second components always lie in `[min, max]`).  When fuel is
exhausted the current state is returned; `toposortLoop_spec` shows the branch
is unreachable once `fuel ≥ |parent_of| + |leaves|`, which each iteration
preserves since it consumes one leaf and pushes at most one leaf per removed
`parent_of` pair. -/
def toposortLoop {T : Type} [LinearOrder T] (minv maxv : T) :
    Nat → List (T × T) → List (T × T) → List T → List T →
    List T × List (T × T) × List (T × T)
  | 0, parent, child, _leaves, res => (res, parent, child)
  | fuel + 1, parent, child, leaves, res =>
    match leaves with
    | [] => (res, parent, child)
    | node :: leaves =>
      toposortLoop minv maxv fuel
        (((parent.filter (fun e => e.1 = node ∧ minv ≤ e.2 ∧ e.2 ≤ maxv)).map
            (fun e => e.2)).foldl (toposortDrainStep node minv maxv)
          (parent, child, leaves)).1
        (((parent.filter (fun e => e.1 = node ∧ minv ≤ e.2 ∧ e.2 ≤ maxv)).map
            (fun e => e.2)).foldl (toposortDrainStep node minv maxv)
          (parent, child, leaves)).2.1
        (((parent.filter (fun e => e.1 = node ∧ minv ≤ e.2 ∧ e.2 ≤ maxv)).map
            (fun e => e.2)).foldl (toposortDrainStep node minv maxv)
          (parent, child, leaves)).2.2
        (res ++ [node])

/-- The initial leaves (toposort.rs:51-60): fold over `parent_of`, removing
every node with a parent edge from `all_nodes`; the ascending `Vec` is
reversed so that the head is the end Rust pops first. -/
def toposortLeaves {T : Type} [LinearOrder T] (st : ToposortBuild T) : List T :=
  ((st.parent_of.map (fun e => e.2)).foldl setRemove st.all_nodes).reverse

/-- The non-degenerate tail of `topological_sort` (toposort.rs:51-104): run
the worklist loop, then either report the endpoints of the untraversed
relations as a cycle set or return the order with no cycle. -/
def topologicalSortMain {T : Type} [LinearOrder T] (st : ToposortBuild T) (minv maxv : T) :
    List T × Option (List T) :=
  match toposortLoop minv maxv (st.parent_of.length + (toposortLeaves st).length)
      st.parent_of st.child_of (toposortLeaves st) [] with
  | (res, parentR, childR) =>
    if parentR.length ≠ 0 then
      (res, some (setOfListBy ltB ((parentR ++ childR).flatMap (fun e => [e.1, e.2]))))
    else (res, none)

/-- `topological_sort` (toposort.rs:5-105).  `min` is `None` exactly when
there are no edges, in which case `(all_nodes, None)` is returned
(toposort.rs:39-43); Rust unwraps `max` afterwards, which cannot fail, so the
`(some, none)` branch here is unreachable. -/
def topological_sort {T : Type} [LinearOrder T] (nodes : List T) (edges : List (T × T)) :
    List T × Option (List T) :=
  match (toposortBuild nodes edges).minv, (toposortBuild nodes edges).maxv with
  | some minv, some maxv => topologicalSortMain (toposortBuild nodes edges) minv maxv
  | _, _ => ((toposortBuild nodes edges).all_nodes, none)

theorem mem_insertSortedBy {A : Type} (lt : A → A → Bool) (s : List A) (a x : A) :
    x ∈ insertSortedBy lt s a ↔ x = a ∨ x ∈ s := by
  induction s with
  | nil => simp [insertSortedBy]
  | cons b rest ih =>
    by_cases h : lt a b = true
    · simp [insertSortedBy, h]
    · simp only [insertSortedBy, if_neg h, List.mem_cons, ih]
      tauto

theorem insertSortedBy_perm {A : Type} (lt : A → A → Bool) (s : List A) (a : A) :
    (insertSortedBy lt s a).Perm (a :: s) := by
  induction s with
  | nil => simp [insertSortedBy]
  | cons b rest ih =>
    by_cases h : lt a b = true
    · simp [insertSortedBy, h]
    · simp only [insertSortedBy, if_neg h]
      exact (ih.cons b).trans (List.Perm.swap a b rest)

theorem mem_setInsertBy {A : Type} [DecidableEq A] (lt : A → A → Bool) (s : List A) (a x : A) :
    x ∈ setInsertBy lt s a ↔ x = a ∨ x ∈ s := by
  unfold setInsertBy
  by_cases hm : a ∈ s
  · rw [if_pos hm]
    constructor
    · exact Or.inr
    · rintro (rfl | h)
      · exact hm
      · exact h
  · rw [if_neg hm]
    exact mem_insertSortedBy lt s a x

theorem nodup_setInsertBy {A : Type} [DecidableEq A] (lt : A → A → Bool) (s : List A) (a : A)
    (h : s.Nodup) : (setInsertBy lt s a).Nodup := by
  unfold setInsertBy
  by_cases hm : a ∈ s
  · rw [if_pos hm]; exact h
  · rw [if_neg hm]
    exact ((insertSortedBy_perm lt s a).nodup_iff).mpr (List.nodup_cons.mpr ⟨hm, h⟩)

theorem mem_of_mem_setRemove {A : Type} [DecidableEq A] (s : List A) (a x : A)
    (h : x ∈ setRemove s a) : x ∈ s := by
  induction s with
  | nil => simp [setRemove] at h
  | cons b rest ih =>
    by_cases hb : b = a
    · rw [setRemove, if_pos hb] at h
      exact List.mem_cons_of_mem b h
    · rw [setRemove, if_neg hb] at h
      rcases List.mem_cons.mp h with rfl | h
      · exact List.mem_cons_self x rest
      · exact List.mem_cons_of_mem b (ih h)

theorem mem_setRemove_iff {A : Type} [DecidableEq A] (s : List A) (a x : A) (hs : s.Nodup) :
    x ∈ setRemove s a ↔ x ∈ s ∧ x ≠ a := by
  induction s with
  | nil => simp [setRemove]
  | cons b rest ih =>
    obtain ⟨hb, hrest⟩ := List.nodup_cons.mp hs
    by_cases hba : b = a
    · subst hba
      rw [setRemove, if_pos rfl]
      constructor
      · intro hx
        exact ⟨List.mem_cons_of_mem b hx, fun hxa => hb (hxa ▸ hx)⟩
      · rintro ⟨hx, hxa⟩
        rcases List.mem_cons.mp hx with rfl | hx
        · exact absurd rfl hxa
        · exact hx
    · rw [setRemove, if_neg hba, List.mem_cons, ih hrest, List.mem_cons]
      constructor
      · rintro (rfl | ⟨hx, hxa⟩)
        · exact ⟨Or.inl rfl, fun h => hba h⟩
        · exact ⟨Or.inr hx, hxa⟩
      · rintro ⟨rfl | hx, hxa⟩
        · exact Or.inl rfl
        · exact Or.inr ⟨hx, hxa⟩

theorem nodup_setRemove {A : Type} [DecidableEq A] (s : List A) (a : A) (hs : s.Nodup) :
    (setRemove s a).Nodup := by
  induction s with
  | nil => simp [setRemove]
  | cons b rest ih =>
    obtain ⟨hb, hrest⟩ := List.nodup_cons.mp hs
    by_cases hba : b = a
    · rw [setRemove, if_pos hba]; exact hrest
    · rw [setRemove, if_neg hba]
      exact List.nodup_cons.mpr ⟨fun hmem => hb (mem_of_mem_setRemove rest a b hmem), ih hrest⟩

theorem length_setRemove_of_mem {A : Type} [DecidableEq A] (s : List A) (a : A) (h : a ∈ s) :
    (setRemove s a).length + 1 = s.length := by
  induction s with
  | nil => cases h
  | cons b rest ih =>
    by_cases hb : b = a
    · rw [setRemove, if_pos hb, List.length_cons]
    · rw [setRemove, if_neg hb, List.length_cons, List.length_cons]
      rcases List.mem_cons.mp h with rfl | h
      · exact absurd rfl (fun heq => hb heq.symm)
      · rw [← ih h]

theorem mem_foldl_setInsertBy {A : Type} [DecidableEq A] (lt : A → A → Bool) (l : List A) :
    ∀ (acc : List A) (x : A), x ∈ l.foldl (setInsertBy lt) acc ↔ x ∈ acc ∨ x ∈ l := by
  induction l with
  | nil => intro acc x; simp
  | cons b rest ih =>
    intro acc x
    rw [List.foldl_cons, ih, mem_setInsertBy, List.mem_cons]
    tauto

theorem nodup_foldl_setInsertBy {A : Type} [DecidableEq A] (lt : A → A → Bool) (l : List A) :
    ∀ acc : List A, acc.Nodup → (l.foldl (setInsertBy lt) acc).Nodup := by
  induction l with
  | nil => intro acc h; simpa using h
  | cons b rest ih =>
    intro acc h
    rw [List.foldl_cons]
    exact ih _ (nodup_setInsertBy lt acc b h)

theorem mem_setOfListBy {A : Type} [DecidableEq A] (lt : A → A → Bool) (l : List A) (x : A) :
    x ∈ setOfListBy lt l ↔ x ∈ l := by
  rw [setOfListBy, mem_foldl_setInsertBy]
  simp

theorem nodup_setOfListBy {A : Type} [DecidableEq A] (lt : A → A → Bool) (l : List A) :
    (setOfListBy lt l).Nodup :=
  nodup_foldl_setInsertBy lt l [] List.nodup_nil

theorem mem_foldl_setRemove {A : Type} [DecidableEq A] (rs : List A) :
    ∀ (acc : List A) (x : A), acc.Nodup →
      (x ∈ rs.foldl setRemove acc ↔ x ∈ acc ∧ x ∉ rs) := by
  induction rs with
  | nil => intro acc x _; simp
  | cons r rest ih =>
    intro acc x hacc
    rw [List.foldl_cons, ih _ x (nodup_setRemove acc r hacc), mem_setRemove_iff acc r x hacc,
      List.mem_cons]
    tauto

theorem nodup_foldl_setRemove {A : Type} [DecidableEq A] (rs : List A) :
    ∀ acc : List A, acc.Nodup → (rs.foldl setRemove acc).Nodup := by
  induction rs with
  | nil => intro acc h; simpa using h
  | cons r rest ih =>
    intro acc h
    rw [List.foldl_cons]
    exact ih _ (nodup_setRemove acc r h)

theorem foldl_buildStep_parent_mem {T : Type} [LinearOrder T] (edges : List (T × T)) :
    ∀ (st : ToposortBuild T) (x : T × T),
      x ∈ (edges.foldl toposortBuildStep st).parent_of ↔
        x ∈ st.parent_of ∨ (x.2, x.1) ∈ edges := by
  induction edges with
  | nil => intro st x; simp
  | cons e rest ih =>
    intro st x
    rw [List.foldl_cons, ih, List.mem_cons]
    have hstep : x ∈ (toposortBuildStep st e).parent_of ↔ x = (e.2, e.1) ∨ x ∈ st.parent_of :=
      mem_setInsertBy pairLtB st.parent_of (e.2, e.1) x
    have hx : (x = (e.2, e.1)) ↔ ((x.2, x.1) = e) := by
      rw [Prod.ext_iff, Prod.ext_iff]
      constructor
      · rintro ⟨h1, h2⟩; exact ⟨h2, h1⟩
      · rintro ⟨h1, h2⟩; exact ⟨h2, h1⟩
    rw [hstep, hx]
    tauto

theorem foldl_buildStep_child_mem {T : Type} [LinearOrder T] (edges : List (T × T)) :
    ∀ (st : ToposortBuild T) (x : T × T),
      x ∈ (edges.foldl toposortBuildStep st).child_of ↔ x ∈ st.child_of ∨ x ∈ edges := by
  induction edges with
  | nil => intro st x; simp
  | cons e rest ih =>
    intro st x
    rw [List.foldl_cons, ih, List.mem_cons]
    have hstep : x ∈ (toposortBuildStep st e).child_of ↔ x = (e.1, e.2) ∨ x ∈ st.child_of :=
      mem_setInsertBy pairLtB st.child_of (e.1, e.2) x
    rw [hstep, Prod.mk.eta]
    tauto

theorem foldl_buildStep_all_mem {T : Type} [LinearOrder T] (edges : List (T × T)) :
    ∀ (st : ToposortBuild T) (x : T),
      x ∈ (edges.foldl toposortBuildStep st).all_nodes ↔
        x ∈ st.all_nodes ∨ ∃ e ∈ edges, x = e.1 ∨ x = e.2 := by
  induction edges with
  | nil => intro st x; simp
  | cons e rest ih =>
    intro st x
    rw [List.foldl_cons, ih]
    have hstep : x ∈ (toposortBuildStep st e).all_nodes ↔
        x = e.1 ∨ x = e.2 ∨ x ∈ st.all_nodes := by
      rw [show (toposortBuildStep st e).all_nodes =
          setInsertBy ltB (setInsertBy ltB st.all_nodes e.2) e.1 from rfl,
        mem_setInsertBy, mem_setInsertBy]
    rw [hstep]
    constructor
    · rintro ((rfl | rfl | h) | ⟨e', he', hx⟩)
      · exact Or.inr ⟨e, List.mem_cons_self e rest, Or.inl rfl⟩
      · exact Or.inr ⟨e, List.mem_cons_self e rest, Or.inr rfl⟩
      · exact Or.inl h
      · exact Or.inr ⟨e', List.mem_cons_of_mem e he', hx⟩
    · rintro (h | ⟨e', he', hx⟩)
      · exact Or.inl (Or.inr (Or.inr h))
      · rcases List.mem_cons.mp he' with rfl | he'
        · rcases hx with rfl | rfl
          · exact Or.inl (Or.inl rfl)
          · exact Or.inl (Or.inr (Or.inl rfl))
        · exact Or.inr ⟨e', he', hx⟩

theorem foldl_buildStep_nodup {T : Type} [LinearOrder T] (edges : List (T × T)) :
    ∀ st : ToposortBuild T, st.parent_of.Nodup → st.child_of.Nodup → st.all_nodes.Nodup →
      (edges.foldl toposortBuildStep st).parent_of.Nodup ∧
        (edges.foldl toposortBuildStep st).child_of.Nodup ∧
        (edges.foldl toposortBuildStep st).all_nodes.Nodup := by
  induction edges with
  | nil => intro st h1 h2 h3; exact ⟨h1, h2, h3⟩
  | cons e rest ih =>
    intro st h1 h2 h3
    rw [List.foldl_cons]
    exact ih _ (nodup_setInsertBy _ _ _ h1) (nodup_setInsertBy _ _ _ h2)
      (nodup_setInsertBy _ _ _ (nodup_setInsertBy _ _ _ h3))

theorem foldl_buildStep_minv {T : Type} [LinearOrder T] (edges : List (T × T)) :
    ∀ (st : ToposortBuild T) (m : T), (edges.foldl toposortBuildStep st).minv = some m →
      (∀ m0, st.minv = some m0 → m ≤ m0) ∧ ∀ e ∈ edges, m ≤ e.1 ∧ m ≤ e.2 := by
  induction edges with
  | nil =>
    intro st m h
    rw [List.foldl_nil] at h
    constructor
    · intro m0 h0
      rw [h] at h0
      exact le_of_eq (Option.some.inj h0)
    · intro e he; cases he
  | cons e rest ih =>
    intro st m h
    rw [List.foldl_cons] at h
    obtain ⟨hprev, hrest⟩ := ih (toposortBuildStep st e) m h
    have hm := hprev _ (rfl :
      (toposortBuildStep st e).minv = some (match st.minv with
        | some m0 => min m0 (min e.1 e.2)
        | none => min e.1 e.2))
    constructor
    · intro m0 h0
      rw [h0] at hm
      exact le_trans hm (min_le_left _ _)
    · intro e' he'
      rcases List.mem_cons.mp he' with rfl | he'
      · cases hst : st.minv with
        | none =>
          rw [hst] at hm
          exact ⟨le_trans hm (min_le_left _ _), le_trans hm (min_le_right _ _)⟩
        | some m0 =>
          rw [hst] at hm
          have hm2 : m ≤ min e'.1 e'.2 := le_trans hm (min_le_right _ _)
          exact ⟨le_trans hm2 (min_le_left _ _), le_trans hm2 (min_le_right _ _)⟩
      · exact hrest e' he'

theorem foldl_buildStep_maxv {T : Type} [LinearOrder T] (edges : List (T × T)) :
    ∀ (st : ToposortBuild T) (m : T), (edges.foldl toposortBuildStep st).maxv = some m →
      (∀ m0, st.maxv = some m0 → m0 ≤ m) ∧ ∀ e ∈ edges, e.1 ≤ m ∧ e.2 ≤ m := by
  induction edges with
  | nil =>
    intro st m h
    rw [List.foldl_nil] at h
    constructor
    · intro m0 h0
      rw [h] at h0
      exact le_of_eq (Option.some.inj h0).symm
    · intro e he; cases he
  | cons e rest ih =>
    intro st m h
    rw [List.foldl_cons] at h
    obtain ⟨hprev, hrest⟩ := ih (toposortBuildStep st e) m h
    have hm := hprev _ (rfl :
      (toposortBuildStep st e).maxv = some (match st.maxv with
        | some m0 => max m0 (max e.1 e.2)
        | none => max e.1 e.2))
    constructor
    · intro m0 h0
      rw [h0] at hm
      exact le_trans (le_max_left _ _) hm
    · intro e' he'
      rcases List.mem_cons.mp he' with rfl | he'
      · cases hst : st.maxv with
        | none =>
          rw [hst] at hm
          exact ⟨le_trans (le_max_left _ _) hm, le_trans (le_max_right _ _) hm⟩
        | some m0 =>
          rw [hst] at hm
          have hm2 : max e'.1 e'.2 ≤ m := le_trans (le_max_right _ _) hm
          exact ⟨le_trans (le_max_left _ _) hm2, le_trans (le_max_right _ _) hm2⟩
      · exact hrest e' he'

theorem foldl_buildStep_minv_isSome {T : Type} [LinearOrder T] (edges : List (T × T)) :
    ∀ st : ToposortBuild T, st.minv.isSome → st.maxv.isSome →
      (edges.foldl toposortBuildStep st).minv.isSome ∧
        (edges.foldl toposortBuildStep st).maxv.isSome := by
  induction edges with
  | nil => intro st h1 h2; exact ⟨h1, h2⟩
  | cons e rest ih =>
    intro st _ _
    rw [List.foldl_cons]
    exact ih _ rfl rfl

set_option maxHeartbeats 1600000 in
/-- Effect of the whole `from_nodes` drain loop on `(parent_of, child_of, leaves)`:
the pairs `(node, f)` / `(f, node)` for `f ∈ fns` are removed, and exactly the
`f ∈ fns` left without children are pushed onto `leaves`.  One leaf is pushed
per removed `parent_of` pair, so the measure `|parent_of| + |leaves|` does not
increase. -/
theorem toposortDrain_spec {T : Type} [LinearOrder T] (node minv maxv : T) (fns : List T) :
    ∀ (parent child : List (T × T)) (leaves : List T),
      parent.Nodup → child.Nodup → fns.Nodup → leaves.Nodup →
      (∀ t f, (t, f) ∈ parent ↔ (f, t) ∈ child) →
      (∀ f ∈ fns, (node, f) ∈ parent) →
      (∀ e ∈ child, minv ≤ e.2 ∧ e.2 ≤ maxv) →
      (∀ x ∈ leaves, ∀ t, (x, t) ∉ child) →
      (∀ e, e ∈ (fns.foldl (toposortDrainStep node minv maxv) (parent, child, leaves)).1 ↔
          e ∈ parent ∧ ¬(e.1 = node ∧ e.2 ∈ fns)) ∧
      (∀ e, e ∈ (fns.foldl (toposortDrainStep node minv maxv) (parent, child, leaves)).2.1 ↔
          e ∈ child ∧ ¬(e.2 = node ∧ e.1 ∈ fns)) ∧
      (fns.foldl (toposortDrainStep node minv maxv) (parent, child, leaves)).1.Nodup ∧
      (fns.foldl (toposortDrainStep node minv maxv) (parent, child, leaves)).2.1.Nodup ∧
      (fns.foldl (toposortDrainStep node minv maxv) (parent, child, leaves)).2.2.Nodup ∧
      (∀ x, x ∈ (fns.foldl (toposortDrainStep node minv maxv) (parent, child, leaves)).2.2 ↔
          x ∈ leaves ∨ (x ∈ fns ∧ ∀ t,
            (x, t) ∉ (fns.foldl (toposortDrainStep node minv maxv)
              (parent, child, leaves)).2.1)) ∧
      (fns.foldl (toposortDrainStep node minv maxv) (parent, child, leaves)).1.length +
          (fns.foldl (toposortDrainStep node minv maxv) (parent, child, leaves)).2.2.length ≤
        parent.length + leaves.length := by
  induction fns with
  | nil =>
    intro parent child leaves hp hc _ hl _ _ _ _
    simp only [List.foldl_nil]
    refine ⟨?_, ?_, hp, hc, hl, ?_, le_refl _⟩
    · intro e; simp
    · intro e; simp
    · intro x; simp
  | cons f rest ih =>
    intro parent child leaves hp hc hfns hl hsync hmem hbound hleaves
    obtain ⟨hf_rest, hrest_nodup⟩ := List.nodup_cons.mp hfns
    have hf : ((node : T), f) ∈ parent := hmem f (List.mem_cons_self f rest)
    have hfc : ((f : T), node) ∈ child := (hsync node f).mp hf
    have hstep : toposortDrainStep node minv maxv (parent, child, leaves) f =
        if ((setRemove child (f, node)).filter
            (fun e => e.1 = f ∧ minv ≤ e.2 ∧ e.2 ≤ maxv)).length = 0 then
          (setRemove parent (node, f), setRemove child (f, node), f :: leaves)
        else (setRemove parent (node, f), setRemove child (f, node), leaves) := rfl
    have hp1 : (setRemove parent (node, f)).Nodup := nodup_setRemove _ _ hp
    have hc1 : (setRemove child (f, node)).Nodup := nodup_setRemove _ _ hc
    have hmem_p1 : ∀ e : T × T,
        e ∈ setRemove parent (node, f) ↔ e ∈ parent ∧ e ≠ (node, f) :=
      fun e => mem_setRemove_iff parent (node, f) e hp
    have hmem_c1 : ∀ e : T × T,
        e ∈ setRemove child (f, node) ↔ e ∈ child ∧ e ≠ (f, node) :=
      fun e => mem_setRemove_iff child (f, node) e hc
    have hsync1 : ∀ t f', ((t : T), f') ∈ setRemove parent (node, f) ↔
        (f', t) ∈ setRemove child (f, node) := by
      intro t f'
      rw [hmem_p1, hmem_c1, hsync t f']
      have hiff : ((t, f') = ((node : T), f)) ↔ ((f', t) = ((f : T), node)) := by
        constructor
        · intro h
          exact Prod.ext_iff.mpr ⟨congrArg Prod.snd h, congrArg Prod.fst h⟩
        · intro h
          exact Prod.ext_iff.mpr ⟨congrArg Prod.snd h, congrArg Prod.fst h⟩
      constructor
      · rintro ⟨h1, h2⟩; exact ⟨h1, fun h => h2 (hiff.mpr h)⟩
      · rintro ⟨h1, h2⟩; exact ⟨h1, fun h => h2 (hiff.mp h)⟩
    have hmem_rest : ∀ f' ∈ rest, ((node : T), f') ∈ setRemove parent (node, f) := by
      intro f' hf'
      rw [hmem_p1]
      refine ⟨hmem f' (List.mem_cons_of_mem f hf'), fun heq => ?_⟩
      have : f' = f := congrArg Prod.snd heq
      exact hf_rest (this ▸ hf')
    have hbound1 : ∀ e ∈ setRemove child (f, node), minv ≤ e.2 ∧ e.2 ≤ maxv :=
      fun e he => hbound e (mem_of_mem_setRemove _ _ _ he)
    have hf_not_leaf : f ∉ leaves := fun hmem' => hleaves f hmem' node hfc
    by_cases hcond : ((setRemove child (f, node)).filter
        (fun e => e.1 = f ∧ minv ≤ e.2 ∧ e.2 ≤ maxv)).length = 0
    · -- `f` has no remaining children: it is pushed onto the leaves
      have hfnochild : ∀ t, ((f : T), t) ∉ setRemove child (f, node) := by
        intro t hmem'
        have hnil := List.length_eq_zero.mp hcond
        have hb := hbound1 (f, t) hmem'
        have hin : ((f : T), t) ∈ (setRemove child (f, node)).filter
            (fun e => e.1 = f ∧ minv ≤ e.2 ∧ e.2 ≤ maxv) := by
          rw [List.mem_filter]
          refine ⟨hmem', ?_⟩
          simp only [decide_eq_true_eq]
          exact ⟨by trivial, hb.1, hb.2⟩
        rw [hnil] at hin
        cases hin
      have hleaves1 : ∀ x ∈ f :: leaves, ∀ t, ((x : T), t) ∉ setRemove child (f, node) := by
        intro x hx t
        rcases List.mem_cons.mp hx with rfl | hx
        · exact hfnochild t
        · exact fun hmem' => hleaves x hx t (mem_of_mem_setRemove _ _ _ hmem')
      have hlnodup1 : (f :: leaves).Nodup := List.nodup_cons.mpr ⟨hf_not_leaf, hl⟩
      obtain ⟨Hp, Hc, Hpn, Hcn, Hln, Hlmem, Hlen⟩ :=
        ih (setRemove parent (node, f)) (setRemove child (f, node)) (f :: leaves)
          hp1 hc1 hrest_nodup hlnodup1 hsync1 hmem_rest hbound1 hleaves1
      clear ih
      rw [List.foldl_cons, hstep, if_pos hcond]
      refine ⟨?_, ?_, Hpn, Hcn, Hln, ?_, ?_⟩
      · intro e
        rw [Hp e, hmem_p1 e, List.mem_cons]
        have hne : (e ≠ ((node : T), f)) ↔ ¬(e.1 = node ∧ e.2 = f) := by
          constructor
          · intro h hcc; exact h (Prod.ext_iff.mpr hcc)
          · intro h hcc; subst hcc; exact h ⟨rfl, rfl⟩
        rw [hne]
        tauto
      · intro e
        rw [Hc e, hmem_c1 e, List.mem_cons]
        have hne : (e ≠ ((f : T), node)) ↔ ¬(e.1 = f ∧ e.2 = node) := by
          constructor
          · intro h hcc; exact h (Prod.ext_iff.mpr hcc)
          · intro h hcc; subst hcc; exact h ⟨rfl, rfl⟩
        rw [hne]
        tauto
      · intro x
        have hfnoR : ∀ t, ((f : T), t) ∉
            (rest.foldl (toposortDrainStep node minv maxv)
              (setRemove parent (node, f), setRemove child (f, node), f :: leaves)).2.1 :=
          fun t ht => hfnochild t ((Hc _).mp ht).1
        rw [Hlmem x]
        simp only [List.mem_cons]
        by_cases hxf : x = f
        · subst hxf
          constructor
          · intro _
            exact Or.inr ⟨Or.inl rfl, hfnoR⟩
          · intro _
            exact Or.inl (Or.inl rfl)
        · simp only [hxf, false_or]
      · have hlen1 : (setRemove parent (node, f)).length + 1 = parent.length :=
          length_setRemove_of_mem parent (node, f) hf
        have hlen2 : (f :: leaves).length = leaves.length + 1 := rfl
        omega
    · -- `f` still has a child: it is not pushed
      have hpos : 0 < ((setRemove child (f, node)).filter
          (fun e => e.1 = f ∧ minv ≤ e.2 ∧ e.2 ≤ maxv)).length :=
        Nat.pos_of_ne_zero hcond
      obtain ⟨e0, he0⟩ := List.exists_mem_of_length_pos hpos
      have he0m := List.mem_filter.mp he0
      have he0c : e0 ∈ setRemove child (f, node) := he0m.1
      have he0f : e0.1 = f := by
        have := he0m.2
        simp only [decide_eq_true_eq] at this
        exact this.1
      have he0node : e0.2 ≠ node := by
        intro hcc
        have : e0 = ((f : T), node) := Prod.ext_iff.mpr ⟨he0f, hcc⟩
        exact ((hmem_c1 e0).mp he0c).2 this
      have hleaves1 : ∀ x ∈ leaves, ∀ t, ((x : T), t) ∉ setRemove child (f, node) :=
        fun x hx t hmem' => hleaves x hx t (mem_of_mem_setRemove _ _ _ hmem')
      obtain ⟨Hp, Hc, Hpn, Hcn, Hln, Hlmem, Hlen⟩ :=
        ih (setRemove parent (node, f)) (setRemove child (f, node)) leaves
          hp1 hc1 hrest_nodup hl hsync1 hmem_rest hbound1 hleaves1
      clear ih
      rw [List.foldl_cons, hstep, if_neg hcond]
      refine ⟨?_, ?_, Hpn, Hcn, Hln, ?_, ?_⟩
      · intro e
        rw [Hp e, hmem_p1 e, List.mem_cons]
        have hne : (e ≠ ((node : T), f)) ↔ ¬(e.1 = node ∧ e.2 = f) := by
          constructor
          · intro h hcc; exact h (Prod.ext_iff.mpr hcc)
          · intro h hcc; subst hcc; exact h ⟨rfl, rfl⟩
        rw [hne]
        tauto
      · intro e
        rw [Hc e, hmem_c1 e, List.mem_cons]
        have hne : (e ≠ ((f : T), node)) ↔ ¬(e.1 = f ∧ e.2 = node) := by
          constructor
          · intro h hcc; exact h (Prod.ext_iff.mpr hcc)
          · intro h hcc; subst hcc; exact h ⟨rfl, rfl⟩
        rw [hne]
        tauto
      · intro x
        have hfR : ((f : T), e0.2) ∈
            (rest.foldl (toposortDrainStep node minv maxv)
              (setRemove parent (node, f), setRemove child (f, node), leaves)).2.1 := by
          rw [Hc]
          refine ⟨?_, fun hcc => he0node hcc.1⟩
          have : e0 = ((f : T), e0.2) := Prod.ext_iff.mpr ⟨he0f, rfl⟩
          rwa [this] at he0c
        rw [Hlmem x]
        simp only [List.mem_cons]
        by_cases hxf : x = f
        · subst hxf
          constructor
          · rintro (hx | ⟨hx, _⟩)
            · exact absurd hx hf_not_leaf
            · exact absurd hx hf_rest
          · rintro (hx | ⟨_, hnc⟩)
            · exact absurd hx hf_not_leaf
            · exact absurd hfR (hnc e0.2)
        · simp only [hxf, false_or]
      · have hlen1 : (setRemove parent (node, f)).length + 1 = parent.length :=
          length_setRemove_of_mem parent (node, f) hf
        omega

/-- The worklist-loop invariant of `topological_sort`, over the initial
relation sets `parent0`/`child0` and node set `allN`. -/
structure ToposortInv {T : Type} [LinearOrder T]
    (parent0 child0 : List (T × T)) (allN : List T) (minv maxv : T)
    (parent child : List (T × T)) (leaves res : List T) : Prop where
  pNodup : parent.Nodup
  cNodup : child.Nodup
  lNodup : leaves.Nodup
  rNodup : res.Nodup
  sync : ∀ t f, (t, f) ∈ parent ↔ (f, t) ∈ child
  pSub : ∀ e ∈ parent, e ∈ parent0
  cBounds : ∀ e ∈ child, minv ≤ e.2 ∧ e.2 ≤ maxv
  pBounds : ∀ e ∈ parent, minv ≤ e.2 ∧ e.2 ≤ maxv
  disj : ∀ x ∈ res, x ∉ leaves
  settled : ∀ x, x ∈ res ∨ x ∈ leaves → ∀ t, (x, t) ∉ child
  resNoParent : ∀ x ∈ res, ∀ f, (x, f) ∉ parent
  removedRes : ∀ e ∈ parent0, e ∉ parent → e.1 ∈ res
  pending : ∀ x ∈ allN, x ∈ res ∨ x ∈ leaves ∨ ∃ t, (x, t) ∈ child
  resSub : ∀ x ∈ res, x ∈ allN
  leavesSub : ∀ x ∈ leaves, x ∈ allN
  ordered : ∀ f t, (f, t) ∈ child0 → f ∈ res →
    t ∈ res ∧ res.indexOf t < res.indexOf f

set_option maxHeartbeats 1600000 in
/-- Running the worklist loop from an invariant state with enough fuel
terminates with the leaves drained and the invariant intact. -/
theorem toposortLoop_spec {T : Type} [LinearOrder T]
    (parent0 child0 : List (T × T)) (allN : List T) (minv maxv : T)
    (hsync0 : ∀ t f, (t, f) ∈ parent0 ↔ (f, t) ∈ child0)
    (hpEnd : ∀ e ∈ parent0, e.1 ∈ allN ∧ e.2 ∈ allN) :
    ∀ (fuel : Nat) (parent child : List (T × T)) (leaves res : List T),
      ToposortInv parent0 child0 allN minv maxv parent child leaves res →
      parent.length + leaves.length ≤ fuel →
      ∃ resR parentR childR,
        toposortLoop minv maxv fuel parent child leaves res = (resR, parentR, childR) ∧
        ToposortInv parent0 child0 allN minv maxv parentR childR [] resR := by
  intro fuel
  induction fuel with
  | zero =>
    intro parent child leaves res inv hfuel
    have hleaves : leaves = [] := List.length_eq_zero.mp (by omega)
    subst hleaves
    exact ⟨res, parent, child, rfl, inv⟩
  | succ fuel ih =>
    intro parent child leaves res inv hfuel
    cases leaves with
    | nil => exact ⟨res, parent, child, rfl, inv⟩
    | cons node rest =>
      have hrest_nodup : rest.Nodup := (List.nodup_cons.mp inv.lNodup).2
      have hnode_notin_rest : node ∉ rest := (List.nodup_cons.mp inv.lNodup).1
      have hnode_leaf : node ∈ node :: rest := List.mem_cons_self node rest
      have hnode_nochild : ∀ t, ((node : T), t) ∉ child :=
        inv.settled node (Or.inr hnode_leaf)
      have hnode_notin_res : node ∉ res := fun h => inv.disj node h hnode_leaf
      -- the `parent_of.range((node, min)..=(node, max))` query lists exactly
      -- the parents of `node`
      have hfns_mem : ∀ f, f ∈ (parent.filter
          (fun e => e.1 = node ∧ minv ≤ e.2 ∧ e.2 ≤ maxv)).map (fun e => e.2) ↔
          ((node : T), f) ∈ parent := by
        intro f
        constructor
        · intro hmem
          obtain ⟨e, he, hef⟩ := List.mem_map.mp hmem
          have hef2 := List.mem_filter.mp he
          have hpred := hef2.2
          simp only [decide_eq_true_eq] at hpred
          have : e = ((node : T), f) := Prod.ext_iff.mpr ⟨hpred.1, hef⟩
          exact this ▸ hef2.1
        · intro hmem
          refine List.mem_map.mpr ⟨(node, f), List.mem_filter.mpr ⟨hmem, ?_⟩, rfl⟩
          simp only [decide_eq_true_eq]
          exact ⟨by trivial, (inv.pBounds _ hmem).1, (inv.pBounds _ hmem).2⟩
      have hfns_nodup : ((parent.filter
          (fun e => e.1 = node ∧ minv ≤ e.2 ∧ e.2 ≤ maxv)).map (fun e => e.2)).Nodup := by
        refine List.Nodup.map_on ?_ (inv.pNodup.filter _)
        intro x hx y hy hxy
        have hx2 := List.mem_filter.mp hx
        have hy2 := List.mem_filter.mp hy
        simp only [decide_eq_true_eq] at hx2 hy2
        exact Prod.ext_iff.mpr ⟨hx2.2.1.trans hy2.2.1.symm, hxy⟩
      have hnode_not_fns : node ∉ (parent.filter
          (fun e => e.1 = node ∧ minv ≤ e.2 ∧ e.2 ≤ maxv)).map (fun e => e.2) :=
        fun h => hnode_nochild node ((inv.sync node node).mp ((hfns_mem node).mp h))
      obtain ⟨Hp, Hc, Hpn, Hcn, Hln, Hlmem, Hlen⟩ :=
        toposortDrain_spec node minv maxv
          ((parent.filter (fun e => e.1 = node ∧ minv ≤ e.2 ∧ e.2 ≤ maxv)).map
            (fun e => e.2))
          parent child rest inv.pNodup inv.cNodup hfns_nodup hrest_nodup inv.sync
          (fun f hf => (hfns_mem f).mp hf) inv.cBounds
          (fun x hx => inv.settled x (Or.inr (List.mem_cons_of_mem node hx)))
      have hres_mem : ∀ x : T, x ∈ res ++ [node] ↔ x ∈ res ∨ x = node := by
        intro x; simp
      have hinv2 : ToposortInv parent0 child0 allN minv maxv
          (((parent.filter (fun e => e.1 = node ∧ minv ≤ e.2 ∧ e.2 ≤ maxv)).map
              (fun e => e.2)).foldl (toposortDrainStep node minv maxv)
            (parent, child, rest)).1
          (((parent.filter (fun e => e.1 = node ∧ minv ≤ e.2 ∧ e.2 ≤ maxv)).map
              (fun e => e.2)).foldl (toposortDrainStep node minv maxv)
            (parent, child, rest)).2.1
          (((parent.filter (fun e => e.1 = node ∧ minv ≤ e.2 ∧ e.2 ≤ maxv)).map
              (fun e => e.2)).foldl (toposortDrainStep node minv maxv)
            (parent, child, rest)).2.2
          (res ++ [node]) := by
        refine ⟨Hpn, Hcn, Hln, ?_, ?_,
          fun e he => inv.pSub e ((Hp e).mp he).1,
          fun e he => inv.cBounds e ((Hc e).mp he).1,
          fun e he => inv.pBounds e ((Hp e).mp he).1,
          ?_, ?_, ?_, ?_, ?_, ?_, ?_, ?_⟩
        · rw [List.nodup_append]
          exact ⟨inv.rNodup, List.nodup_singleton node,
            fun a ha hb => hnode_notin_res ((List.mem_singleton.mp hb) ▸ ha)⟩
        · intro t f
          rw [Hp, Hc, inv.sync t f]
        ·
          intro x hx hmem'
          rcases (Hlmem x).mp hmem' with hx2 | ⟨hx2, _⟩
          · rcases (hres_mem x).mp hx with hx3 | hxeq
            · exact inv.disj x hx3 (List.mem_cons_of_mem node hx2)
            · exact hnode_notin_rest (hxeq ▸ hx2)
          · have hpar : ((node : T), x) ∈ parent := (hfns_mem x).mp hx2
            have hch : ((x : T), node) ∈ child := (inv.sync node x).mp hpar
            rcases (hres_mem x).mp hx with hx3 | hxeq
            · exact inv.settled x (Or.inl hx3) node hch
            · exact hnode_nochild node (hxeq ▸ hch)
        ·
          intro x hx t hmem'
          have hch : ((x : T), t) ∈ child := ((Hc _).mp hmem').1
          rcases hx with hx | hx
          · rcases (hres_mem x).mp hx with hx2 | hxeq
            · exact inv.settled x (Or.inl hx2) t hch
            · exact hnode_nochild t (hxeq ▸ hch)
          · rcases (Hlmem x).mp hx with hx2 | ⟨_, hnc⟩
            · exact inv.settled x (Or.inr (List.mem_cons_of_mem node hx2)) t hch
            · exact hnc t hmem'
        ·
          intro x hx f hmem'
          have hpar := (Hp _).mp hmem'
          rcases (hres_mem x).mp hx with hx2 | hxeq
          · exact inv.resNoParent x hx2 f hpar.1
          · exact hpar.2 ⟨hxeq, (hfns_mem f).mpr (hxeq ▸ hpar.1)⟩
        ·
          intro e he0 hmem'
          by_cases he : e ∈ parent
          · rcases Classical.em (e.1 = node ∧ e.2 ∈ (parent.filter
                (fun e => e.1 = node ∧ minv ≤ e.2 ∧ e.2 ≤ maxv)).map (fun e => e.2)) with
              hyes | hno
            · exact (hres_mem e.1).mpr (Or.inr hyes.1)
            · exact absurd ((Hp e).mpr ⟨he, hno⟩) hmem'
          · exact (hres_mem e.1).mpr (Or.inl (inv.removedRes e he0 he))
        ·
          intro x hxall
          rcases inv.pending x hxall with hx | hx | ⟨t, hct⟩
          · exact Or.inl ((hres_mem x).mpr (Or.inl hx))
          · rcases List.mem_cons.mp hx with rfl | hx2
            · exact Or.inl ((hres_mem x).mpr (Or.inr rfl))
            · exact Or.inr (Or.inl ((Hlmem x).mpr (Or.inl hx2)))
          · by_cases hin : ((x : T), t) ∈ (((parent.filter
                (fun e => e.1 = node ∧ minv ≤ e.2 ∧ e.2 ≤ maxv)).map
                (fun e => e.2)).foldl (toposortDrainStep node minv maxv)
                (parent, child, rest)).2.1
            · exact Or.inr (Or.inr ⟨t, hin⟩)
            · rcases Classical.em (t = node ∧ x ∈ (parent.filter
                  (fun e => e.1 = node ∧ minv ≤ e.2 ∧ e.2 ≤ maxv)).map
                  (fun e => e.2)) with ⟨_, hxf⟩ | hno
              · by_cases hnc : ∀ u, ((x : T), u) ∉ (((parent.filter
                    (fun e => e.1 = node ∧ minv ≤ e.2 ∧ e.2 ≤ maxv)).map
                    (fun e => e.2)).foldl (toposortDrainStep node minv maxv)
                    (parent, child, rest)).2.1
                · exact Or.inr (Or.inl ((Hlmem x).mpr (Or.inr ⟨hxf, hnc⟩)))
                · push_neg at hnc
                  exact Or.inr (Or.inr hnc)
              · exact absurd ((Hc _).mpr ⟨hct, hno⟩) hin
        ·
          intro x hx
          rcases (hres_mem x).mp hx with hx2 | hxeq
          · exact inv.resSub x hx2
          · exact hxeq ▸ inv.leavesSub node hnode_leaf
        ·
          intro x hx
          rcases (Hlmem x).mp hx with hx2 | ⟨hx2, _⟩
          · exact inv.leavesSub x (List.mem_cons_of_mem node hx2)
          · exact (hpEnd (node, x) (inv.pSub _ ((hfns_mem x).mp hx2))).2
        ·
          intro f t hft hf
          rcases (hres_mem f).mp hf with hf2 | hfeq
          · obtain ⟨ht, hidx⟩ := inv.ordered f t hft hf2
            refine ⟨(hres_mem t).mpr (Or.inl ht), ?_⟩
            rw [List.indexOf_append_of_mem ht, List.indexOf_append_of_mem hf2]
            exact hidx
          · have hft2 : ((node : T), t) ∈ child0 := hfeq ▸ hft
            have hp0 : ((t : T), node) ∈ parent0 := (hsync0 t node).mpr hft2
            have hnp : ((t : T), node) ∉ parent :=
              fun h => hnode_nochild t ((inv.sync t node).mp h)
            have ht : t ∈ res := inv.removedRes (t, node) hp0 hnp
            refine ⟨(hres_mem t).mpr (Or.inl ht), ?_⟩
            rw [hfeq, List.indexOf_append_of_mem ht,
              List.indexOf_append_of_not_mem hnode_notin_res]
            have h1 : res.indexOf t < res.length := List.indexOf_lt_length.mpr ht
            have h2 : List.indexOf node [node] = 0 := by simp
            omega
      have hfuel2 : (((parent.filter (fun e => e.1 = node ∧ minv ≤ e.2 ∧ e.2 ≤ maxv)).map
            (fun e => e.2)).foldl (toposortDrainStep node minv maxv)
            (parent, child, rest)).1.length +
          (((parent.filter (fun e => e.1 = node ∧ minv ≤ e.2 ∧ e.2 ≤ maxv)).map
            (fun e => e.2)).foldl (toposortDrainStep node minv maxv)
            (parent, child, rest)).2.2.length ≤ fuel := by
        have hlen : (node :: rest).length = rest.length + 1 := rfl
        omega
      obtain ⟨resR, parentR, childR, heq, hinvR⟩ := ih _ _ _ _ hinv2 hfuel2
      exact ⟨resR, parentR, childR, heq, hinvR⟩

theorem toposortBuild_parent_mem {T : Type} [LinearOrder T] (nodes : List T)
    (edges : List (T × T)) (x : T × T) :
    x ∈ (toposortBuild nodes edges).parent_of ↔ (x.2, x.1) ∈ edges := by
  rw [toposortBuild, foldl_buildStep_parent_mem]
  simp

theorem toposortBuild_child_mem {T : Type} [LinearOrder T] (nodes : List T)
    (edges : List (T × T)) (x : T × T) :
    x ∈ (toposortBuild nodes edges).child_of ↔ x ∈ edges := by
  rw [toposortBuild, foldl_buildStep_child_mem]
  simp

theorem toposortBuild_all_mem {T : Type} [LinearOrder T] (nodes : List T)
    (edges : List (T × T)) (x : T) :
    x ∈ (toposortBuild nodes edges).all_nodes ↔
      x ∈ nodes ∨ ∃ e ∈ edges, x = e.1 ∨ x = e.2 := by
  rw [toposortBuild, foldl_buildStep_all_mem]
  rw [show (⟨[], [], setOfListBy ltB nodes, none, none⟩ :
      ToposortBuild T).all_nodes = setOfListBy ltB nodes from rfl, mem_setOfListBy]

theorem toposortBuild_nodup {T : Type} [LinearOrder T] (nodes : List T)
    (edges : List (T × T)) :
    (toposortBuild nodes edges).parent_of.Nodup ∧
      (toposortBuild nodes edges).child_of.Nodup ∧
      (toposortBuild nodes edges).all_nodes.Nodup := by
  rw [toposortBuild]
  exact foldl_buildStep_nodup edges _ List.nodup_nil List.nodup_nil
    (nodup_setOfListBy ltB nodes)

theorem toposortBuild_min_bound {T : Type} [LinearOrder T] (nodes : List T)
    (edges : List (T × T)) (m : T) (h : (toposortBuild nodes edges).minv = some m) :
    ∀ e ∈ edges, m ≤ e.1 ∧ m ≤ e.2 := by
  rw [toposortBuild] at h
  exact (foldl_buildStep_minv edges _ m h).2

theorem toposortBuild_max_bound {T : Type} [LinearOrder T] (nodes : List T)
    (edges : List (T × T)) (m : T) (h : (toposortBuild nodes edges).maxv = some m) :
    ∀ e ∈ edges, e.1 ≤ m ∧ e.2 ≤ m := by
  rw [toposortBuild] at h
  exact (foldl_buildStep_maxv edges _ m h).2

theorem toposortLeaves_mem {T : Type} [LinearOrder T] (st : ToposortBuild T)
    (hall : st.all_nodes.Nodup) (x : T) :
    x ∈ toposortLeaves st ↔
      x ∈ st.all_nodes ∧ x ∉ st.parent_of.map (fun e => e.2) := by
  rw [toposortLeaves, List.mem_reverse, mem_foldl_setRemove _ _ _ hall]

theorem toposortLeaves_nodup {T : Type} [LinearOrder T] (st : ToposortBuild T)
    (hall : st.all_nodes.Nodup) : (toposortLeaves st).Nodup :=
  List.nodup_reverse.mpr (nodup_foldl_setRemove _ _ hall)

/-- The state that enters the worklist loop satisfies the invariant. -/
theorem toposort_initInv {T : Type} [LinearOrder T] (nodes : List T)
    (edges : List (T × T)) (minv maxv : T)
    (hmin : (toposortBuild nodes edges).minv = some minv)
    (hmax : (toposortBuild nodes edges).maxv = some maxv) :
    ToposortInv (toposortBuild nodes edges).parent_of (toposortBuild nodes edges).child_of
      (toposortBuild nodes edges).all_nodes minv maxv
      (toposortBuild nodes edges).parent_of (toposortBuild nodes edges).child_of
      (toposortLeaves (toposortBuild nodes edges)) [] := by
  obtain ⟨hpn, hcn, han⟩ := toposortBuild_nodup nodes edges
  have hsync : ∀ t f, ((t : T), f) ∈ (toposortBuild nodes edges).parent_of ↔
      (f, t) ∈ (toposortBuild nodes edges).child_of := by
    intro t f
    rw [toposortBuild_parent_mem, toposortBuild_child_mem]
  have hlm := toposortLeaves_mem (toposortBuild nodes edges) han
  refine ⟨hpn, hcn, toposortLeaves_nodup _ han, List.nodup_nil, hsync,
    fun e he => he, ?_, ?_, fun x hx => absurd hx (List.not_mem_nil x), ?_,
    fun x hx => absurd hx (List.not_mem_nil x), ?_, ?_,
    fun x hx => absurd hx (List.not_mem_nil x), ?_,
    fun f t _ hf => absurd hf (List.not_mem_nil f)⟩
  · intro e he
    have hedge := (toposortBuild_child_mem nodes edges e).mp he
    exact ⟨(toposortBuild_min_bound nodes edges minv hmin e hedge).2,
      (toposortBuild_max_bound nodes edges maxv hmax e hedge).2⟩
  · intro e he
    have hedge := (toposortBuild_parent_mem nodes edges e).mp he
    exact ⟨(toposortBuild_min_bound nodes edges minv hmin _ hedge).1,
      (toposortBuild_max_bound nodes edges maxv hmax _ hedge).1⟩
  · intro x hx t hct
    rcases hx with hx | hx
    · exact absurd hx (List.not_mem_nil x)
    · have hnp := ((hlm x).mp hx).2
      exact hnp (List.mem_map.mpr ⟨(t, x), (hsync t x).mpr hct, rfl⟩)
  · intro e he hne
    exact absurd he hne
  · intro x hx
    by_cases hmemp : x ∈ (toposortBuild nodes edges).parent_of.map (fun e => e.2)
    · obtain ⟨e, he, hex⟩ := List.mem_map.mp hmemp
      refine Or.inr (Or.inr ⟨e.1, (hsync e.1 x).mp ?_⟩)
      rw [show ((e.1 : T), x) = e from Prod.ext_iff.mpr ⟨rfl, hex.symm⟩]
      exact he
    · exact Or.inr (Or.inl ((hlm x).mpr ⟨hx, hmemp⟩))
  · intro x hx
    exact ((hlm x).mp hx).1

/-- With the leaves drained, if the input graph is acyclic both remaining
relation sets are empty: a non-empty `child_of` yields an arbitrarily long
walk in a finite node set, hence a cycle. -/
theorem toposortInv_final_nil {T : Type} [LinearOrder T]
    (parent0 child0 : List (T × T)) (allN : List T) (minv maxv : T)
    (edges : List (T × T)) (parentR childR : List (T × T)) (resR : List T)
    (hacyc : ∀ a, ¬ Relation.TransGen (fun x y => ((x : T), y) ∈ edges) a a)
    (hp0E : ∀ e ∈ parent0, ((e.2 : T), e.1) ∈ edges)
    (hpEnd : ∀ e ∈ parent0, e.1 ∈ allN ∧ e.2 ∈ allN)
    (inv : ToposortInv parent0 child0 allN minv maxv parentR childR [] resR) :
    childR = [] ∧ parentR = [] := by
  have hedge : ∀ a b, ((a : T), b) ∈ childR → (a, b) ∈ edges := fun a b h =>
    hp0E (b, a) (inv.pSub (b, a) ((inv.sync b a).mpr h))
  have hstep : ∀ a b, ((a : T), b) ∈ childR → ∃ u, (b, u) ∈ childR := by
    intro a b h
    have hbp : ((b : T), a) ∈ parentR := (inv.sync b a).mpr h
    have hball : b ∈ allN := (hpEnd (b, a) (inv.pSub (b, a) hbp)).1
    rcases inv.pending b hball with hres | hleaf | hpend
    · exact absurd hbp (inv.resNoParent b hres a)
    · exact absurd hleaf (List.not_mem_nil b)
    · exact hpend
  have hcnil : childR = [] := by
    by_contra hne
    obtain ⟨e0, he0⟩ := List.exists_mem_of_ne_nil childR hne
    have he0m : ((e0.1 : T), e0.2) ∈ childR := by
      rw [show ((e0.1 : T), e0.2) = e0 from Prod.ext_iff.mpr ⟨rfl, rfl⟩]
      exact he0
    -- iterate the successor choice to get an infinite walk among the
    -- finitely many sources of remaining child edges
    let S := {x : T // ∃ u, (x, u) ∈ childR}
    let next : S → S := fun s =>
      ⟨Classical.choose s.2, hstep s.1 _ (Classical.choose_spec s.2)⟩
    let walk : Nat → S := fun n => next^[n] ⟨e0.1, ⟨e0.2, he0m⟩⟩
    have hwalkstep : ∀ n, ((walk n).1, (walk (n + 1)).1) ∈ childR := by
      intro n
      have hsucc : walk (n + 1) = next (walk n) := Function.iterate_succ_apply' next n _
      rw [hsucc]
      exact Classical.choose_spec (walk n).2
    have htrans : ∀ i j, i < j →
        Relation.TransGen (fun x y => ((x : T), y) ∈ edges) (walk i).1 (walk j).1 := by
      intro i j hij
      have hk : ∀ k, Relation.TransGen (fun x y => ((x : T), y) ∈ edges)
          (walk i).1 (walk (i + 1 + k)).1 := by
        intro k
        induction k with
        | zero => exact Relation.TransGen.single (hedge _ _ (hwalkstep i))
        | succ k ihk => exact Relation.TransGen.tail ihk (hedge _ _ (hwalkstep (i + 1 + k)))
      obtain ⟨k, rfl⟩ : ∃ k, j = i + 1 + k := ⟨j - (i + 1), by omega⟩
      exact hk k
    have hmaps : ∀ n ∈ Finset.range ((childR.map Prod.fst).toFinset.card + 1),
        (walk n).1 ∈ (childR.map Prod.fst).toFinset := by
      intro n _
      obtain ⟨u, hu⟩ := (walk n).2
      exact List.mem_toFinset.mpr (List.mem_map.mpr ⟨((walk n).1, u), hu, rfl⟩)
    have hcard : (childR.map Prod.fst).toFinset.card <
        (Finset.range ((childR.map Prod.fst).toFinset.card + 1)).card := by
      rw [Finset.card_range]
      omega
    obtain ⟨i, _, j, _, hne2, heq⟩ :=
      Finset.exists_ne_map_eq_of_card_lt_of_maps_to hcard hmaps
    rcases lt_trichotomy i j with hlt | heqij | hgt
    · exact hacyc (walk i).1 (heq ▸ htrans i j hlt)
    · exact hne2 heqij
    · exact hacyc (walk j).1 (heq ▸ htrans j i hgt)
  refine ⟨hcnil, List.eq_nil_iff_forall_not_mem.mpr ?_⟩
  intro e he
  have : ((e.2 : T), e.1) ∈ childR := by
    apply (inv.sync e.1 e.2).mp
    rw [show ((e.1 : T), e.2) = e from Prod.ext_iff.mpr ⟨rfl, rfl⟩]
    exact he
  rw [hcnil] at this
  exact List.not_mem_nil _ this

/-- Claim C6: for every acyclic input graph of nodes and directed edges
(importer, imported), `topological_sort` returns an order containing every
node of the graph (the given nodes and all edge endpoints) exactly once, in
which every imported node (`e.2`) appears before each of its importers
(`e.1`), and reports no cycle (the second component is `None`). -/
theorem claim_C6_toposort_correct {T : Type} [LinearOrder T]
    (nodes : List T) (edges : List (T × T))
    (hacyc : ∀ a, ¬ Relation.TransGen (fun x y => ((x : T), y) ∈ edges) a a) :
    ∃ res, topological_sort nodes edges = (res, none) ∧ res.Nodup ∧
      (∀ n ∈ nodes, n ∈ res) ∧ (∀ e ∈ edges, e.1 ∈ res ∧ e.2 ∈ res) ∧
      (∀ x ∈ res, x ∈ nodes ∨ ∃ e ∈ edges, x = e.1 ∨ x = e.2) ∧
      (∀ e ∈ edges, res.indexOf e.2 < res.indexOf e.1) := by
  cases edges with
  | nil =>
    refine ⟨setOfListBy ltB nodes, rfl, nodup_setOfListBy ltB nodes,
      fun n hn => (mem_setOfListBy ltB nodes n).mpr hn, ?_, ?_, ?_⟩
    · intro e he; cases he
    · intro x hx
      exact Or.inl ((mem_setOfListBy ltB nodes x).mp hx)
    · intro e he; cases he
  | cons e0 rest0 =>
    obtain ⟨hminS, hmaxS⟩ :=
      foldl_buildStep_minv_isSome rest0 (toposortBuildStep
        ⟨[], [], setOfListBy ltB nodes, none, none⟩ e0) rfl rfl
    obtain ⟨minv, hmin⟩ := Option.isSome_iff_exists.mp hminS
    obtain ⟨maxv, hmax⟩ := Option.isSome_iff_exists.mp hmaxS
    have hmin2 : (toposortBuild nodes (e0 :: rest0)).minv = some minv := hmin
    have hmax2 : (toposortBuild nodes (e0 :: rest0)).maxv = some maxv := hmax
    have hts : topological_sort nodes (e0 :: rest0) =
        topologicalSortMain (toposortBuild nodes (e0 :: rest0)) minv maxv := by
      unfold topological_sort
      rw [hmin2, hmax2]
    have hsync0 : ∀ t f, ((t : T), f) ∈ (toposortBuild nodes (e0 :: rest0)).parent_of ↔
        (f, t) ∈ (toposortBuild nodes (e0 :: rest0)).child_of := by
      intro t f
      rw [toposortBuild_parent_mem, toposortBuild_child_mem]
    have hp0E : ∀ e ∈ (toposortBuild nodes (e0 :: rest0)).parent_of,
        ((e.2 : T), e.1) ∈ e0 :: rest0 :=
      fun e he => (toposortBuild_parent_mem nodes (e0 :: rest0) e).mp he
    have hpEnd : ∀ e ∈ (toposortBuild nodes (e0 :: rest0)).parent_of,
        e.1 ∈ (toposortBuild nodes (e0 :: rest0)).all_nodes ∧
          e.2 ∈ (toposortBuild nodes (e0 :: rest0)).all_nodes := by
      intro e he
      have hedge := hp0E e he
      constructor
      · exact (toposortBuild_all_mem nodes (e0 :: rest0) e.1).mpr
          (Or.inr ⟨(e.2, e.1), hedge, Or.inr rfl⟩)
      · exact (toposortBuild_all_mem nodes (e0 :: rest0) e.2).mpr
          (Or.inr ⟨(e.2, e.1), hedge, Or.inl rfl⟩)
    obtain ⟨resR, parentR, childR, heq, hinvR⟩ :=
      toposortLoop_spec (toposortBuild nodes (e0 :: rest0)).parent_of
        (toposortBuild nodes (e0 :: rest0)).child_of
        (toposortBuild nodes (e0 :: rest0)).all_nodes minv maxv hsync0 hpEnd
        ((toposortBuild nodes (e0 :: rest0)).parent_of.length +
          (toposortLeaves (toposortBuild nodes (e0 :: rest0))).length)
        (toposortBuild nodes (e0 :: rest0)).parent_of
        (toposortBuild nodes (e0 :: rest0)).child_of
        (toposortLeaves (toposortBuild nodes (e0 :: rest0))) []
        (toposort_initInv nodes (e0 :: rest0) minv maxv hmin2 hmax2) (le_refl _)
    obtain ⟨hcnil, hpnil⟩ := toposortInv_final_nil _ _ _ minv maxv (e0 :: rest0)
      parentR childR resR hacyc hp0E hpEnd hinvR
    have hmain : topologicalSortMain (toposortBuild nodes (e0 :: rest0)) minv maxv =
        (resR, none) := by
      rw [topologicalSortMain, heq, hpnil]
      simp
    have hall_res : ∀ x ∈ (toposortBuild nodes (e0 :: rest0)).all_nodes, x ∈ resR := by
      intro x hx
      rcases hinvR.pending x hx with h | h | ⟨t, ht⟩
      · exact h
      · exact absurd h (List.not_mem_nil x)
      · rw [hcnil] at ht
        exact absurd ht (List.not_mem_nil _)
    refine ⟨resR, hts.trans hmain, hinvR.rNodup, ?_, ?_, ?_, ?_⟩
    · intro n hn
      exact hall_res n ((toposortBuild_all_mem nodes (e0 :: rest0) n).mpr (Or.inl hn))
    · intro e he
      constructor
      · exact hall_res e.1 ((toposortBuild_all_mem nodes (e0 :: rest0) e.1).mpr
          (Or.inr ⟨e, he, Or.inl rfl⟩))
      · exact hall_res e.2 ((toposortBuild_all_mem nodes (e0 :: rest0) e.2).mpr
          (Or.inr ⟨e, he, Or.inr rfl⟩))
    · intro x hx
      exact (toposortBuild_all_mem nodes (e0 :: rest0) x).mp (hinvR.resSub x hx)
    · intro e he
      have hc0 : ((e.1 : T), e.2) ∈ (toposortBuild nodes (e0 :: rest0)).child_of := by
        rw [show ((e.1 : T), e.2) = e from Prod.ext_iff.mpr ⟨rfl, rfl⟩]
        exact (toposortBuild_child_mem nodes (e0 :: rest0) e).mpr he
      have hf : e.1 ∈ resR := hall_res e.1 ((toposortBuild_all_mem nodes (e0 :: rest0)
        e.1).mpr (Or.inr ⟨e, he, Or.inl rfl⟩))
      exact (hinvR.ordered e.1 e.2 hc0 hf).2

/-- Witness for C6 at a concrete graph: nodes `[1, 2, 3]` with edges
`[(1, 2), (2, 3)]` (1 imports 2, 2 imports 3). -/
theorem claim_C6_toposort_correct_witness :
    (∀ a : Nat, ¬ Relation.TransGen (fun x y => ((x : Nat), y) ∈ [(1, 2), (2, 3)]) a a) ∧
    ∃ res, topological_sort [1, 2, 3] [(1, 2), (2, 3)] = (res, none) ∧ res.Nodup ∧
      (∀ n ∈ [1, 2, 3], n ∈ res) ∧
      (∀ e ∈ [(1, 2), (2, 3)], e.1 ∈ res ∧ e.2 ∈ res) ∧
      (∀ x ∈ res, x ∈ [1, 2, 3] ∨ ∃ e ∈ [((1 : Nat), (2 : Nat)), (2, 3)],
        x = e.1 ∨ x = e.2) ∧
      (∀ e ∈ [((1 : Nat), (2 : Nat)), (2, 3)], res.indexOf e.2 < res.indexOf e.1) := by
  have hmono : ∀ x y : Nat,
      Relation.TransGen (fun x y => ((x : Nat), y) ∈ [(1, 2), (2, 3)]) x y → x < y := by
    intro x y h
    induction h with
    | single h =>
      simp only [List.mem_cons, List.not_mem_nil, or_false, Prod.mk.injEq] at h
      rcases h with ⟨rfl, rfl⟩ | ⟨rfl, rfl⟩ <;> omega
    | tail _ h ihx =>
      simp only [List.mem_cons, List.not_mem_nil, or_false, Prod.mk.injEq] at h
      rcases h with ⟨rfl, rfl⟩ | ⟨rfl, rfl⟩ <;> omega
  have hacyc : ∀ a : Nat,
      ¬ Relation.TransGen (fun x y => ((x : Nat), y) ∈ [(1, 2), (2, 3)]) a a :=
    fun a h => absurd (hmono a a h) (lt_irrefl a)
  exact ⟨hacyc, claim_C6_toposort_correct [1, 2, 3] [(1, 2), (2, 3)] hacyc⟩

/-! ### `Module::from_paths` (codegen/module.rs:345-439)

The parse loop (lines 352-387) performs file IO and parsing; the phase the
claims target starts at the edge construction (line 390).  It is embedded as
`Module.from_paths_sorted_phase`, parameterised by the parsed ASTs, the file
contents, the optional dependency map (`None` ≈ `[]`), and the error vector
accumulated by the parse loop. -/

/-- Embeds `codegen::module::SingleModuleError`. -/
inductive SingleModuleError where
  | IOError (msg : Str)
  | MultipleParseError (file : Str) (errors : List (Nat × Str))
  | ParseError (file : Str) (pos : Nat) (error : Str)
  | Incomplete
  deriving Repr, DecidableEq

/-- Alias keeping the type visible inside `ModuleError`, whose constructor
shadows the name. -/
abbrev SingleModuleErrorT := SingleModuleError

/-- Embeds `codegen::module::ModuleError`. -/
inductive ModuleError where
  | SingleModuleError (path : Str) (err : SingleModuleErrorT)
  | CyclicDependency (paths : List Str)
  deriving Repr, DecidableEq

/-- True exactly on `ModuleError::CyclicDependency`. -/
def ModuleError.isCyclic : ModuleError → Bool
  | ModuleError.CyclicDependency _ => true
  | _ => false

/-- The `Display` string of `ErrorKind` (result.rs:17-25).  The source format
string for `UndefinedArgumentError` interpolates `{0}` twice, so the function
name is never printed. -/
def ErrorKind.display : ErrorKind → Str
  | ErrorKind.ConstError msg => s2l msg
  | ErrorKind.UndefinedParameterError name => s2l "undefined parameter " ++ name
  | ErrorKind.UndefinedArgumentError arg _func =>
    s2l "argument " ++ arg ++ s2l " in function " ++ arg ++ s2l " does not exist"

/-- The `Display` string of `IrErrorKind` (result.rs:27-37). -/
def IrErrorKind.display : IrErrorKind → Str
  | IrErrorKind.ConstError msg => s2l msg
  | IrErrorKind.ReservedWordError w => w ++ s2l " is a reserved words"
  | IrErrorKind.UndefinedFunctionError f => s2l "function " ++ f ++ s2l " does not exist"
  | IrErrorKind.WrongNumberArgumentsError a b =>
    s2l "this module expects " ++ natStr a ++ s2l " arguments not " ++ natStr b ++
      s2l " arguments"

/-- Embeds `ModuleError::convert_simple_parse_error` (module.rs:67-88): `Some`
on every variant except `Multiple`. -/
def ModuleError.convertSimpleParseError (file_content : Str) :
    ParseError → Option (Nat × Str)
  | ParseError.NomError input _ =>
    some (file_content.length - input.length, s2l "unexpected token")
  | ParseError.IrErrorKind input kind =>
    some (file_content.length - input.length, IrErrorKind.display kind)
  | ParseError.ErrorKind input kind =>
    some (file_content.length - input.length, ErrorKind.display kind)
  | ParseError.Multiple _ => none

/-- Stable insertion by position, the list layer under `sortByPos`. -/
def insertByPos : List (Nat × Str) → (Nat × Str) → List (Nat × Str)
  | [], x => [x]
  | y :: rest, x => if y.1 ≤ x.1 then y :: insertByPos rest x else x :: y :: rest

/-- `res.sort_by_key(|(pos, _)| *pos)`: a stable sort by position (every stable
sort produces the same list, so insertion sort matches Rust `sort_by_key`). -/
def sortByPos (l : List (Nat × Str)) : List (Nat × Str) := l.foldl insertByPos []

/-- The `while let Some(err) = errors.pop()` flattening loop of
`ModuleError::with_parse_error` (module.rs:97-111), fuelled.  The stack keeps
the popped end (`Vec` tail) at the head, so `extend` prepends the reversed new
errors.  A nested non-`Multiple` error that `convert_simple_parse_error`
rejects cannot exist, matching the source `panic!` (modelled as `none`); fuel
at least the `ParseError.treeSize` of the error tree makes the zero branch
unreachable, one tree node being consumed per iteration. -/
def ModuleError.flattenLoop (file_content : Str) :
    Nat → List ParseError → List (Nat × Str) → Option (List (Nat × Str))
  | 0, _, res => some res
  | _ + 1, [], res => some res
  | fuel + 1, err :: stack, res =>
    match ModuleError.convertSimpleParseError file_content err, err with
    | some v, _ => ModuleError.flattenLoop file_content fuel stack (res ++ [v])
    | none, ParseError.Multiple new =>
      ModuleError.flattenLoop file_content fuel (new.reverse ++ stack) res
    | none, _ => none

mutual

/-- Number of nodes of a `ParseError` tree, an upper bound on the iterations
of the flattening loop (used as its fuel). -/
def ParseError.treeSize : ParseError → Nat
  | ParseError.Multiple es => 1 + ParseError.treeSizeList es
  | _ => 1

/-- Total node count of a list of `ParseError` trees. -/
def ParseError.treeSizeList : List ParseError → Nat
  | [] => 0
  | e :: rest => ParseError.treeSize e + ParseError.treeSizeList rest

end

/-- Embeds `ModuleError::with_parse_error` (module.rs:90-134): a simple parse
error becomes `SingleModuleError::ParseError`; a `Multiple` is flattened and
sorted by position into `MultipleParseError`.  The `panic!` branches are
modelled as `none`. -/
def ModuleError.with_parse_error (path : Str) (file_content : Str) (err : ParseError) :
    Option ModuleError :=
  match ModuleError.convertSimpleParseError file_content err with
  | some pv =>
    some (ModuleError.SingleModuleError path
      (SingleModuleError.ParseError file_content pv.1 pv.2))
  | none =>
    match err with
    | ParseError.Multiple errors =>
      match ModuleError.flattenLoop file_content (ParseError.treeSize err) errors.reverse [] with
      | some res =>
        some (ModuleError.SingleModuleError path
          (SingleModuleError.MultipleParseError file_content (sortByPos res)))
      | none => none
    | _ => none

/-- Embeds `codegen::module::MixedRef`. -/
inductive MixedRef where
  | Borrowed (m : Module)
  | Owned (m : Module)
  deriving Repr, DecidableEq

/-- `Borrow<Module>` for `MixedRef<Module>`: both variants expose the module. -/
def MixedRef.borrowModule : MixedRef → Module
  | MixedRef.Borrowed m => m
  | MixedRef.Owned m => m

/-- Embeds `Ast::dependencies` (ast.rs:45-59): one `SpanRef` per import
decorator, whose value is the import path pushed onto the module's own file
path (`PathBuf::push` on the file location, not its directory). -/
def Ast.dependencies (ast : Ast) : List (SpanRef Str) :=
  ast.decorators.filterMap (fun d =>
    match d.value with
    | Decorator.Import _ path => some (path.map (fun p => pathPush ast.file_loc p))
    | _ => none)

/-- Embeds `Ast::canonicalized_dependencies` (ast.rs:40-43): canonicalise each
dependency, dropping the ones the filesystem rejects. -/
def Ast.canonicalized_dependencies (canonicalize : Str → Option Str) (ast : Ast) :
    List (SpanRef Str) :=
  (Ast.dependencies ast).filterMap (fun dep =>
    (canonicalize dep.value).map (fun v => dep.withValue v))

/-- The edge list of `Module::from_paths` (module.rs:390-397): one
`(importer, imported)` pair per canonicalised dependency. -/
def Module.fromPathsEdges (canonicalize : Str → Option Str)
    (asts : List (Str × Ast)) : List (Str × Str) :=
  asts.flatMap (fun pa =>
    (Ast.canonicalized_dependencies canonicalize pa.2).map (fun sr => (pa.1, sr.value)))

/-- The `for (path, contents, ast) in sorted...` loop of `Module::from_paths`
(module.rs:413-426): walk the sorted order, compile each module whose contents
and AST are present (removing the AST), collect successes into the module map
and `Module::new` failures (via `with_parse_error`) into the second, shadowed
error vector.  `none` models a `with_parse_error` panic. -/
def Module.fromPathsLoop (canonicalize : Str → Option Str) :
    List Str → List (Str × Str) → List (Str × Ast) → List (Str × MixedRef) →
    List ModuleError → Option (List (Str × MixedRef) × List ModuleError)
  | [], _, _, modules, errors => some (modules, errors)
  | path :: rest, file_contents, asts, modules, errors =>
    match alGet file_contents path with
    | none => Module.fromPathsLoop canonicalize rest file_contents asts modules errors
    | some contents =>
      match alGet asts path with
      | none => Module.fromPathsLoop canonicalize rest file_contents asts modules errors
      | some ast =>
        match Module.new canonicalize ast
            (modules.map (fun pm => (pm.1, pm.2.borrowModule))) with
        | Except.ok res =>
          Module.fromPathsLoop canonicalize rest file_contents (alRemove asts path)
            (alInsert modules path (MixedRef.Owned res)) errors
        | Except.error err =>
          match ModuleError.with_parse_error path contents err with
          | some merr =>
            Module.fromPathsLoop canonicalize rest file_contents (alRemove asts path)
              modules (errors ++ [merr])
          | none => none

/-- The `errors` vector of `Module::from_paths` as of module.rs:404, right
before the shadowing `let mut errors: Vec<ModuleError> = vec![]` at
module.rs:411: the parse-loop errors plus, when `topological_sort` reports
untraversed relations, the `CyclicDependency` error over their endpoints. -/
def Module.from_paths_detected_errors (canonicalize : Str → Option Str)
    (asts : List (Str × Ast)) (errors0 : List ModuleError) : List ModuleError :=
  match (topological_sort ([] : List Str) (Module.fromPathsEdges canonicalize asts)).2 with
  | some set => errors0 ++ [ModuleError.CyclicDependency set]
  | none => errors0

/-- The phase of `Module::from_paths` after the parse loop (module.rs:390-439).
`topological_sort(edges.iter())` is the source's single-argument call of the
two-argument function (the snapshot does not compile as written); the nodes
iterator is taken to be empty, every node of interest being an edge endpoint.
`_errors0`, the vector holding the IO, parse and cyclic-dependency errors, is
never read again after module.rs:411 shadows it with a fresh vector: only
`Module::new` failures from the final loop reach the returned error list. -/
def Module.from_paths_sorted_phase (canonicalize : Str → Option Str)
    (asts : List (Str × Ast)) (file_contents : List (Str × Str))
    (deps : List (Str × Module)) (_errors0 : List ModuleError) :
    Option (List (Str × Module) × List ModuleError) :=
  match Module.fromPathsLoop canonicalize
      (topological_sort ([] : List Str) (Module.fromPathsEdges canonicalize asts)).1
      file_contents asts
      (deps.map (fun pm => (pm.1, MixedRef.Borrowed pm.2))) [] with
  | none => none
  | some (modules, errors2) =>
    some (modules.filterMap (fun pm =>
      match pm.2 with
      | MixedRef.Borrowed _ => none
      | MixedRef.Owned v => some (pm.1, v)), errors2)

theorem ModuleError.with_parse_error_not_cyclic (path fc : Str) (err : ParseError)
    (me : ModuleError) (h : ModuleError.with_parse_error path fc err = some me) :
    me.isCyclic = false := by
  unfold ModuleError.with_parse_error at h
  cases err with
  | Multiple es =>
    simp only [ModuleError.convertSimpleParseError] at h
    cases hfl : ModuleError.flattenLoop fc
        (ParseError.treeSize (ParseError.Multiple es)) es.reverse [] with
    | none => rw [hfl] at h; cases h
    | some res =>
      rw [hfl] at h
      obtain rfl := Option.some.inj h
      rfl
  | NomError input k =>
    simp only [ModuleError.convertSimpleParseError] at h
    obtain rfl := Option.some.inj h
    rfl
  | ErrorKind input k =>
    simp only [ModuleError.convertSimpleParseError] at h
    obtain rfl := Option.some.inj h
    rfl
  | IrErrorKind input k =>
    simp only [ModuleError.convertSimpleParseError] at h
    obtain rfl := Option.some.inj h
    rfl

/-- Every error the final loop of `from_paths` can append comes from
`with_parse_error` and is therefore a `SingleModuleError`, never a
`CyclicDependency`. -/
theorem Module.fromPathsLoop_errors (canonicalize : Str → Option Str) (sorted : List Str) :
    ∀ (fcs : List (Str × Str)) (asts : List (Str × Ast))
      (modules : List (Str × MixedRef)) (errors : List ModuleError)
      (mods : List (Str × MixedRef)) (errs : List ModuleError),
      Module.fromPathsLoop canonicalize sorted fcs asts modules errors = some (mods, errs) →
      ∀ e ∈ errs, e ∈ errors ∨ e.isCyclic = false := by
  induction sorted with
  | nil =>
    intro fcs asts modules errors mods errs h e he
    simp only [Module.fromPathsLoop] at h
    have h2 := Option.some.inj h
    have h3 : errors = errs := congrArg Prod.snd h2
    subst h3
    exact Or.inl he
  | cons path rest ih =>
    intro fcs asts modules errors mods errs h e he
    simp only [Module.fromPathsLoop] at h
    cases hc : alGet fcs path with
    | none =>
      simp only [hc] at h
      exact ih _ _ _ _ _ _ h e he
    | some contents =>
      simp only [hc] at h
      cases ha : alGet asts path with
      | none =>
        simp only [ha] at h
        exact ih _ _ _ _ _ _ h e he
      | some ast =>
        simp only [ha] at h
        cases hm : Module.new canonicalize ast
            (modules.map (fun pm => (pm.1, pm.2.borrowModule))) with
        | ok res =>
          simp only [hm] at h
          exact ih _ _ _ _ _ _ h e he
        | error err =>
          simp only [hm] at h
          cases hw : ModuleError.with_parse_error path contents err with
          | none =>
            simp only [hw] at h
            exact Option.noConfusion h
          | some merr =>
            simp only [hw] at h
            rcases ih _ _ _ _ _ _ h e he with hmem | hcyc
            · rcases List.mem_append.mp hmem with hmem2 | hmem2
              · exact Or.inl hmem2
              · have he2 : e = merr := List.mem_singleton.mp hmem2
                exact Or.inr (he2 ▸
                  ModuleError.with_parse_error_not_cyclic path contents err merr hw)
            · exact Or.inr hcyc

/-- One import decorator with dummy spans, used by the C4 cycle instance. -/
def importDecorC4 (imp : String) : SpanRef Decorator :=
  ⟨[], [], Decorator.Import ⟨[], [], s2l "m"⟩ ⟨[], [], s2l imp⟩⟩

/-- A parsed module at `loc` importing `imp`, used by the C4 cycle instance. -/
def astC4 (loc imp : String) : Ast := ⟨s2l loc, [importDecorC4 imp], []⟩

/-- `fs::canonicalize` for the C4 cycle instance: resolves the three joined import
paths to the canonical module paths. -/
def canonC4 : Str → Option Str := fun p =>
  if p = s2l "/a/b" then some (s2l "/b")
  else if p = s2l "/b/c" then some (s2l "/c")
  else if p = s2l "/c/a" then some (s2l "/a")
  else none

/-- Three parsed files whose import edges form the cycle A → B → C → A. -/
def astsC4 : List (Str × Ast) :=
  [(s2l "/a", astC4 "/a" "b"), (s2l "/b", astC4 "/b" "c"), (s2l "/c", astC4 "/c" "a")]

/-- Claim C4 (code bug): `from_paths` detects the cycle — the first `errors`
vector as of module.rs:404 ends with `CyclicDependency {A, B, C}` for the
three-file cycle — but the shadowing `let mut errors = vec![]` at
module.rs:411 discards that vector, so the value the function returns contains
no module for A, B or C *and no error at all*: in general the returned error
list never contains a `CyclicDependency` (first conjunct), and on the concrete
cycle both the detected-then-dropped error and the empty result are
exhibited. -/
theorem claim_C4_cycle_error_discarded :
    (∀ (canonicalize : Str → Option Str) (asts : List (Str × Ast))
        (fcs : List (Str × Str)) (deps : List (Str × Module))
        (errors0 : List ModuleError) (mods : List (Str × Module))
        (errs : List ModuleError),
      Module.from_paths_sorted_phase canonicalize asts fcs deps errors0 =
        some (mods, errs) →
      ∀ e ∈ errs, e.isCyclic = false) ∧
    Module.from_paths_detected_errors canonC4 astsC4 [] =
      [ModuleError.CyclicDependency [s2l "/a", s2l "/b", s2l "/c"]] ∧
    Module.from_paths_sorted_phase canonC4 astsC4 [] [] [] = some ([], []) := by
  refine ⟨?_, rfl, rfl⟩
  intro canonicalize asts fcs deps errors0 mods errs h e he
  unfold Module.from_paths_sorted_phase at h
  cases hl : Module.fromPathsLoop canonicalize
      (topological_sort ([] : List Str) (Module.fromPathsEdges canonicalize asts)).1
      fcs asts (deps.map (fun pm => (pm.1, MixedRef.Borrowed pm.2))) [] with
  | none =>
    simp only [hl] at h
    exact Option.noConfusion h
  | some p =>
    obtain ⟨modules, errors2⟩ := p
    simp only [hl] at h
    have h4 : errors2 = errs := congrArg Prod.snd (Option.some.inj h)
    rcases Module.fromPathsLoop_errors canonicalize _ _ _ _ _ _ _ hl e (h4 ▸ he)
      with hmem | hc
    · exact absurd hmem (List.not_mem_nil e)
    · exact hc

/-- Witness for the universally quantified conjunct of C4, at the concrete
three-file cycle. -/
theorem claim_C4_cycle_error_discarded_witness :
    Module.from_paths_sorted_phase canonC4 astsC4 [] [] [] = some ([], []) ∧
    (∀ e ∈ ([] : List ModuleError), e.isCyclic = false) :=
  ⟨rfl, claim_C4_cycle_error_discarded.1 canonC4 astsC4 [] [] [] [] [] rfl⟩

/-! ### nom combinators over `Str`

The parsers of `codegen/ast` are built on nom's `complete` combinators (nom 7
semantics, the `Parser::and/or/map` era the source imports).  `ParseError`
implements `nom::error::ParseError` with `from_error_kind = NomError` and the
default `or` (which keeps the second error); `Incomplete` never occurs with
complete combinators.  Loops carry fuel `input.length + 1`; every iteration
either consumes input or stops (the `Many0`/`Many1`/`SeparatedList`
zero-consumption guards), so the zero-fuel branch is unreachable. -/

/-- `nom::Err`: recoverable `error` vs fatal `failure`. -/
inductive NomErr where
  | error (e : ParseError)
  | failure (e : ParseError)
  deriving Repr

/-- `PResult<'a, O> = IResult<&'a str, O, ParseError<'a>>`. -/
abbrev PResult (A : Type) := Except NomErr (Str × A)

/-- Maps the payload of a `nom::Err` (`nom::Err::map`). -/
def NomErr.mapErr (f : ParseError → ParseError) : NomErr → NomErr
  | NomErr.error e => NomErr.error (f e)
  | NomErr.failure e => NomErr.failure (f e)

/-- `nom::bytes::complete::tag`. -/
def tagP (t : Str) : Str → PResult Str := fun input =>
  if input.take t.length = t then Except.ok (input.drop t.length, t)
  else Except.error (NomErr.error (ParseError.NomError input NomErrorKind.Tag))

/-- `nom::character::complete::char`. -/
def charP (c : Char) : Str → PResult Char := fun input =>
  match input with
  | c0 :: rest =>
    if c0 = c then Except.ok (rest, c)
    else Except.error (NomErr.error (ParseError.NomError input NomErrorKind.Char))
  | [] => Except.error (NomErr.error (ParseError.NomError input NomErrorKind.Char))

/-- `nom::character::complete::satisfy`. -/
def satisfyP (p : Char → Bool) : Str → PResult Char := fun input =>
  match input with
  | c0 :: rest =>
    if p c0 then Except.ok (rest, c0)
    else Except.error (NomErr.error (ParseError.NomError input NomErrorKind.Satisfy))
  | [] => Except.error (NomErr.error (ParseError.NomError input NomErrorKind.Satisfy))

/-- `nom::bytes::complete::take_while` (never fails). -/
def takeWhileP (p : Char → Bool) : Str → PResult Str := fun input =>
  Except.ok (input.dropWhile p, input.takeWhile p)

/-- `nom::bytes::complete::take_while1`. -/
def takeWhile1P (p : Char → Bool) : Str → PResult Str := fun input =>
  match input.takeWhile p with
  | [] => Except.error (NomErr.error (ParseError.NomError input NomErrorKind.TakeWhile1))
  | l => Except.ok (input.dropWhile p, l)

/-- `nom::bytes::complete::is_not`. -/
def isNotP (set : Str) : Str → PResult Str := fun input =>
  match input.takeWhile (fun c => !(set.contains c)) with
  | [] => Except.error (NomErr.error (ParseError.NomError input NomErrorKind.IsNot))
  | l => Except.ok (input.dropWhile (fun c => !(set.contains c)), l)

/-- `nom::bytes::complete::take` (complete `take` errors with `Eof`). -/
def takeP (n : Nat) : Str → PResult Str := fun input =>
  if n ≤ input.length then Except.ok (input.drop n, input.take n)
  else Except.error (NomErr.error (ParseError.NomError input NomErrorKind.Eof))

/-- `nom::combinator::eof`. -/
def eofP : Str → PResult Str := fun input =>
  match input with
  | [] => Except.ok ([], [])
  | _ => Except.error (NomErr.error (ParseError.NomError input NomErrorKind.Eof))

/-- `nom::combinator::opt`. -/
def optP {A : Type} (p : Str → PResult A) : Str → PResult (Option A) := fun input =>
  match p input with
  | Except.ok (rest, a) => Except.ok (rest, some a)
  | Except.error (NomErr.error _) => Except.ok (input, none)
  | Except.error (NomErr.failure e) => Except.error (NomErr.failure e)

/-- `nom::branch::alt` of two parsers; n-ary `alt` is nested `altP`.  With the
default `ParseError::or`, the error of the last alternative wins. -/
def altP {A : Type} (p q : Str → PResult A) : Str → PResult A := fun input =>
  match p input with
  | Except.ok r => Except.ok r
  | Except.error (NomErr.error _) => q input
  | Except.error (NomErr.failure e) => Except.error (NomErr.failure e)

/-- `Parser::map`. -/
def mapP {A B : Type} (p : Str → PResult A) (f : A → B) : Str → PResult B := fun input =>
  match p input with
  | Except.ok (rest, a) => Except.ok (rest, f a)
  | Except.error e => Except.error e

/-- `Parser::and` / pair sequencing. -/
def pairP {A B : Type} (p : Str → PResult A) (q : Str → PResult B) :
    Str → PResult (A × B) := fun input =>
  match p input with
  | Except.error e => Except.error e
  | Except.ok (rest, a) =>
    match q rest with
    | Except.error e => Except.error e
    | Except.ok (rest2, b) => Except.ok (rest2, (a, b))

/-- `nom::sequence::preceded`. -/
def precededP {A B : Type} (p : Str → PResult A) (q : Str → PResult B) :
    Str → PResult B := fun input =>
  match p input with
  | Except.error e => Except.error e
  | Except.ok (rest, _) => q rest

/-- `nom::sequence::terminated`. -/
def terminatedP {A B : Type} (p : Str → PResult A) (q : Str → PResult B) :
    Str → PResult A := fun input =>
  match p input with
  | Except.error e => Except.error e
  | Except.ok (rest, a) =>
    match q rest with
    | Except.error e => Except.error e
    | Except.ok (rest2, _) => Except.ok (rest2, a)

/-- `nom::sequence::delimited`. -/
def delimitedP {A B C : Type} (p : Str → PResult A) (q : Str → PResult B)
    (r : Str → PResult C) : Str → PResult B := fun input =>
  match p input with
  | Except.error e => Except.error e
  | Except.ok (rest, _) =>
    match q rest with
    | Except.error e => Except.error e
    | Except.ok (rest2, b) =>
      match r rest2 with
      | Except.error e => Except.error e
      | Except.ok (rest3, _) => Except.ok (rest3, b)

/-- `nom::combinator::cut`: turn a recoverable error into a failure. -/
def cutP {A : Type} (p : Str → PResult A) : Str → PResult A := fun input =>
  match p input with
  | Except.error (NomErr.error e) => Except.error (NomErr.failure e)
  | other => other

/-- The loop of `fold_many0`: stop on a recoverable error, propagate failures,
error out (`Many0`) when the inner parser consumes nothing. -/
def foldMany0Go {A R : Type} (p : Str → PResult A) (g : R → A → R) :
    Nat → Str → R → PResult R
  | 0, input, acc => Except.ok (input, acc)
  | fuel + 1, input, acc =>
    match p input with
    | Except.ok (rest, a) =>
      if rest.length = input.length then
        Except.error (NomErr.error (ParseError.NomError input NomErrorKind.Many0))
      else foldMany0Go p g fuel rest (g acc a)
    | Except.error (NomErr.error _) => Except.ok (input, acc)
    | Except.error (NomErr.failure e) => Except.error (NomErr.failure e)

/-- `nom::multi::fold_many0`. -/
def foldMany0P {A R : Type} (p : Str → PResult A) (init : R) (g : R → A → R) :
    Str → PResult R := fun input =>
  foldMany0Go p g (input.length + 1) input init

/-- The loop of `fold_many1` after its first element: like `fold_many0` but
zero consumption is a *failure* (`Many1`). -/
def foldMany1Go {A R : Type} (p : Str → PResult A) (g : R → A → R) :
    Nat → Str → R → PResult R
  | 0, input, acc => Except.ok (input, acc)
  | fuel + 1, input, acc =>
    match p input with
    | Except.ok (rest, a) =>
      if rest.length = input.length then
        Except.error (NomErr.failure (ParseError.NomError rest NomErrorKind.Many1))
      else foldMany1Go p g fuel rest (g acc a)
    | Except.error (NomErr.error _) => Except.ok (input, acc)
    | Except.error (NomErr.failure e) => Except.error (NomErr.failure e)

/-- `nom::multi::fold_many1`: a failing first element is a `Many1` error. -/
def foldMany1P {A R : Type} (p : Str → PResult A) (init : R) (g : R → A → R) :
    Str → PResult R := fun input =>
  match p input with
  | Except.ok (rest, a) => foldMany1Go p g (input.length + 1) rest (g init a)
  | Except.error (NomErr.error _) =>
    Except.error (NomErr.error (ParseError.NomError input NomErrorKind.Many1))
  | Except.error (NomErr.failure e) => Except.error (NomErr.failure e)

/-- The loop of `separated_list0/1`: stop when separator or element errors,
propagate failures, error out (`SeparatedList`) when the separator consumes
nothing. -/
def sepListGo {S A : Type} (sep : Str → PResult S) (p : Str → PResult A) :
    Nat → Str → List A → PResult (List A)
  | 0, input, acc => Except.ok (input, acc)
  | fuel + 1, input, acc =>
    match sep input with
    | Except.error (NomErr.error _) => Except.ok (input, acc)
    | Except.error (NomErr.failure e) => Except.error (NomErr.failure e)
    | Except.ok (rest1, _) =>
      if rest1.length = input.length then
        Except.error (NomErr.error (ParseError.NomError rest1 NomErrorKind.SeparatedList))
      else
        match p rest1 with
        | Except.error (NomErr.error _) => Except.ok (input, acc)
        | Except.error (NomErr.failure e) => Except.error (NomErr.failure e)
        | Except.ok (rest2, a) => sepListGo sep p fuel rest2 (acc ++ [a])

/-- `nom::multi::separated_list1`: the first element's error propagates
unchanged. -/
def sepList1P {S A : Type} (sep : Str → PResult S) (p : Str → PResult A) :
    Str → PResult (List A) := fun input =>
  match p input with
  | Except.error e => Except.error e
  | Except.ok (rest, a) => sepListGo sep p (input.length + 1) rest [a]

/-- `nom::multi::separated_list0`: a failing first element yields `[]`. -/
def sepList0P {S A : Type} (sep : Str → PResult S) (p : Str → PResult A) :
    Str → PResult (List A) := fun input =>
  match p input with
  | Except.error (NomErr.error _) => Except.ok (input, [])
  | Except.error (NomErr.failure e) => Except.error (NomErr.failure e)
  | Except.ok (rest, a) => sepListGo sep p (input.length + 1) rest [a]

/-- `SpanRef::parse` (span_ref.rs:57-72): wrap a parser's result with the
input suffixes before and after it. -/
def spanParse {A : Type} (p : Str → PResult A) : Str → PResult (SpanRef A) := fun input =>
  match p input with
  | Except.error e => Except.error e
  | Except.ok (output, res) => Except.ok (output, ⟨input, output, res⟩)

/-! ### `codegen/ast/parser.rs` helpers -/

/-- `is_alpha_or_underscore` (parser.rs:179-181); `is_alphanumeric` restricted
to ASCII, which covers the repository's inputs. -/
def is_alpha_or_underscore (c : Char) : Bool := c.isAlphanum || c = '_'

/-- `line_space0` (parser.rs:14-16). -/
def line_space0 : Str → PResult Str :=
  takeWhileP (fun c => c.isWhitespace && !(c = '\n'))

/-- `line_space1` (parser.rs:19-28).  The `map_err` can never fire because
`take_while` never fails, so `line_space1` accepts zero spaces exactly like
`line_space0` (source bug preserved). -/
def line_space1 : Str → PResult Str := fun input =>
  match takeWhileP (fun c => c.isWhitespace && !(c = '\n')) input with
  | Except.ok r => Except.ok r
  | Except.error _ =>
    Except.error (NomErr.error (ParseError.constError input "must have at least one space"))

/-- `space` (parser.rs:30-32). -/
def space : Str → PResult Str := takeWhileP (fun c => c.isWhitespace)

/-- `string_literal` (parser.rs:34-55): a single- or double-quoted literal
with backslash escapes; returns the slice *including* both quotes.  Quote and
backslash characters are written via `Char.ofNat` (39 `= '`, 34 `= "`,
92 `= \`). -/
def string_literal : Str → PResult Str := fun input =>
  match altP
      (delimitedP (tagP [Char.ofNat 39])
        (foldMany0P
          (altP (mapP (pairP (tagP [Char.ofNat 92]) (takeP 1)) (fun _ => ()))
            (mapP (isNotP [Char.ofNat 92, Char.ofNat 39]) (fun _ => ())))
          () (fun _ _ => ()))
        (tagP [Char.ofNat 39]))
      (delimitedP (tagP [Char.ofNat 34])
        (foldMany0P
          (altP (mapP (pairP (tagP [Char.ofNat 92]) (takeP 1)) (fun _ => ()))
            (mapP (isNotP [Char.ofNat 92, Char.ofNat 34]) (fun _ => ())))
          () (fun _ _ => ()))
        (tagP [Char.ofNat 34])) input with
  | Except.error e => Except.error e
  | Except.ok (output, _) => Except.ok (output, input.take (input.length - output.length))

/-! ### `codegen/ast/sql.rs` -/

/-- `StatementSpan::is_empty` (sql.rs:19-32), verbatim including the
`CallSite` arm: the source comment says "if using a call site then the
statement is nonempty", but returning `true` inside `all` makes a
call-site-only statement count as *empty*. -/
def StatementSpan.is_empty (s : StatementSpan) : Bool :=
  s.interps.all (fun interp =>
    match interp.value with
    | InterpSpan.Literal lit => (lit.find? (fun c => !c.isWhitespace)).isNone
    | InterpSpan.CallSite _ _ => true
    | _ => false)

/-- Embeds the private `Token` enum of sql.rs. -/
inductive Token where
  | Param (s : Str)
  | AuthParam (s : Str)
  | CallSite (func : Str) (args : List (SpanRef Str))
  | StringLiteral (s : Str)
  | Word (s : Str)
  | Space (s : Str)
  | Other (c : Char)
  deriving Repr, DecidableEq

/-- `lex_word` (sql.rs:54-56). -/
def lex_word : Str → PResult Str := takeWhile1P is_alpha_or_underscore

/-- `lex_at_word` (sql.rs:58-64). -/
def lex_at_word : Str → PResult Str :=
  precededP (charP '@') (takeWhile1P is_alpha_or_underscore)

/-- `lex_string_literal` (sql.rs:66-68). -/
def lex_string_literal : Str → PResult Str := string_literal

/-- `lex_end_statement` (sql.rs:70-72). -/
def lex_end_statement : Str → PResult Unit := mapP (charP ';') (fun _ => ())

/-- `lex_space` (sql.rs:74-86): splits at the first non-whitespace character;
errors when the input starts with non-whitespace *or* contains no
non-whitespace at all (so trailing all-whitespace input is consumed
character-by-character through `lex_other_char` instead). -/
def lex_space : Str → PResult Str := fun input =>
  match input.findIdx? (fun c => !c.isWhitespace) with
  | some 0 => Except.error (NomErr.error (ParseError.constError input "expected space"))
  | none => Except.error (NomErr.error (ParseError.constError input "expected space"))
  | some pos => Except.ok (input.drop pos, input.take pos)

/-- `lex_other_char` (sql.rs:88-90). -/
def lex_other_char : Str → PResult Char := satisfyP (fun c => !(c = ';'))

/-- The separator `space.and(tag(",")).and(space)` of the call-site argument
list (sql.rs:100-104). -/
def callSiteSep : Str → PResult Unit :=
  mapP (pairP (pairP space (tagP (s2l ","))) space) (fun _ => ())

/-- `parse_token` (sql.rs:92-124), with the source's `alt` order:
call site, auth param, param, string literal, space, word, other char. -/
def parse_token : Str → PResult Token :=
  altP
    (mapP (pairP lex_at_word
        (delimitedP (tagP (s2l "("))
          (terminatedP (sepList0P callSiteSep (spanParse lex_word)) (optP callSiteSep))
          (tagP (s2l ")"))))
      (fun fp => Token.CallSite fp.1 fp.2))
    (altP (mapP (precededP (tagP (s2l "@auth.")) lex_word) Token.AuthParam
      )
      (altP (mapP lex_at_word Token.Param)
        (altP (mapP lex_string_literal Token.StringLiteral)
          (altP (mapP lex_space Token.Space)
            (altP (mapP lex_word Token.Word)
              (mapP lex_other_char Token.Other))))))

/-- The accumulator step of the `fold_many1` in `parse_sql_statement`
(sql.rs:134-185): flush or extend the literal builder, then append the
interpolation node (with the token's span) for `Param`/`AuthParam`/`CallSite`
tokens.  `push_str`/`push` mutate only the builder's value (`DerefMut` to the
`String`), leaving its span fields unchanged. -/
def psFold (bs : SpanRef Str × List (SpanRef InterpSpan)) (token : SpanRef Token) :
    SpanRef Str × List (SpanRef InterpSpan) :=
  let bs2 := match token.value with
    | Token.Param _ | Token.AuthParam _ | Token.CallSite _ _ =>
      if bs.1.value.length ≠ 0 then
        ((⟨token.stop, token.stop, []⟩ : SpanRef Str),
          bs.2 ++ [bs.1.map InterpSpan.Literal])
      else bs
    | Token.StringLiteral lit | Token.Word lit | Token.Space lit =>
      (⟨bs.1.start, bs.1.stop, bs.1.value ++ lit⟩, bs.2)
    | Token.Other c => (⟨bs.1.start, bs.1.stop, bs.1.value ++ [c]⟩, bs.2)
  match token.value with
  | Token.Param p => (bs2.1, bs2.2 ++ [⟨token.start, token.stop, InterpSpan.Param p⟩])
  | Token.AuthParam p => (bs2.1, bs2.2 ++ [⟨token.start, token.stop, InterpSpan.AuthParam p⟩])
  | Token.CallSite f args =>
    (bs2.1, bs2.2 ++ [⟨token.start, token.stop, InterpSpan.CallSite f args⟩])
  | _ => bs2

/-- `parse_sql_statement` (sql.rs:126-208): fold the tokens into a
`StatementSpan`, appending the final literal if non-empty, and rename the
`Many1` error (no leading token) to "statement(s) are empty". -/
def parse_sql_statement : Str → PResult StatementSpan := fun input =>
  match foldMany1P (spanParse parse_token)
      ((⟨input, input, []⟩ : SpanRef Str), ([] : List (SpanRef InterpSpan))) psFold input with
  | Except.ok (rest, fs) =>
    Except.ok (rest,
      ⟨if fs.1.value.length = 0 then fs.2 else fs.2 ++ [fs.1.map InterpSpan.Literal]⟩)
  | Except.error e =>
    Except.error (e.mapErr (fun err =>
      match err with
      | ParseError.NomError i NomErrorKind.Many1 =>
        ParseError.constError i "statement(s) are empty"
      | _ => err))

/-- `parse_statements` (sql.rs:210-230): statements separated by runs of `;`,
an optional trailing `;`, empty statements (per `StatementSpan::is_empty`)
filtered out, and a fatal error when nothing remains. -/
def parse_statements : Str → PResult (List (SpanRef StatementSpan)) := fun og_input =>
  match sepList1P (foldMany1P lex_end_statement () (fun _ _ => ()))
      (spanParse parse_sql_statement) og_input with
  | Except.error e => Except.error e
  | Except.ok (input, res) =>
    match optP lex_end_statement input with
    | Except.error e => Except.error e
    | Except.ok (input2, _) =>
      if (res.filter (fun s => !(StatementSpan.is_empty s.value))).length = 0 then
        Except.error (NomErr.failure (ParseError.errorKind og_input
          (ErrorKind.ConstError "this module has no statements")))
      else
        Except.ok (input2, res.filter (fun s => !(StatementSpan.is_empty s.value)))

/-- Claim C7 (code bug): statement splitting keeps exactly the statements
`StatementSpan::is_empty` rejects (first conjunct, over every input), and
consecutive separators collapse, so `"select 1;  ;  ;"` parses to exactly one
statement (second conjunct).  But `is_empty` is not "all nodes are
whitespace-only literals": its `CallSite` arm returns `true` inside `all`
(against its own comment), so the call-site-only statement parsed from
`"@f(x)"` counts as empty (third conjunct) and `parse_statements` rejects the
input with the fatal "this module has no statements" error (fourth conjunct)
instead of keeping it. -/
theorem claim_C7_statement_filtering :
    (∀ (og rest : Str) (res : List (SpanRef StatementSpan)),
      parse_statements og = Except.ok (rest, res) →
      ∀ s ∈ res, StatementSpan.is_empty s.value = false) ∧
    (parse_statements (s2l "select 1;  ;  ;")).map
      (fun r => (r.1, r.2.map (fun s => s.value.interps.map (fun i => i.value)))) =
      Except.ok ([], [[InterpSpan.Literal (s2l "select 1")]]) ∧
    (parse_sql_statement (s2l "@f(x)")).map
      (fun r => (r.1, r.2.interps.map (fun i => i.value), StatementSpan.is_empty r.2)) =
      Except.ok ([], [InterpSpan.CallSite (s2l "f") [⟨s2l "x)", s2l ")", s2l "x"⟩]], true) ∧
    parse_statements (s2l "@f(x)") =
      Except.error (NomErr.failure (ParseError.ErrorKind (s2l "@f(x)")
        (ErrorKind.ConstError "this module has no statements"))) := by
  refine ⟨?_, rfl, rfl, rfl⟩
  intro og rest res h s hs
  unfold parse_statements at h
  cases hsep : sepList1P (foldMany1P lex_end_statement () (fun _ _ => ()))
      (spanParse parse_sql_statement) og with
  | error e =>
    rw [hsep] at h
    exact Except.noConfusion h
  | ok ir =>
    obtain ⟨input, res0⟩ := ir
    rw [hsep] at h
    cases hopt : optP lex_end_statement input with
    | error e =>
      simp only [hopt] at h
      exact Except.noConfusion h
    | ok ir2 =>
      obtain ⟨input2, u⟩ := ir2
      simp only [hopt] at h
      by_cases hz : (res0.filter (fun s => !(StatementSpan.is_empty s.value))).length = 0
      · rw [if_pos hz] at h
        exact Except.noConfusion h
      · rw [if_neg hz] at h
        have h2 := Except.ok.inj h
        have h3 : res0.filter (fun s => !(StatementSpan.is_empty s.value)) = res :=
          congrArg Prod.snd h2
        rw [← h3] at hs
        have := List.of_mem_filter hs
        simpa using this

/-- Witness for the universally quantified conjunct of C7, at the concrete
input `"select 1;  ;  ;"`. -/
theorem claim_C7_statement_filtering_witness :
    ∃ rest res, parse_statements (s2l "select 1;  ;  ;") = Except.ok (rest, res) ∧
      ∀ s ∈ res, StatementSpan.is_empty s.value = false := by
  refine ⟨(parse_statements (s2l "select 1;  ;  ;")).toOption.get (by decide) |>.1,
    (parse_statements (s2l "select 1;  ;  ;")).toOption.get (by decide) |>.2, ?_, ?_⟩
  · rfl
  · exact claim_C7_statement_filtering.1 (s2l "select 1;  ;  ;") _ _ rfl

/-! ### `codegen/ast/decorator.rs`: the decorator combinator and `parse_import` -/

/-- The `decorator` combinator (decorator.rs:121-133): optional leading line
space, `@`, the decorator name, line space (`line_space1`, which never fails),
then the cut body and trailing line space. -/
def decorator {A : Type} (name : String) (p : Str → PResult A) : Str → PResult A :=
  delimitedP
    (pairP (pairP (pairP line_space0 (tagP (s2l "@"))) (tagP (s2l name))) line_space1)
    (cutP p) line_space0

/-- The body closure of `Decorator::parse_import` (decorator.rs:65-89): name,
`from`, then a quoted literal.  `literal.len()` is the length of the literal
*including* both quotes, so the `< 3` check only requires one character
between the quotes; the path is the literal with first and last character
stripped, and an absolute path is a fatal error. -/
def importBody : Str → PResult (SpanRef Str × SpanRef Str) := fun input =>
  match spanParse (takeWhileP is_alpha_or_underscore) input with
  | Except.error e => Except.error e
  | Except.ok (input, import_name) =>
    match line_space1 input with
    | Except.error e => Except.error e
    | Except.ok (input, _) =>
      match tagP (s2l "from") input with
      | Except.error e => Except.error e
      | Except.ok (input, _) =>
        match line_space1 input with
        | Except.error e => Except.error e
        | Except.ok (input, _) =>
          match spanParse string_literal input with
          | Except.error e => Except.error e
          | Except.ok (input, literal) =>
            if literal.value.length < 3 then
              Except.error (NomErr.failure (ParseError.constError literal.start
                "invalid relative path"))
            else
              if pathIsAbsolute
                  (literal.map (fun p => (p.drop 1).take (p.length - 2))).value then
                Except.error (NomErr.failure (ParseError.constError literal.start
                  "path is not a valid relative path"))
              else
                Except.ok (input, (import_name,
                  literal.map (fun p => (p.drop 1).take (p.length - 2))))

/-- `Decorator::parse_import` (decorator.rs:64-91). -/
def Decorator.parse_import : Str → PResult (SpanRef Str × SpanRef Str) :=
  decorator "import" importBody

/-- Counterexample to C9's "at least 3 characters between the quotes": an import
whose quoted path is the single character `a` parses successfully. -/
theorem claim_C9_counterexample :
    (Decorator.parse_import
        (s2l "@import x from " ++ [Char.ofNat 39, Char.ofNat 97, Char.ofNat 39])).map
      (fun r => (r.1, r.2.1.value, r.2.2.value)) =
      Except.ok ([], s2l "x", s2l "a") := rfl

/-- Claim C9 (corrected): `parse_import` succeeds only on relative paths with
at least 3 characters *including* the quotes — i.e. at least one character
between the quotes, not three (first conjunct: every successful parse returns
a relative path of length ≥ 1).  Absolute paths (second conjunct) and
literals shorter than the minimum (third conjunct, empty quotes) are fatal
`nom::Err::Failure`s at the literal's span. -/
theorem claim_C9_import_path_validation :
    (∀ (input rest : Str) (name path : SpanRef Str),
      Decorator.parse_import input = Except.ok (rest, (name, path)) →
      pathIsAbsolute path.value = false ∧ 1 ≤ path.value.length) ∧
    Decorator.parse_import
        (s2l "@import x from " ++ [Char.ofNat 39] ++ s2l "/a" ++ [Char.ofNat 39]) =
      Except.error (NomErr.failure (ParseError.ErrorKind
        ([Char.ofNat 39] ++ s2l "/a" ++ [Char.ofNat 39])
        (ErrorKind.ConstError "path is not a valid relative path"))) ∧
    Decorator.parse_import (s2l "@import x from " ++ [Char.ofNat 39, Char.ofNat 39]) =
      Except.error (NomErr.failure (ParseError.ErrorKind [Char.ofNat 39, Char.ofNat 39]
        (ErrorKind.ConstError "invalid relative path"))) := by
  refine ⟨?_, rfl, rfl⟩
  intro input rest name path h
  unfold Decorator.parse_import decorator at h
  unfold delimitedP at h
  cases hpre : pairP (pairP (pairP line_space0 (tagP (s2l "@"))) (tagP (s2l "import")))
      line_space1 input with
  | error e =>
    simp only [hpre] at h
    exact Except.noConfusion h
  | ok i1p =>
    obtain ⟨i1, pre⟩ := i1p
    simp only [hpre] at h
    cases hcut : cutP importBody i1 with
    | error e =>
      simp only [hcut] at h
      exact Except.noConfusion h
    | ok i2b =>
      obtain ⟨i2, b⟩ := i2b
      simp only [hcut] at h
      cases hls : line_space0 i2 with
      | error e =>
        simp only [hls] at h
        exact Except.noConfusion h
      | ok i3p =>
        obtain ⟨i3, w⟩ := i3p
        simp only [hls] at h
        have hb : b = (name, path) := congrArg Prod.snd (Except.ok.inj h)
        subst hb
        -- a successful `cut` means the body itself succeeded
        have hin : importBody i1 = Except.ok (i2, (name, path)) := by
          unfold cutP at hcut
          cases hbody : importBody i1 with
          | ok v =>
            simp only [hbody] at hcut
            exact hcut
          | error e =>
            cases e with
            | error e0 =>
              simp only [hbody] at hcut
              exact Except.noConfusion hcut
            | failure e0 =>
              simp only [hbody] at hcut
              exact Except.noConfusion hcut
        -- now invert the body
        unfold importBody at hin
        cases h1 : spanParse (takeWhileP is_alpha_or_underscore) i1 with
        | error e => simp only [h1] at hin; exact Except.noConfusion hin
        | ok p1 =>
          obtain ⟨j1, import_name⟩ := p1
          simp only [h1] at hin
          cases h2 : line_space1 j1 with
          | error e => simp only [h2] at hin; exact Except.noConfusion hin
          | ok p2 =>
            obtain ⟨j2, w2⟩ := p2
            simp only [h2] at hin
            cases h3 : tagP (s2l "from") j2 with
            | error e => simp only [h3] at hin; exact Except.noConfusion hin
            | ok p3 =>
              obtain ⟨j3, w3⟩ := p3
              simp only [h3] at hin
              cases h4 : line_space1 j3 with
              | error e => simp only [h4] at hin; exact Except.noConfusion hin
              | ok p4 =>
                obtain ⟨j4, w4⟩ := p4
                simp only [h4] at hin
                cases h5 : spanParse string_literal j4 with
                | error e => simp only [h5] at hin; exact Except.noConfusion hin
                | ok p5 =>
                  obtain ⟨j5, literal⟩ := p5
                  simp only [h5] at hin
                  by_cases hlen : literal.value.length < 3
                  · rw [if_pos hlen] at hin
                    exact Except.noConfusion hin
                  · rw [if_neg hlen] at hin
                    by_cases habs : pathIsAbsolute
                        (literal.map (fun p => (p.drop 1).take (p.length - 2))).value = true
                    · rw [if_pos habs] at hin
                      exact Except.noConfusion hin
                    · rw [if_neg habs] at hin
                      have hpair := Except.ok.inj hin
                      have hpath : path =
                          literal.map (fun p => (p.drop 1).take (p.length - 2)) :=
                        (congrArg Prod.snd (congrArg Prod.snd hpair)).symm
                      constructor
                      · rw [hpath]
                        exact eq_false_of_ne_true habs
                      · rw [hpath]
                        show 1 ≤ ((literal.value.drop 1).take (literal.value.length - 2)).length
                        rw [List.length_take, List.length_drop]
                        omega

/-- Witness for the universally quantified conjunct of C9, at the concrete import
`@import util from "./util.sql"` (single-quoted). -/
theorem claim_C9_import_path_validation_witness :
    (Decorator.parse_import (s2l "@import util from " ++ [Char.ofNat 39] ++
        s2l "./util.sql" ++ [Char.ofNat 39])).map
      (fun r => (r.1, r.2.1.value, r.2.2.value)) =
      Except.ok ([], s2l "util", s2l "./util.sql") ∧
    (∀ rest name path, Decorator.parse_import (s2l "@import util from " ++ [Char.ofNat 39] ++
        s2l "./util.sql" ++ [Char.ofNat 39]) = Except.ok (rest, (name, path)) →
      pathIsAbsolute path.value = false ∧ 1 ≤ path.value.length) :=
  ⟨rfl, fun rest name path h =>
    claim_C9_import_path_validation.1 _ rest name path h⟩

end JustSQL
